import Mathlib

/-!
# Unreleased-security-fix scanner

A shallow embedding of the scan pipeline (`pkg/scanner`, with the parts of
`pkg/advisory`, `pkg/registry` and `pkg/vcs` it calls, and the line-based
parsers of `pkg/lockfile` that feed it) and of the issue reconciliation engine
(`pkg/issues`), followed by theorems about them.

Conventions of the embedding:

* a Go `string` is a Lean `String`; the functions of Go's `strings` package are
  defined on the list of characters of the string;
* a Go function returning `(v, error)` returns a pair whose last component is
  `Option String` (`none` is the nil error), so that what is returned next to an
  error stays visible; the methods of an external capability (an interface
  implemented outside the embedded code, an HTTP endpoint) return `Except`;
* a Go `map[string]V` is an association list with distinct keys, `GoMap V`;
* external capabilities answer as functions of their arguments.
-/

set_option autoImplicit false

/-! ## Go's `strings` package -/

namespace strings

/-- Go `strings.HasPrefix`. -/
def HasPrefix (s pre : String) : Bool := pre.data.isPrefixOf s.data

/-- Go `strings.HasSuffix`. -/
def HasSuffix (s suf : String) : Bool := suf.data.isSuffixOf s.data

/-- Go `strings.TrimPrefix`: `s` without the leading `pre`, or `s` itself. -/
def TrimPrefix (s pre : String) : String :=
  if HasPrefix s pre then ⟨s.data.drop pre.data.length⟩ else s

/-- Go `strings.TrimSuffix`: `s` without the trailing `suf`, or `s` itself. -/
def TrimSuffix (s suf : String) : String :=
  if HasSuffix s suf then ⟨s.data.take (s.data.length - suf.data.length)⟩ else s

/-- Whether `sub` occurs in the character list at some position. -/
def containsAux (sub : List Char) : List Char → Bool
  | [] => sub.isPrefixOf []
  | c :: t => sub.isPrefixOf (c :: t) || containsAux sub t

/-- Go `strings.Contains`. -/
def Contains (s sub : String) : Bool := containsAux sub.data s.data

/-- Lower-case image of one rune. Besides the ASCII capitals, U+0130 and U+212A
are the two runes that Go's `unicode.ToLower` sends to an ASCII letter; every
other rune has a non-ASCII image under Go's mapping and is left as it is here. -/
def toLowerRune (c : Char) : Char :=
  if c = Char.ofNat 0x130 then 'i'
  else if c = Char.ofNat 0x212A then 'k'
  else c.toLower

/-- Upper-case image of one rune. Besides the ASCII small letters, U+0131 and
U+017F are the two runes that Go's `unicode.ToUpper` sends to an ASCII letter;
every other rune has a non-ASCII image under Go's mapping and is left as it is
here. -/
def toUpperRune (c : Char) : Char :=
  if c = Char.ofNat 0x131 then 'I'
  else if c = Char.ofNat 0x17F then 'S'
  else c.toUpper

/-- Go `strings.ToLower`. -/
def ToLower (s : String) : String := ⟨s.data.map toLowerRune⟩

/-- Go `strings.ToUpper`. -/
def ToUpper (s : String) : String := ⟨s.data.map toUpperRune⟩

/-- Scan for non-overlapping occurrences of a one-character separator. -/
def Count (s : String) (sep : Char) : Nat := s.data.count sep

/-- The pieces of `strings.SplitN(s, sep, n)` for a one-character separator,
`cur` being the piece under construction: at most `n` pieces, the last one
holding the unsplit remainder. -/
def splitNAux (sep : Char) : Nat → List Char → List Char → List (List Char)
  | 0, _, _ => []
  | 1, cur, rest => [cur ++ rest]
  | _ + 2, cur, [] => [cur]
  | n + 2, cur, c :: rest =>
    if c = sep then cur :: splitNAux sep (n + 1) [] rest
    else splitNAux sep (n + 2) (cur ++ [c]) rest

/-- Go `strings.SplitN(s, sep, n)` for a one-character separator and `n ≥ 0`. -/
def SplitN (s : String) (sep : Char) (n : Nat) : List String :=
  (splitNAux sep n [] s.data).map String.mk

/-- Replace the first occurrence of `old` in the character list. -/
def replaceFirst (old new : List Char) : List Char → List Char
  | [] => if old.isPrefixOf [] then new else []
  | c :: t =>
    if old.isPrefixOf (c :: t) then new ++ (c :: t).drop old.length
    else c :: replaceFirst old new t

/-- Go `strings.Replace(s, old, new, 1)`. -/
def Replace1 (s old new : String) : String := ⟨replaceFirst old.data new.data s.data⟩

/-- Go `unicode.IsSpace`: the white space characters of Unicode. -/
def isSpace (c : Char) : Bool :=
  c = '\t' || c = '\n' || c = Char.ofNat 0x0B || c = Char.ofNat 0x0C || c = '\r' || c = ' '
    || c = Char.ofNat 0x85 || c = Char.ofNat 0xA0 || c = Char.ofNat 0x1680
    || (0x2000 ≤ c.toNat && c.toNat ≤ 0x200A)
    || c = Char.ofNat 0x2028 || c = Char.ofNat 0x2029 || c = Char.ofNat 0x202F
    || c = Char.ofNat 0x205F || c = Char.ofNat 0x3000

/-- Go `strings.TrimSpace`: `s` without leading and trailing white space. -/
def TrimSpace (s : String) : String :=
  ⟨((s.data.dropWhile isSpace).reverse.dropWhile isSpace).reverse⟩

/-- The parts before and after the first occurrence of `sep` in the character
list, `before` being the characters already passed. -/
def cutAux (sep : List Char) (before : List Char) : List Char → Option (List Char × List Char)
  | [] => if sep.isPrefixOf [] then some (before, []) else none
  | c :: t =>
    if sep.isPrefixOf (c :: t) then some (before, (c :: t).drop sep.length)
    else cutAux sep (before ++ [c]) t

/-- Go `strings.Index(s, sep)` with the two slices taken at it: for
`idx = strings.Index(s, sep)`, `none` when `idx < 0`, and otherwise `s[:idx]` and
`s[idx+len(sep):]`. -/
def Cut (s sep : String) : Option (String × String) :=
  (cutAux sep.data [] s.data).map fun p => (⟨p.1⟩, ⟨p.2⟩)

/-- The fields of the character list, `cur` being the field under way. -/
def fieldsAux (cur : List Char) : List Char → List (List Char)
  | [] => if cur = [] then [] else [cur]
  | c :: t =>
    if isSpace c then (if cur = [] then fieldsAux [] t else cur :: fieldsAux [] t)
    else fieldsAux (cur ++ [c]) t

/-- Go `strings.Fields`: the maximal runs of characters that are not white
space. -/
def Fields (s : String) : List String := (fieldsAux [] s.data).map String.mk

end strings

/-- Go `map[string]V`: an association list, at most one entry per key. -/
structure GoMap (α : Type) where
  entries : List (String × α)

namespace GoMap

variable {α : Type}

/-- Go `make(map[string]V)`. -/
def empty : GoMap α := ⟨[]⟩

/-- Lookup in an association list. -/
def lookupAux (k : String) : List (String × α) → Option α
  | [] => none
  | (k', v) :: rest => if k' = k then some v else lookupAux k rest

/-- Go `v, ok := m[k]`. -/
def lookup (m : GoMap α) (k : String) : Option α := lookupAux k m.entries

/-- Assignment in an association list: overwrite the entry of `k`, or add one. -/
def insertAux (k : String) (v : α) : List (String × α) → List (String × α)
  | [] => [(k, v)]
  | (k', v') :: rest => if k' = k then (k, v) :: rest else (k', v') :: insertAux k v rest

/-- Go `m[k] = v`. -/
def insert (m : GoMap α) (k : String) (v : α) : GoMap α := ⟨insertAux k v m.entries⟩

/-- The keys of the map. -/
def keys (m : GoMap α) : List String := m.entries.map Prod.fst

end GoMap

/-! ## `pkg/lockfile`, `pkg/config`, `pkg/advisory/source.go`, `pkg/vcs/repo.go` -/

namespace lockfile

/-- Go `lockfile.Dependency`. -/
structure Dependency where
  Name : String
  Version : String
  Ecosystem : String
deriving DecidableEq


/-- A file read line by line: the error of `os.Open`, or the lines that
`bufio.Scanner` yields (`scanner.Text()` at each `scanner.Scan()`) with the
error that `scanner.Err()` reports after the last of them. -/
abbrev FileLines := Except String (List String × Option String)

/-- The loop of `parseRequirement` over the comparison operators. -/
def parseOperators (line : String) : List String → String × String
  | [] => (strings.TrimSpace line, "")
  | op :: rest =>
    match strings.Cut line op with
    | some (before, after) =>
      let name := strings.TrimSpace before
      let version := strings.TrimSpace after
      let version :=
        match strings.Cut version "," with
        | some (v, _) => v
        | none => version
      (name, version)
    | none => parseOperators line rest

/-- Go `lockfile.parseRequirement`: `(name, version)`. -/
def parseRequirement (line : String) : String × String :=
  let line :=
    match strings.Cut line ";" with
    | some (l, _) => l
    | none => line
  let line := strings.TrimSpace line
  parseOperators line ["==", ">=", "<=", "~=", "!=", ">", "<"]

/-- Body of the loop of `(*PyPIParser).Parse` for one line of the file: the
slice `deps` after the iteration. -/
def pypiLine (deps : List Dependency) (text : String) : List Dependency :=
  let line := strings.TrimSpace text
  if line = "" ∨ strings.HasPrefix line "#" ∨ strings.HasPrefix line "-" then deps
  else
    let nv := parseRequirement line
    if nv.1 = "" then deps
    else deps ++ [{ Name := nv.1, Version := nv.2, Ecosystem := "PyPI" }]

/-- Go `(*PyPIParser).Parse`: `(deps, err)`. -/
def PyPIParser.Parse (file : FileLines) : List Dependency × Option String :=
  match file with
  | .error err => ([], some err)
  | .ok (lines, scanErr) => (lines.foldl pypiLine [], scanErr)

/-- Body of the loop of `(*GoModParser).Parse` for one line of the file: the map
`seen` and the slice `deps` after the iteration. -/
def gomodLine (st : GoMap Bool × List Dependency) (text : String) :
    GoMap Bool × List Dependency :=
  match strings.Fields text with
  | mod :: ver :: _ =>
    let ver := strings.TrimSuffix ver "/go.mod"
    let key := mod ++ "@" ++ ver
    if (st.1.lookup key).getD false then st
    else (st.1.insert key true, st.2 ++ [{ Name := mod, Version := ver, Ecosystem := "Go" }])
  | _ => st

/-- Go `(*GoModParser).Parse`: `(deps, err)`. -/
def GoModParser.Parse (file : FileLines) : List Dependency × Option String :=
  match file with
  | .error err => ([], some err)
  | .ok (lines, scanErr) => ((lines.foldl gomodLine (GoMap.empty, [])).2, scanErr)

end lockfile

namespace config

/-- Go `config.Ignore`. -/
structure Ignore where
  Advisories : List String
  Packages : List String
deriving DecidableEq

/-- Go `config.Issues`. -/
structure Issues where
  Labels : List String
  Assignees : List String
deriving DecidableEq

/-- Go `config.Config`. -/
structure Config where
  Severity : String
  Ecosystems : List String
  Lockfiles : List String
  DryRun : Bool
  Output : String
  Repo : String
  Token : String
  Ignore : Ignore
  Issues : Issues
deriving DecidableEq

/-- Go `config.Default`. -/
def Default : Config :=
  { Severity := "medium", Ecosystems := ["npm", "pypi", "go"], Lockfiles := [],
    DryRun := false, Output := "", Repo := "", Token := "",
    Ignore := { Advisories := [], Packages := [] },
    Issues := { Labels := ["security", "unreleased-fix"], Assignees := [] } }

end config

namespace advisory

/-- Go `advisory.Advisory`; a `time.Time` is the number of nanoseconds since the
zero time. -/
structure Advisory where
  ID : String
  Aliases : List String
  Summary : String
  Details : String
  Severity : String
  Published : Int
  Modified : Int
  FixCommit : String
  FixedIn : String
  References : List String
deriving DecidableEq

/-- Go `advisory.PackageQuery`. -/
structure PackageQuery where
  Ecosystem : String
  Name : String
  Version : String
deriving DecidableEq

/-- Go interface `advisory.Source`. -/
structure Source where
  QueryPackage : String → String → String → Except String (List Advisory)
  QueryBatch : List PackageQuery → Except String (GoMap (List Advisory))

end advisory

namespace vcs

/-- Go `vcs.Tag`. -/
structure Tag where
  Name : String
  Commit : String
deriving DecidableEq

/-- Go interface `vcs.RepoClient`. -/
structure RepoClient where
  ListTags : String → String → Except String (List Tag)
  IsAncestor : String → String → String → String → Except String Bool
  GetLatestRelease : String → String → Except String String

/-- A call of the version-control oracle, the methods of `RepoClient` that
`Scan` uses, with its arguments. -/
inductive OracleCall where
  | ListTags (owner repo : String)
  | IsAncestor (owner repo tag commitSHA : String)
deriving DecidableEq

/-- Go `%q` for the message of `ParseGitHubRepo`: the string between double
quotes, with quotes and backslashes escaped (other escapes are not modelled). -/
def quote (s : String) : String :=
  "\"" ++ String.mk (s.data.flatMap fun c =>
    if c = '"' then ['\\', '"'] else if c = '\\' then ['\\', '\\'] else [c]) ++ "\""

/-- Go `vcs.ParseGitHubRepo`: `(owner, repo, err)`. -/
def ParseGitHubRepo (repoURL : String) : String × String × Option String :=
  let repoURL := strings.TrimPrefix repoURL "https://"
  let repoURL := strings.TrimPrefix repoURL "http://"
  let repoURL := strings.TrimPrefix repoURL "github.com/"
  let repoURL := strings.TrimSuffix repoURL ".git"
  let repoURL := strings.TrimSuffix repoURL "/"
  match strings.SplitN repoURL '/' 3 with
  | p0 :: p1 :: _ =>
    if p0 = "" ∨ p1 = "" then ("", "", some ("cannot parse GitHub repo from " ++ quote repoURL))
    else (p0, p1, none)
  | _ => ("", "", some ("cannot parse GitHub repo from " ++ quote repoURL))

/-- The string that `ParseGitHubRepo` splits into segments: `repoURL` without the
scheme, the leading `github.com/`, the trailing `.git` and one trailing `/`. -/
def strippedLocation (repoURL : String) : String :=
  strings.TrimSuffix (strings.TrimSuffix (strings.TrimPrefix (strings.TrimPrefix
    (strings.TrimPrefix repoURL "https://") "http://") "github.com/") ".git") "/"

end vcs

/-! ## `pkg/registry` -/

namespace registry

/-- Go `registry.PackageInfo`. -/
structure PackageInfo where
  Name : String
  SourceRepo : String
  LatestVersion : String
deriving DecidableEq

/-- Go interface `registry.Registry`. -/
structure Registry where
  LookupSourceRepo : String → Except String PackageInfo

/-- Decoded body of the npm registry's answer for a package. -/
structure NPMPackage where
  RepositoryType : String
  RepositoryURL : String
  DistTagsLatest : String
deriving DecidableEq

/-- Decoded body of PyPI's answer for a package; `ProjectURLs` lists the entries
of the decoded map in the order in which a `range` over it yields them. -/
structure PyPIPackage where
  Version : String
  HomePage : String
  ProjectURLs : GoMap String

/-- The two package registries as seen through their HTTP endpoints: for a
package name, the decoded answer, or the error of the request (transport error,
status other than 200, undecodable body). -/
structure Network where
  npmGet : String → Except String NPMPackage
  pypiGet : String → Except String PyPIPackage

/-- Go `registry.normalizeGitURL`. -/
def normalizeGitURL (raw : String) : String :=
  let raw := strings.TrimPrefix raw "git+"
  let raw := strings.TrimPrefix raw "git://"
  let raw := strings.TrimPrefix raw "ssh://git@"
  let raw := strings.TrimSuffix raw ".git"
  let raw := strings.TrimPrefix raw "https://"
  let raw := strings.TrimPrefix raw "http://"
  raw

/-- First loop of `resolveSourceURL`: the well-known keys, in order. -/
def resolveWellKnown (projectURLs : GoMap String) : List String → Option String
  | [] => none
  | key :: rest =>
    match projectURLs.lookup key with
    | some url =>
      if strings.Contains url "github.com" then some (normalizeGitURL url)
      else resolveWellKnown projectURLs rest
    | none => resolveWellKnown projectURLs rest

/-- Last loop of `resolveSourceURL`: any entry that names GitHub. -/
def resolveAny : List (String × String) → String
  | [] => ""
  | (_, url) :: rest =>
    if strings.Contains url "github.com" then normalizeGitURL url else resolveAny rest

/-- Go `registry.resolveSourceURL`. -/
def resolveSourceURL (projectURLs : GoMap String) (homePage : String) : String :=
  match resolveWellKnown projectURLs ["Source", "Source Code", "Repository", "GitHub", "Code"] with
  | some r => r
  | none =>
    if strings.Contains homePage "github.com" then normalizeGitURL homePage
    else resolveAny projectURLs.entries

/-- Go `(*NPMRegistry).LookupSourceRepo`. -/
def NPMRegistry (net : Network) : Registry where
  LookupSourceRepo name :=
    match net.npmGet name with
    | .error e => .error e
    | .ok pkg =>
      .ok { Name := name, SourceRepo := normalizeGitURL pkg.RepositoryURL,
            LatestVersion := pkg.DistTagsLatest }

/-- Go `(*PyPIRegistry).LookupSourceRepo`. -/
def PyPIRegistry (net : Network) : Registry where
  LookupSourceRepo name :=
    match net.pypiGet name with
    | .error e => .error e
    | .ok pkg =>
      .ok { Name := name, SourceRepo := resolveSourceURL pkg.ProjectURLs pkg.HomePage,
            LatestVersion := pkg.Version }

/-- Go `registry.NewRegistry`; `none` is the nil registry. -/
def NewRegistry (net : Network) (ecosystem : String) : Option Registry :=
  if ecosystem = "npm" then some (NPMRegistry net)
  else if ecosystem = "PyPI" then some (PyPIRegistry net)
  else none

end registry

/-! ## `pkg/advisory/osv.go` -/

namespace advisory

/-- Go `osvSeverity`. -/
structure osvSeverity where
  Type_ : String
  Score : String
deriving DecidableEq

/-- Go `osvEvent`. -/
structure osvEvent where
  Introduced : String
  Fixed : String
deriving DecidableEq

/-- Go `osvRange`. -/
structure osvRange where
  Type_ : String
  Events : List osvEvent
deriving DecidableEq

/-- Go `osvAffectedPkg`. -/
structure osvAffectedPkg where
  Name : String
  Ecosystem : String
deriving DecidableEq

/-- Go `osvAffected`. -/
structure osvAffected where
  Package : osvAffectedPkg
  Ranges : List osvRange
deriving DecidableEq

/-- Go `osvReference`. -/
structure osvReference where
  Type_ : String
  URL : String
deriving DecidableEq

/-- Go `osvVuln`. -/
structure osvVuln where
  ID : String
  Aliases : List String
  Summary : String
  Details : String
  Severity : List osvSeverity
  Published : String
  Modified : String
  Affected : List osvAffected
  References : List osvReference
deriving DecidableEq

/-- Go `osvBatchResult`. -/
structure osvBatchResult where
  Vulns : List osvVuln
deriving DecidableEq

/-- Go `osvBatchResponse`. -/
structure osvBatchResponse where
  Results : List osvBatchResult
deriving DecidableEq

/-- Go `advisory.normalizeSeverity`. -/
def normalizeSeverity (cvssScore : String) : String :=
  let cvssScore := strings.ToUpper cvssScore
  if strings.Contains cvssScore "CRITICAL" then "critical"
  else if strings.Contains cvssScore "HIGH" then "high"
  else if strings.Contains cvssScore "MEDIUM" then "medium"
  else "low"

/-- The loop over the events of one range: the last non-empty `Fixed` wins. -/
def lastFixed (cur : String) (events : List osvEvent) : String :=
  events.foldl (fun cur event => if event.Fixed ≠ "" then event.Fixed else cur) cur

/-- The loop over the ranges of one affected entry, updating
`(FixCommit, FixedIn)`. -/
def scanRanges (cur : String × String) (ranges : List osvRange) : String × String :=
  ranges.foldl (fun cur r =>
    let cur := if r.Type_ = "GIT" then (lastFixed cur.1 r.Events, cur.2) else cur
    if r.Type_ = "ECOSYSTEM" then (cur.1, lastFixed cur.2 r.Events) else cur) cur

/-- Go `a.X, _ = time.Parse(time.RFC3339, s)` guarded by `s != ""`: the zero time
when the string is empty or does not parse. -/
def parseOrZero (parseTime : String → Option Int) (s : String) : Int :=
  if s ≠ "" then (parseTime s).getD 0 else 0

/-- Body of the loop of `convertOSVVulns`: the advisory built from one record.
`parseTime` is `time.Parse(time.RFC3339, ·)`. -/
def convertOSVVuln (parseTime : String → Option Int) (v : osvVuln) : Advisory :=
  let fixes := v.Affected.foldl (fun cur affected => scanRanges cur affected.Ranges) ("", "")
  { ID := v.ID, Aliases := v.Aliases, Summary := v.Summary, Details := v.Details,
    References := v.References.map (·.URL),
    Severity := match v.Severity with
      | [] => ""
      | sev :: _ => normalizeSeverity sev.Score,
    FixCommit := fixes.1, FixedIn := fixes.2,
    Published := parseOrZero parseTime v.Published,
    Modified := parseOrZero parseTime v.Modified }

/-- Go `advisory.convertOSVVulns`. -/
def convertOSVVulns (parseTime : String → Option Int) (vulns : List osvVuln) : List Advisory :=
  vulns.map (convertOSVVuln parseTime)

/-- The loop of `QueryBatch` over `result.Results` from index `i` on: entry `i`
is stored under the key of query `i`, and the loop stops at the first index that
has no query. -/
def batchLoop (parseTime : String → Option Int) (queries : List PackageQuery) :
    Nat → List osvBatchResult → GoMap (List Advisory) → GoMap (List Advisory)
  | _, [], advisories => advisories
  | i, entry :: rest, advisories =>
    match queries.get? i with
    | none => advisories
    | some q =>
      batchLoop parseTime queries (i + 1) rest
        (advisories.insert (q.Ecosystem ++ ":" ++ q.Name) (convertOSVVulns parseTime entry.Vulns))

/-- Go `OSVClient`: `post` is the OSV `/querybatch` endpoint, giving the decoded
body for the queries sent, or the error of the request (marshalling, transport,
status other than 200, undecodable body, already worded by `QueryBatch`). -/
structure OSVClient where
  post : List PackageQuery → Except String osvBatchResponse
  postOne : PackageQuery → Except String (List osvVuln)
  parseTime : String → Option Int

/-- Go `(*OSVClient).QueryPackage`. -/
def OSVClient.QueryPackage (c : OSVClient) (ecosystem name version : String) :
    Except String (List Advisory) :=
  match c.postOne { Ecosystem := ecosystem, Name := name, Version := version } with
  | .error e => .error e
  | .ok vulns => .ok (convertOSVVulns c.parseTime vulns)

/-- Go `(*OSVClient).QueryBatch`. -/
def OSVClient.QueryBatch (c : OSVClient) (queries : List PackageQuery) :
    Except String (GoMap (List Advisory)) :=
  match c.post queries with
  | .error e => .error e
  | .ok result => .ok (batchLoop c.parseTime queries 0 result.Results GoMap.empty)

/-- The OSV client as an `advisory.Source`. -/
def OSVClient.toSource (c : OSVClient) : Source where
  QueryPackage := c.QueryPackage
  QueryBatch := c.QueryBatch

end advisory

/-! ## `pkg/scanner` -/

namespace scanner

open lockfile advisory

/-- Go `scanner.Finding`. -/
structure Finding where
  Advisory : advisory.Advisory
  Package : lockfile.Dependency
  FixCommit : String
  FixReleased : Bool
  FixRelease : String
  SourceRepo : String
deriving DecidableEq

/-- Go `scanner.Scanner`. -/
structure Scanner where
  advisorySource : advisory.Source
  repoClient : vcs.RepoClient
  config : config.Config

/-- The loop of `checkFixReleased` over the tags. -/
def checkTags (rc : vcs.RepoClient) (owner repo commitSHA : String) :
    List vcs.Tag → Bool × String × Option String
  | [] => (false, "", none)
  | tag :: rest =>
    match rc.IsAncestor owner repo tag.Name commitSHA with
    | .error _ => checkTags rc owner repo commitSHA rest
    | .ok isAnc =>
      if isAnc then (true, tag.Name, none) else checkTags rc owner repo commitSHA rest

/-- Go `(*Scanner).checkFixReleased`: `(released, releaseName, err)`. -/
def Scanner.checkFixReleased (s : Scanner) (sourceRepo commitSHA : String) :
    Bool × String × Option String :=
  match vcs.ParseGitHubRepo sourceRepo with
  | (_, _, some err) => (false, "", some err)
  | (owner, repo, none) =>
    match s.repoClient.ListTags owner repo with
    | .error err => (false, "", some err)
    | .ok tags => checkTags s.repoClient owner repo commitSHA tags

/-- Go `(*Scanner).isIgnored`. -/
def Scanner.isIgnored (s : Scanner) (adv : Advisory) (dep : Dependency) : Bool :=
  s.config.Ignore.Advisories.any (fun id => id = adv.ID || adv.Aliases.any (fun al => id = al))
    || s.config.Ignore.Packages.any (fun pkg => pkg = dep.Name)

/-- Go `severityRank`, read as `severityRank[k]`: a key that is absent has the
zero value. -/
def severityRank (k : String) : Nat :=
  if k = "low" then 1
  else if k = "medium" then 2
  else if k = "high" then 3
  else if k = "critical" then 4
  else 0

/-- Go `scanner.meetsMinSeverity`. -/
def meetsMinSeverity (severity minimum : String) : Bool :=
  if severity = "" then true
  else severityRank (strings.ToLower severity) ≥ severityRank (strings.ToLower minimum)

/-- Lines 74-80 of `Scan`: the source repo of the package is looked up in the
registry of its ecosystem and, when that succeeds, stored in the finding. -/
def lookupStep (net : registry.Network) (dep : Dependency) (finding : Finding) : Finding :=
  match registry.NewRegistry net dep.Ecosystem with
  | none => finding
  | some reg =>
    match reg.LookupSourceRepo dep.Name with
    | .ok info => { finding with SourceRepo := info.SourceRepo }
    | .error _ => finding

/-- Lines 82-88 of `Scan`: the release check, when it is attempted and returns no
error, sets `FixReleased` and `FixRelease`. -/
def releaseStep (s : Scanner) (finding : Finding) : Finding :=
  if finding.FixCommit ≠ "" ∧ finding.SourceRepo ≠ ""
      ∧ strings.Contains finding.SourceRepo "github.com" then
    match s.checkFixReleased finding.SourceRepo finding.FixCommit with
    | (released, releaseName, none) =>
      { finding with FixReleased := released, FixRelease := releaseName }
    | (_, _, some _) => finding
  else finding

/-- Body of the inner loop of `Scan` for one advisory of `dep`: the slice
`findings` after the iteration. -/
def scanAdvisory (net : registry.Network) (s : Scanner) (dep : Dependency)
    (findings : List Finding) (adv : Advisory) : List Finding :=
  if s.isIgnored adv dep then findings
  else if !meetsMinSeverity adv.Severity s.config.Severity then findings
  else
    let finding : Finding :=
      { Advisory := adv, Package := dep, FixCommit := adv.FixCommit,
        FixReleased := false, FixRelease := "", SourceRepo := "" }
    let finding := lookupStep net dep finding
    let finding := releaseStep s finding
    if !finding.FixReleased then findings ++ [finding] else findings

/-- First loop of `Scan`: one query per dependency, in order. -/
def buildQueries (deps : List Dependency) : List PackageQuery :=
  deps.map fun d => { Ecosystem := d.Ecosystem, Name := d.Name, Version := d.Version }

/-- Body of the outer loop of `Scan` for one dependency. -/
def scanDep (net : registry.Network) (s : Scanner) (advisoriesByPkg : GoMap (List Advisory))
    (findings : List Finding) (dep : Dependency) : List Finding :=
  let key := dep.Ecosystem ++ ":" ++ dep.Name
  match advisoriesByPkg.lookup key with
  | none => findings
  | some advs => advs.foldl (scanAdvisory net s dep) findings

/-- Go `(*Scanner).Scan`: `(findings, err)`. `net` is the network that
`registry.NewRegistry` reaches. -/
def Scanner.Scan (net : registry.Network) (s : Scanner) (deps : List Dependency) :
    List Finding × Option String :=
  match s.advisorySource.QueryBatch (buildQueries deps) with
  | .error err => ([], some ("query advisories: " ++ err))
  | .ok advisoriesByPkg => (deps.foldl (scanDep net s advisoriesByPkg) [], none)

/-! ### `Scan` with a record of the oracle calls

The same code once more, each function returning, besides its result, the calls
of `s.repoClient` that it made, in order. -/

/-- The loop of `checkFixReleased` over the tags, with the calls it makes. -/
def checkTagsLogged (rc : vcs.RepoClient) (owner repo commitSHA : String) :
    List vcs.Tag → (Bool × String × Option String) × List vcs.OracleCall
  | [] => ((false, "", none), [])
  | tag :: rest =>
    let call := vcs.OracleCall.IsAncestor owner repo tag.Name commitSHA
    match rc.IsAncestor owner repo tag.Name commitSHA with
    | .error _ =>
      ((checkTagsLogged rc owner repo commitSHA rest).1,
        call :: (checkTagsLogged rc owner repo commitSHA rest).2)
    | .ok isAnc =>
      if isAnc then ((true, tag.Name, none), [call])
      else
        ((checkTagsLogged rc owner repo commitSHA rest).1,
          call :: (checkTagsLogged rc owner repo commitSHA rest).2)

/-- Go `(*Scanner).checkFixReleased`, with the calls it makes. -/
def Scanner.checkFixReleasedLogged (s : Scanner) (sourceRepo commitSHA : String) :
    (Bool × String × Option String) × List vcs.OracleCall :=
  match vcs.ParseGitHubRepo sourceRepo with
  | (_, _, some err) => ((false, "", some err), [])
  | (owner, repo, none) =>
    match s.repoClient.ListTags owner repo with
    | .error err => ((false, "", some err), [vcs.OracleCall.ListTags owner repo])
    | .ok tags =>
      ((checkTagsLogged s.repoClient owner repo commitSHA tags).1,
        vcs.OracleCall.ListTags owner repo
          :: (checkTagsLogged s.repoClient owner repo commitSHA tags).2)

/-- Lines 82-88 of `Scan`, with the calls made. -/
def releaseStepLogged (s : Scanner) (finding : Finding) : Finding × List vcs.OracleCall :=
  if finding.FixCommit ≠ "" ∧ finding.SourceRepo ≠ ""
      ∧ strings.Contains finding.SourceRepo "github.com" then
    match s.checkFixReleasedLogged finding.SourceRepo finding.FixCommit with
    | ((released, releaseName, none), calls) =>
      ({ finding with FixReleased := released, FixRelease := releaseName }, calls)
    | ((_, _, some _), calls) => (finding, calls)
  else (finding, [])

/-- Body of the inner loop of `Scan` for one advisory of `dep`: the slice of
findings and the calls made so far, after the iteration. -/
def scanAdvisoryLogged (net : registry.Network) (s : Scanner) (dep : Dependency)
    (st : List Finding × List vcs.OracleCall) (adv : Advisory) :
    List Finding × List vcs.OracleCall :=
  if s.isIgnored adv dep then st
  else if !meetsMinSeverity adv.Severity s.config.Severity then st
  else
    let finding : Finding :=
      { Advisory := adv, Package := dep, FixCommit := adv.FixCommit,
        FixReleased := false, FixRelease := "", SourceRepo := "" }
    let finding := lookupStep net dep finding
    let r := releaseStepLogged s finding
    if !r.1.FixReleased then (st.1 ++ [r.1], st.2 ++ r.2) else (st.1, st.2 ++ r.2)

/-- Body of the outer loop of `Scan` for one dependency, with the calls made. -/
def scanDepLogged (net : registry.Network) (s : Scanner) (advisoriesByPkg : GoMap (List Advisory))
    (st : List Finding × List vcs.OracleCall) (dep : Dependency) :
    List Finding × List vcs.OracleCall :=
  let key := dep.Ecosystem ++ ":" ++ dep.Name
  match advisoriesByPkg.lookup key with
  | none => st
  | some advs => advs.foldl (scanAdvisoryLogged net s dep) st

/-- Go `(*Scanner).Scan` with the calls of `s.repoClient` that the run makes, in
order: `((findings, err), calls)`. -/
def Scanner.ScanLogged (net : registry.Network) (s : Scanner) (deps : List Dependency) :
    (List Finding × Option String) × List vcs.OracleCall :=
  match s.advisorySource.QueryBatch (buildQueries deps) with
  | .error err => (([], some ("query advisories: " ++ err)), [])
  | .ok advisoriesByPkg =>
    (((deps.foldl (scanDepLogged net s advisoriesByPkg) ([], [])).1, none),
      (deps.foldl (scanDepLogged net s advisoriesByPkg) ([], [])).2)

/-! ### Notions used to state what `Scan` returns -/

/-- Source repo that `Scan` resolves for a dependency: the one the registry of
its ecosystem reports, empty when there is no registry or the lookup fails. -/
def resolvedSourceRepo (net : registry.Network) (dep : Dependency) : String :=
  match registry.NewRegistry net dep.Ecosystem with
  | none => ""
  | some reg =>
    match reg.LookupSourceRepo dep.Name with
    | .ok info => info.SourceRepo
    | .error _ => ""

/-- Whether the advisory passes the ignore and severity filters for `dep`. -/
def passesFilters (s : Scanner) (dep : Dependency) (adv : Advisory) : Bool :=
  !s.isIgnored adv dep && meetsMinSeverity adv.Severity s.config.Severity

/-- Whether the release check of `Scan` is attempted for the pair. -/
def releaseCheckAttempted (net : registry.Network) (dep : Dependency) (adv : Advisory) : Bool :=
  adv.FixCommit ≠ "" ∧ resolvedSourceRepo net dep ≠ ""
    ∧ strings.Contains (resolvedSourceRepo net dep) "github.com"

/-- Whether the release check of `Scan` marks the pair released: the check is
attempted and `checkFixReleased` answers `true` without error. -/
def markedReleased (net : registry.Network) (s : Scanner) (dep : Dependency) (adv : Advisory) :
    Bool :=
  releaseCheckAttempted net dep adv
    && (s.checkFixReleased (resolvedSourceRepo net dep) adv.FixCommit).1
    && (s.checkFixReleased (resolvedSourceRepo net dep) adv.FixCommit).2.2.isNone

/-- The finding that stands for a pair in the result of `Scan`. -/
def findingFor (net : registry.Network) (dep : Dependency) (adv : Advisory) : Finding :=
  { Advisory := adv, Package := dep, FixCommit := adv.FixCommit, FixReleased := false,
    FixRelease := "", SourceRepo := resolvedSourceRepo net dep }

/-- What one iteration of the inner loop of `Scan` contributes for a pair: the
finding of the pair when it passes the filters and is not marked released. -/
def emitted (net : registry.Network) (s : Scanner) (dep : Dependency) (adv : Advisory) :
    List Finding :=
  if passesFilters s dep adv && !markedReleased net s dep adv then [findingFor net dep adv] else []

/-- The advisories that the batch answer holds for a dependency. -/
def advisoriesOf (advisoriesByPkg : GoMap (List Advisory)) (dep : Dependency) : List Advisory :=
  (advisoriesByPkg.lookup (dep.Ecosystem ++ ":" ++ dep.Name)).getD []

end scanner

/-! ## The issue tracker reached through `github.Client`

The tracker is the external service behind `r.client.Issues` for the repository
`r.owner/r.repo`. It is modelled as a state machine: an issue's number is its
position in the list of issues, a created issue is open and carries the labels
given, an edit replaces the title, labels and state that the request sets, and a
listing returns the issues in the state asked for that carry every label asked
for, page by page. Each call is recorded, and each call may fail. -/

namespace github

/-- Go `github.IssueRequest`, the fields the reconciler sets; `none` is a nil
pointer. -/
structure IssueRequest where
  Title : Option String
  Body : Option String
  Labels : Option (List String)
  State : Option String
deriving DecidableEq

/-- Go `github.Issue` as the API returns it, the fields the reconciler reads. -/
structure Issue where
  Number : Nat
  Title : String
  Body : String
  State : String
  Labels : List String
deriving DecidableEq

/-- An issue as the tracker stores it. -/
structure StoredIssue where
  Title : String
  Body : String
  State : String
  Labels : List String
  Comments : List String
deriving DecidableEq

/-- A call of the issues API. -/
inductive Call where
  | ListByRepo (labels : List String) (state : String) (perPage page : Nat)
  | Create (req : IssueRequest)
  | CreateComment (number : Nat) (body : String)
  | Edit (number : Nat) (req : IssueRequest)
deriving DecidableEq

/-- Whether the call changes the tracker when it succeeds. -/
def Call.isMutation : Call → Bool
  | .ListByRepo _ _ _ _ => false
  | _ => true

/-- State of the tracker: the issues (issue `n` at position `n - 1`), the fate of
the calls to come (`some e` makes the next call fail with `e`; past the end of
the list no call fails on its own), and the calls made so far, oldest first, each
with the error it returned. -/
structure Tracker where
  issues : List StoredIssue
  faults : List (Option String)
  calls : List (Call × Option String)
deriving DecidableEq

namespace Tracker

/-- The issue at position `n - 1`, as the API presents it. -/
def present (n : Nat) (i : StoredIssue) : Issue :=
  { Number := n, Title := i.Title, Body := i.Body, State := i.State, Labels := i.Labels }

/-- The issues a listing selects, from number `n` on. -/
def matchingFrom (labels : List String) (state : String) : Nat → List StoredIssue → List Issue
  | _, [] => []
  | n, i :: rest =>
    if (state = "all" ∨ i.State = state) ∧ labels.all (fun l => l ∈ i.Labels) then
      present n i :: matchingFrom labels state (n + 1) rest
    else matchingFrom labels state (n + 1) rest

/-- The issues a listing selects. -/
def matching (t : Tracker) (labels : List String) (state : String) : List Issue :=
  matchingFrom labels state 1 t.issues

/-- Record a call with its outcome and consume its fate. -/
def record (t : Tracker) (c : Call) (err : Option String) (issues : List StoredIssue) : Tracker :=
  { issues := issues, faults := t.faults.tail, calls := t.calls ++ [(c, err)] }

/-- The error the next call meets on its own, if any. -/
def fault (t : Tracker) : Option String := t.faults.head?.join

/-- API `Issues.ListByRepo`: the page asked for and the number of the next page
(0 when there is none). Page 0 is the first page. -/
def ListByRepo (t : Tracker) (labels : List String) (state : String) (perPage page : Nat) :
    Except String (List Issue × Nat) × Tracker :=
  let call := Call.ListByRepo labels state perPage page
  match t.fault with
  | some e => (.error e, t.record call (some e) t.issues)
  | none =>
    let all := t.matching labels state
    let p := max page 1
    let next := if p * perPage < all.length then p + 1 else 0
    (.ok ((all.drop ((p - 1) * perPage)).take perPage, next), t.record call none t.issues)

/-- API `Issues.Create`: a new open issue at the end of the list. -/
def Create (t : Tracker) (req : IssueRequest) : Option String × Tracker :=
  let call := Call.Create req
  match t.fault with
  | some e => (some e, t.record call (some e) t.issues)
  | none =>
    (none, t.record call none (t.issues ++
      [{ Title := req.Title.getD "", Body := req.Body.getD "", State := "open",
         Labels := req.Labels.getD [], Comments := [] }]))

/-- API `Issues.CreateComment`: one more comment on issue `number`. -/
def CreateComment (t : Tracker) (number : Nat) (body : String) : Option String × Tracker :=
  let call := Call.CreateComment number body
  match t.fault with
  | some e => (some e, t.record call (some e) t.issues)
  | none =>
    match t.issues.get? (number - 1) with
    | none => (some "404 Not Found", t.record call (some "404 Not Found") t.issues)
    | some i =>
      if number = 0 then (some "404 Not Found", t.record call (some "404 Not Found") t.issues)
      else (none, t.record call none
        (t.issues.set (number - 1) { i with Comments := i.Comments ++ [body] }))

/-- API `Issues.Edit`: the fields the request sets replace those of issue
`number`. -/
def Edit (t : Tracker) (number : Nat) (req : IssueRequest) : Option String × Tracker :=
  let call := Call.Edit number req
  match t.fault with
  | some e => (some e, t.record call (some e) t.issues)
  | none =>
    match t.issues.get? (number - 1) with
    | none => (some "404 Not Found", t.record call (some "404 Not Found") t.issues)
    | some i =>
      if number = 0 then (some "404 Not Found", t.record call (some "404 Not Found") t.issues)
      else (none, t.record call none
        (t.issues.set (number - 1)
          { i with Title := req.Title.getD i.Title, Body := req.Body.getD i.Body,
                   State := req.State.getD i.State, Labels := req.Labels.getD i.Labels }))

end Tracker

end github

/-! ## `pkg/issues` -/

namespace issues

open scanner github

/-- Go `LabelUnreleasedFix`. -/
def LabelUnreleasedFix : String := "unreleased-fix"

/-- Go `LabelFixReleased`. -/
def LabelFixReleased : String := "fix-released"

/-- Go `issues.issueKey`. -/
def issueKey (advisoryID packageName : String) : String :=
  "unreleased-fix:" ++ advisoryID ++ ":" ++ packageName

/-- The loop of `extractIssueKey` over the names of the labels. -/
def extractKeyFrom : List String → String
  | [] => ""
  | name :: rest =>
    if strings.HasPrefix name "unreleased-fix:" ∧ strings.Count name ':' ≥ 2 then name
    else extractKeyFrom rest

/-- Go `issues.extractIssueKey`. -/
def extractIssueKey (issue : Issue) : String := extractKeyFrom issue.Labels

/-- Go `issues.issueKeyFromIssue`. -/
def issueKeyFromIssue (issue : Issue) : String := extractIssueKey issue

/-- Go `issues.shortSHA`; commit ids are ASCII, so bytes are characters. -/
def shortSHA (sha : String) : String :=
  if sha.data.length > 7 then ⟨sha.data.take 7⟩ else sha

/-- The source-repo cell shared by both templates. -/
def sourceRepoCell (f : Finding) : String :=
  if f.SourceRepo ≠ "" then "[" ++ f.SourceRepo ++ "](https://" ++ f.SourceRepo ++ ")"
  else "(unknown)"

/-- Go `issues.RenderNewIssueBody`: the template `newIssueTmpl` executed on the
finding. -/
def RenderNewIssueBody (f : Finding) : String :=
  let ShortCommit := shortSHA f.FixCommit
  let CommitURL :=
    if f.SourceRepo ≠ "" ∧ f.FixCommit ≠ "" then
      "https://" ++ f.SourceRepo ++ "/commit/" ++ f.FixCommit
    else ""
  "## ⚠️ Unreleased Security Fix: " ++ f.Advisory.ID ++ "\n\n"
  ++ "**Package:** `" ++ f.Package.Name ++ "` (" ++ f.Package.Ecosystem ++ ")\n"
  ++ "**Your version:** `" ++ f.Package.Version ++ "`\n"
  ++ "**Severity:** " ++ f.Advisory.Severity ++ "\n\n"
  ++ "### Summary\n\n" ++ f.Advisory.Summary ++ "\n\n"
  ++ "### Details\n\n"
  ++ "A fix for this vulnerability was committed to the upstream source repository\n"
  ++ "but has **not yet been included in a published release**.\n\n"
  ++ "| Detail | Value |\n|--------|-------|\n"
  ++ "| Fix commit | `" ++ ShortCommit ++ "`"
  ++ (if CommitURL ≠ "" then " ([link](" ++ CommitURL ++ "))" else "") ++ " |\n"
  ++ "| Source repo | " ++ sourceRepoCell f ++ " |\n"
  ++ "| Advisory | "
  ++ String.join (f.Advisory.References.map fun ref =>
      "[" ++ f.Advisory.ID ++ "](" ++ ref ++ ") ")
  ++ " |\n\n"
  ++ "### Recommended Actions\n\n"
  ++ "1. **Watch** the upstream repo for a new release.\n"
  ++ "2. **Vendor** the fix commit directly if you need an immediate resolution.\n"
  ++ "3. **Open an issue** upstream requesting a release that includes the fix.\n\n"
  ++ "---\n\n"
  ++ "<sub>Detected by [unreleased-security-fix-scanner]"
  ++ "(https://github.com/unreleased-security-fix-scanner)</sub>\n"

/-- Go `issues.RenderFixReleasedComment`: the template `fixReleasedTmpl` executed
on the finding. -/
def RenderFixReleasedComment (f : Finding) : String :=
  "## ✅ Fix Released\n\n"
  ++ "The fix for **" ++ f.Advisory.ID ++ "** is now included in **`"
  ++ f.Package.Name ++ "@" ++ f.FixRelease ++ "`**.\n\n"
  ++ "Upgrade your dependency to `>= " ++ f.FixRelease ++ "` to resolve this vulnerability.\n\n"
  ++ "| Detail | Value |\n|--------|-------|\n"
  ++ "| Fix release | `" ++ f.FixRelease ++ "` |\n"
  ++ "| Source repo | " ++ sourceRepoCell f ++ " |\n\n"
  ++ "---\n\n"
  ++ "<sub>Updated by [unreleased-security-fix-scanner]"
  ++ "(https://github.com/unreleased-security-fix-scanner)</sub>\n"

/-- Title that `createIssue` gives a new issue. -/
def newIssueTitle (f : Finding) : String :=
  "[UNRELEASED FIX] " ++ f.Advisory.ID ++ " — " ++ f.Package.Name
    ++ " (" ++ f.Package.Ecosystem ++ ")"

/-- Request that `createIssue` sends. -/
def createRequest (f : Finding) : IssueRequest :=
  { Title := some (newIssueTitle f), Body := some (RenderNewIssueBody f),
    Labels := some [LabelUnreleasedFix, issueKey f.Advisory.ID f.Package.Name], State := none }

/-- Go `(*Reconciler).createIssue`. -/
def createIssue (f : Finding) (t : Tracker) : Option String × Tracker :=
  t.Create (createRequest f)

/-- Request of the edit that `markReleased` sends. -/
def releasedRequest (issue : Issue) : IssueRequest :=
  { Title := some (strings.Replace1 issue.Title "[UNRELEASED FIX]" "[RELEASED]"),
    Labels := some [LabelUnreleasedFix, LabelFixReleased, issueKeyFromIssue issue],
    Body := none, State := none }

/-- Go `(*Reconciler).markReleased`. -/
def markReleased (issue : Issue) (f : Finding) (t : Tracker) : Option String × Tracker :=
  match t.CreateComment issue.Number (RenderFixReleasedComment f) with
  | (some err, t) => (some err, t)
  | (none, t) => t.Edit issue.Number (releasedRequest issue)

/-- Comment that `closeStaleIssue` posts. -/
def staleComment : String :=
  "This issue is being closed because the dependency is no longer detected or the advisory has been withdrawn."

/-- Request of the edit that `closeStaleIssue` sends. -/
def closeRequest : IssueRequest :=
  { Title := none, Body := none, Labels := none, State := some "closed" }

/-- Go `(*Reconciler).closeStaleIssue`. -/
def closeStaleIssue (issue : Issue) (t : Tracker) : Option String × Tracker :=
  match t.CreateComment issue.Number staleComment with
  | (some err, t) => (some err, t)
  | (none, t) => t.Edit issue.Number closeRequest

/-- The loop over one page in `listTrackedIssues`. -/
def addPage (issues : GoMap Issue) (page : List Issue) : GoMap Issue :=
  page.foldl (fun issues issue =>
    let key := extractIssueKey issue
    if key ≠ "" then issues.insert key issue else issues) issues

/-- The loop of `listTrackedIssues` from page `page` on, for at most `fuel`
pages. -/
def listLoop : Nat → Nat → GoMap Issue → Tracker → (GoMap Issue × Option String) × Tracker
  | 0, _, _, t => ((GoMap.empty, some "listing did not end"), t)
  | fuel + 1, page, issues, t =>
    match t.ListByRepo [LabelUnreleasedFix] "open" 100 page with
    | (.error err, t) => ((GoMap.empty, some err), t)
    | (.ok (items, nextPage), t) =>
      let issues := addPage issues items
      if nextPage = 0 then ((issues, none), t) else listLoop fuel nextPage issues t

/-- Go `(*Reconciler).listTrackedIssues`. The tracker has no more pages than
issues, which bounds the loop. -/
def listTrackedIssues (t : Tracker) : (GoMap Issue × Option String) × Tracker :=
  listLoop (t.issues.length + 1) 0 GoMap.empty t

/-- Body of the first loop of `Reconcile` for one finding. -/
def reconcileFinding (existing : GoMap Issue) (findingKeys : GoMap Bool) (f : Finding)
    (t : Tracker) : GoMap Bool × Option String × Tracker :=
  let key := issueKey f.Advisory.ID f.Package.Name
  let findingKeys := findingKeys.insert key true
  match existing.lookup key with
  | some issue =>
    if f.FixReleased then
      match markReleased issue f t with
      | (some err, t) => (findingKeys, some ("mark released " ++ key ++ ": " ++ err), t)
      | (none, t) => (findingKeys, none, t)
    else (findingKeys, none, t)
  | none =>
    match createIssue f t with
    | (some err, t) => (findingKeys, some ("create issue for " ++ key ++ ": " ++ err), t)
    | (none, t) => (findingKeys, none, t)

/-- First loop of `Reconcile`, over the findings. -/
def reconcileFindings (existing : GoMap Issue) :
    List Finding → GoMap Bool → Tracker → GoMap Bool × Option String × Tracker
  | [], findingKeys, t => (findingKeys, none, t)
  | f :: rest, findingKeys, t =>
    match reconcileFinding existing findingKeys f t with
    | (findingKeys, some err, t) => (findingKeys, some err, t)
    | (findingKeys, none, t) => reconcileFindings existing rest findingKeys t

/-- Second loop of `Reconcile`, over the entries of `existing` in the order in
which `range` yields them. -/
def closeStale (findingKeys : GoMap Bool) : List (String × Issue) → Tracker → Option String × Tracker
  | [], t => (none, t)
  | (key, issue) :: rest, t =>
    if (findingKeys.lookup key).getD false then closeStale findingKeys rest t
    else
      match closeStaleIssue issue t with
      | (some err, t) => (some ("close stale issue " ++ toString issue.Number ++ ": " ++ err), t)
      | (none, t) => closeStale findingKeys rest t

/-- The part of `Reconcile` that follows the listing. -/
def reconcileWith (range : GoMap Issue → List (String × Issue)) (existing : GoMap Issue)
    (findings : List Finding) (t : Tracker) : Option String × Tracker :=
  match reconcileFindings existing findings GoMap.empty t with
  | (_, some err, t) => (some err, t)
  | (findingKeys, none, t) => closeStale findingKeys (range existing) t

/-- Go `(*Reconciler).Reconcile`, run on the tracker state `t`: the error
returned and the tracker state left. Go does not fix the order in which `range`
goes through a map: `range existing` is the order taken by the second loop, a
rearrangement of the entries of `existing`. -/
def Reconcile (range : GoMap Issue → List (String × Issue)) (findings : List Finding)
    (t : Tracker) : Option String × Tracker :=
  match listTrackedIssues t with
  | ((_, some err), t) => (some ("list tracked issues: " ++ err), t)
  | ((existing, none), t) => reconcileWith range existing findings t

/-! ### Notions used to state what `Reconcile` does -/

/-- The tracking key of a finding, as `Reconcile` computes it. -/
def keyOf (f : Finding) : String := issueKey f.Advisory.ID f.Package.Name

/-- The calls that the first loop makes for one finding when none of them
fails. -/
def callsForFinding (existing : GoMap Issue) (f : Finding) : List Call :=
  match existing.lookup (keyOf f) with
  | some issue =>
    if f.FixReleased then
      [.CreateComment issue.Number (RenderFixReleasedComment f),
       .Edit issue.Number (releasedRequest issue)]
    else []
  | none => [.Create (createRequest f)]

/-- The calls that the second loop makes for one entry of `existing` when none
of them fails; `keys` are the tracking keys of the findings. -/
def callsForEntry (keys : List String) (e : String × Issue) : List Call :=
  if e.1 ∈ keys then []
  else [.CreateComment e.2.Number staleComment, .Edit e.2.Number closeRequest]

/-- Whether the call is a comment on, or an edit of, issue `n`. -/
def onIssue (n : Nat) : Call → Bool
  | .CreateComment m _ => m = n
  | .Edit m _ => m = n
  | _ => false

/-- Whether the call creates an issue that carries the label `k`. -/
def createsFor (k : String) : Call → Bool
  | .Create req => k ∈ req.Labels.getD []
  | _ => false

/-- The mutating calls recorded in `t'` after those of `t`: what a run that
started in `t` and ended in `t'` did to the tracker. -/
def mutationsSince (t t' : Tracker) : List Call :=
  ((t'.calls.drop t.calls.length).map Prod.fst).filter Call.isMutation

/-- The map of the open tracked issues of a tracker state, as
`listTrackedIssues` builds it from a complete listing. -/
def trackedMap (t : Tracker) : GoMap Issue :=
  addPage GoMap.empty (t.matching [LabelUnreleasedFix] "open")

/-- The calls `new`, recorded by a run that returned `err`, end at the first
failure: when the run returned no error every call succeeded, and when it
returned an error the last call failed and every call before it succeeded. -/
def stopsAtFirstFailure (err : Option String) (new : List (Call × Option String)) : Prop :=
  (err = none → ∀ x ∈ new, x.2 = none)
  ∧ (err ≠ none → ∃ init last, new = init ++ [last] ∧ last.2 ≠ none ∧ ∀ x ∈ init, x.2 = none)

/-- A run that started in `t`, ended in `t'` and returned `err` went through the
calls of `plan` in order and stopped at the first failure: the calls it recorded
are an initial part of the plan, the whole plan when it returned no error. -/
def runsPlan (t : Tracker) (err : Option String) (t' : Tracker) (plan : List Call) : Prop :=
  ∃ new, t'.calls = t.calls ++ new ∧ stopsAtFirstFailure err new
    ∧ new.map Prod.fst <+: plan ∧ (err = none → new.map Prod.fst = plan)

/-- The mutating calls that a run of `Reconcile` on `findings` makes when none
fails, in order: those of the findings, then those of the stale entries. -/
def reconcilePlan (range : GoMap Issue → List (String × Issue)) (findings : List Finding)
    (existing : GoMap Issue) : List Call :=
  findings.flatMap (callsForFinding existing)
    ++ (range existing).flatMap (callsForEntry (findings.map keyOf))

end issues

/-! ## Concrete scenarios -/

namespace scenario

open scanner lockfile advisory vcs registry issues github

/-- The dependency `foo@1.2.0` of the npm ecosystem. -/
def foo : Dependency := { Name := "foo", Version := "1.2.0", Ecosystem := "npm" }

/-- The advisory `GHSA-xxxx`, of high severity, with a fix commit. -/
def ghsa : Advisory :=
  { ID := "GHSA-xxxx", Aliases := ["CVE-2024-0001"], Summary := "", Details := "",
    Severity := "high", Published := 0, Modified := 0, FixCommit := "abc1234def",
    FixedIn := "", References := [] }

/-- An advisory source that reports `GHSA-xxxx` for `npm:foo`. -/
def source : Source :=
  { QueryPackage := fun _ _ _ => .ok [],
    QueryBatch := fun _ => .ok ⟨[("npm:foo", [ghsa])]⟩ }

/-- An advisory source whose batch query fails. -/
def brokenSource : Source :=
  { QueryPackage := fun _ _ _ => .ok [],
    QueryBatch := fun _ => .error "osv batch query: timeout" }

/-- A network on which npm reports `github.com/foo/foo` as the repository of
`foo`. -/
def net : Network :=
  { npmGet := fun name =>
      if name = "foo" then
        .ok { RepositoryType := "git", RepositoryURL := "git+https://github.com/foo/foo.git",
              DistTagsLatest := "1.3.0" }
      else .error "npm registry returned 404",
    pypiGet := fun _ => .error "pypi returned 404" }

/-- A repository client that knows the tag `v1.3.0` of `foo/foo` and answers
`isAnc` to every ancestry question. -/
def repoClient (isAnc : Bool) : RepoClient :=
  { ListTags := fun owner repo =>
      if owner = "foo" ∧ repo = "foo" then .ok [{ Name := "v1.3.0", Commit := "def5678" }]
      else .error "404",
    IsAncestor := fun _ _ _ _ => .ok isAnc,
    GetLatestRelease := fun _ _ => .ok "" }

/-- The scanner of the scenario, under the default configuration. -/
def scannerWith (isAnc : Bool) : Scanner :=
  { advisorySource := source, repoClient := repoClient isAnc, config := config.Default }

/-- A finding for advisory `id` on version 1.0.0 of the npm package `name`. -/
def findingOf (id name : String) (released : Bool) : Finding :=
  { Advisory := { ID := id, Aliases := [], Summary := "", Details := "", Severity := "high",
                  Published := 0, Modified := 0, FixCommit := "abc1234def", FixedIn := "",
                  References := [] },
    Package := { Name := name, Version := "1.0.0", Ecosystem := "npm" },
    FixCommit := "abc1234def", FixReleased := released,
    FixRelease := if released then "v1.3.0" else "", SourceRepo := "github.com/foo/foo" }

/-- An open issue as `createIssue` leaves it for advisory `id` on package
`name`. -/
def trackedIssue (id name : String) : StoredIssue :=
  { Title := newIssueTitle (findingOf id name false), Body := "", State := "open",
    Labels := [LabelUnreleasedFix, issueKey id name], Comments := [] }

/-- A tracker with the open tracked issues A, B and C, on which no call fails. -/
def trackerABC : Tracker :=
  { issues := [trackedIssue "GHSA-aaaa" "pkg-a", trackedIssue "GHSA-bbbb" "pkg-b",
               trackedIssue "GHSA-cccc" "pkg-c"],
    faults := [], calls := [] }

/-- A tracker with the open tracked issue B alone. -/
def trackerB : Tracker :=
  { issues := [trackedIssue "GHSA-bbbb" "pkg-b"], faults := [], calls := [] }

/-- A tracker with two open issues that both carry the tracking key A. -/
def trackerAA : Tracker :=
  { issues := [trackedIssue "GHSA-aaaa" "pkg-a", trackedIssue "GHSA-aaaa" "pkg-a"],
    faults := [], calls := [] }

/-- A tracker with the open issue that `createIssue` made for `GHSA-xxxx` on
`foo`. -/
def trackerFoo : Tracker :=
  { issues := [trackedIssue "GHSA-xxxx" "foo"], faults := [], calls := [] }

/-- The order of the entries of a map as the order of `range`. -/
def entryOrder (m : GoMap Issue) : List (String × Issue) := m.entries

/-- A scanner whose advisory batch query fails. -/
def brokenScanner : Scanner :=
  { advisorySource := brokenSource, repoClient := repoClient false, config := config.Default }

/-- A repository client for `foo/foo` with the tags `v1.4.0` and `v1.3.0`, in
this order: the ancestry question fails for `v1.4.0` and is answered with true
for `v1.3.0`. -/
def flakyClient : RepoClient :=
  { ListTags := fun _ _ =>
      .ok [{ Name := "v1.4.0", Commit := "aaa1111" }, { Name := "v1.3.0", Commit := "def5678" }],
    IsAncestor := fun _ _ tag _ => if tag = "v1.4.0" then .error "502 Bad Gateway" else .ok true,
    GetLatestRelease := fun _ _ => .ok "" }

/-- The scanner of the scenario with the flaky repository client. -/
def flakyScanner : Scanner :=
  { advisorySource := source, repoClient := flakyClient, config := config.Default }

/-- The dependency `foo@1.0.0` of the npm ecosystem. -/
def fooOld : Dependency := { Name := "foo", Version := "1.0.0", Ecosystem := "npm" }

/-- The dependency `foo@2.0.0` of the npm ecosystem. -/
def fooNew : Dependency := { Name := "foo", Version := "2.0.0", Ecosystem := "npm" }

/-- An OSV record for `GHSA-xxxx` with a fix commit and no severity. -/
def osvRecord : osvVuln :=
  { ID := "GHSA-xxxx", Aliases := [], Summary := "", Details := "", Severity := [],
    Published := "", Modified := "",
    Affected := [{ Package := { Name := "foo", Ecosystem := "npm" },
                   Ranges := [{ Type_ := "GIT",
                                Events := [{ Introduced := "0", Fixed := "" },
                                           { Introduced := "", Fixed := "abc1234def" }] }] }],
    References := [] }

/-- A batch answer for the queries `[foo@1.0.0, foo@2.0.0]`: no vulnerability
for the first query, `GHSA-xxxx` for the second. -/
def batchAnswer : osvBatchResponse :=
  { Results := [{ Vulns := [] }, { Vulns := [osvRecord] }] }

/-- An OSV client whose endpoint returns `batchAnswer`. -/
def osvClient : OSVClient :=
  { post := fun _ => .ok batchAnswer, postOne := fun _ => .ok [], parseTime := fun _ => none }

/-- A scanner over the OSV client, under the default configuration. -/
def osvScanner : Scanner :=
  { advisorySource := osvClient.toSource, repoClient := repoClient false,
    config := config.Default }

/-- An OSV record for `GHSA-xxxx` whose severity is given as a bare CVSS vector. -/
def osvRecordVector : osvVuln :=
  { osvRecord with
    Severity := [{ Type_ := "CVSS_V3", Score := "CVSS:3.1/AV:N/AC:L/PR:N/UI:N/S:U/C:H/I:H/A:H" }] }

/-- A scanner over an OSV client that answers a single query with the record
`v`, under the default configuration (minimum severity medium). -/
def recordScanner (v : osvVuln) : Scanner :=
  { advisorySource :=
      (OSVClient.mk (fun _ => .ok { Results := [{ Vulns := [v] }] })
        (fun _ => .ok []) (fun _ => none)).toSource,
    repoClient := repoClient false, config := config.Default }

/-- An advisory source that reports `GHSA-xxxx` twice for `npm:foo`. -/
def sourceTwice : Source :=
  { QueryPackage := fun _ _ _ => .ok [],
    QueryBatch := fun _ => .ok ⟨[("npm:foo", [ghsa, ghsa])]⟩ }

/-- A tracker without issues, on which no call fails. -/
def trackerEmpty : Tracker := { issues := [], faults := [], calls := [] }

/-- The finding for `GHSA-xxxx` on version `version` of the npm package `foo`,
not released. -/
def fooFinding (version : String) : Finding :=
  { Advisory := ghsa, Package := { Name := "foo", Version := version, Ecosystem := "npm" },
    FixCommit := "abc1234def", FixReleased := false, FixRelease := "",
    SourceRepo := "github.com/foo/foo" }

/-- A network on which npm reports the repository location `url` for every
package. -/
def netWith (url : String) : Network :=
  { npmGet := fun _ => .ok { RepositoryType := "git", RepositoryURL := url, DistTagsLatest := "" },
    pypiGet := fun _ => .error "pypi returned 404" }

/-- A repository client that knows the repository `owner/repo` alone, with the
tag `v1.3.0`, and answers `isAnc` to the ancestry questions about it. -/
def clientFor (owner repo : String) (isAnc : Bool) : RepoClient :=
  { ListTags := fun o r =>
      if o = owner ∧ r = repo then .ok [{ Name := "v1.3.0", Commit := "def5678" }]
      else .error "404 Not Found",
    IsAncestor := fun o r _ _ => if o = owner ∧ r = repo then .ok isAnc else .error "404 Not Found",
    GetLatestRelease := fun _ _ => .ok "" }

/-- The scanner of the scenario with the repository client `rc`. -/
def scannerOver (rc : RepoClient) : Scanner :=
  { advisorySource := source, repoClient := rc, config := config.Default }

/-- The dependency that a pin `foo==1.2.0` of a requirements file stands for. -/
def fooPyPI : Dependency := { Name := "foo", Version := "1.2.0", Ecosystem := "PyPI" }

/-- A requirements file that pins `foo==1.2.0` twice, as happens when two
requirements files are concatenated. -/
def requirementsTwice : FileLines :=
  .ok (["# base", "foo==1.2.0", "", "# dev", "foo==1.2.0"], none)

/-- A `go.sum` file: each module version has two lines. -/
def goSum : FileLines :=
  .ok (["example.com/foo v1.2.0 h1:aaaa=", "example.com/foo v1.2.0/go.mod h1:bbbb="], none)

/-- An advisory source that reports `GHSA-xxxx` for `PyPI:foo`. -/
def sourcePyPI : Source :=
  { QueryPackage := fun _ _ _ => .ok [],
    QueryBatch := fun _ => .ok ⟨[("PyPI:foo", [ghsa])]⟩ }

/-- A network on which PyPI reports `https://github.com/foo/foo` as the source
of every package. -/
def netPyPI : Network :=
  { npmGet := fun _ => .error "npm registry returned 404",
    pypiGet := fun _ =>
      .ok { Version := "1.3.0", HomePage := "",
            ProjectURLs := ⟨[("Source", "https://github.com/foo/foo")]⟩ } }

/-- The scanner over `sourcePyPI`, under the default configuration, with a
repository client that answers no to every ancestry question. -/
def scannerPyPI : Scanner :=
  { advisorySource := sourcePyPI, repoClient := repoClient false, config := config.Default }

/-- A network on which PyPI reports the home page `homePage`, and no project
URLs, for every package. -/
def netHomePage (homePage : String) : Network :=
  { npmGet := fun _ => .error "npm registry returned 404",
    pypiGet := fun _ => .ok { Version := "1.3.0", HomePage := homePage, ProjectURLs := ⟨[]⟩ } }

end scenario

/-! ## Theorems

### The result of `Scan` in closed form -/

namespace scanner

open lockfile advisory

section ScanLemmas

seal Scanner.checkFixReleased vcs.ParseGitHubRepo registry.normalizeGitURL

theorem checkTags_name_of_false (rc : vcs.RepoClient) (owner repo sha : String) (tags : List vcs.Tag)
    (h : (checkTags rc owner repo sha tags).1 = false) :
    checkTags rc owner repo sha tags = (false, "", none) := by
  induction tags with
  | nil => rfl
  | cons tag rest ih =>
    unfold checkTags at h ⊢
    cases hc : rc.IsAncestor owner repo tag.Name sha with
    | error e => rw [hc] at h; exact ih h
    | ok b =>
      rw [hc] at h
      cases b with
      | true => simp at h
      | false => simpa using ih (by simpa using h)

theorem checkTags_err (rc : vcs.RepoClient) (owner repo sha : String) (tags : List vcs.Tag) :
    (checkTags rc owner repo sha tags).2.2 = none := by
  induction tags with
  | nil => rfl
  | cons tag rest ih =>
    unfold checkTags
    cases hc : rc.IsAncestor owner repo tag.Name sha with
    | error e => exact ih
    | ok b => cases b <;> simp [ih]

unseal Scanner.checkFixReleased in
theorem checkFixReleased_name_of_false (s : Scanner) (sourceRepo sha : String)
    (h : (s.checkFixReleased sourceRepo sha).1 = false) :
    (s.checkFixReleased sourceRepo sha).2.1 = "" := by
  unfold Scanner.checkFixReleased at h ⊢
  rcases hp : vcs.ParseGitHubRepo sourceRepo with ⟨owner, repo, err⟩
  rw [hp] at h
  cases err with
  | some e => rfl
  | none =>
    simp only at h ⊢
    cases hl : s.repoClient.ListTags owner repo with
    | error e => rfl
    | ok tags =>
      rw [hl] at h
      simp only at h ⊢
      rw [checkTags_name_of_false _ _ _ _ _ h]

theorem lookupStep_eq (net : registry.Network) (dep : Dependency) (adv : Advisory) :
    lookupStep net dep
      { Advisory := adv, Package := dep, FixCommit := adv.FixCommit,
        FixReleased := false, FixRelease := "", SourceRepo := "" } = findingFor net dep adv := by
  unfold lookupStep findingFor resolvedSourceRepo
  cases h1 : registry.NewRegistry net dep.Ecosystem with
  | none => rfl
  | some reg =>
    simp only []
    cases h2 : reg.LookupSourceRepo dep.Name <;> rfl

theorem releaseStep_released (net : registry.Network) (s : Scanner) (dep : Dependency)
    (adv : Advisory) :
    (releaseStep s (findingFor net dep adv)).FixReleased = markedReleased net s dep adv := by
  unfold releaseStep markedReleased releaseCheckAttempted
  simp only [findingFor]
  by_cases hg : adv.FixCommit ≠ "" ∧ resolvedSourceRepo net dep ≠ ""
      ∧ strings.Contains (resolvedSourceRepo net dep) "github.com" = true
  · rw [if_pos hg, decide_eq_true hg]
    rcases s.checkFixReleased (resolvedSourceRepo net dep) adv.FixCommit with ⟨rel, name, err⟩
    cases err <;> cases rel <;> rfl
  · rw [if_neg hg, decide_eq_false hg]
    rfl

theorem releaseStep_of_not_released (net : registry.Network) (s : Scanner) (dep : Dependency)
    (adv : Advisory) (h : markedReleased net s dep adv = false) :
    releaseStep s (findingFor net dep adv) = findingFor net dep adv := by
  have hrel := releaseStep_released net s dep adv
  rw [h] at hrel
  unfold releaseStep at hrel ⊢
  simp only [findingFor] at hrel ⊢
  by_cases hg : adv.FixCommit ≠ "" ∧ resolvedSourceRepo net dep ≠ ""
      ∧ strings.Contains (resolvedSourceRepo net dep) "github.com" = true
  · rw [if_pos hg] at hrel ⊢
    have hname := checkFixReleased_name_of_false s (resolvedSourceRepo net dep) adv.FixCommit
    generalize s.checkFixReleased (resolvedSourceRepo net dep) adv.FixCommit = chk at hrel hname ⊢
    rcases chk with ⟨rel, name, err⟩
    cases err with
    | some e => rfl
    | none =>
      simp only at hrel hname ⊢
      subst hrel
      rw [hname rfl]
  · rw [if_neg hg]

theorem scanAdvisory_eq (net : registry.Network) (s : Scanner) (dep : Dependency)
    (findings : List Finding) (adv : Advisory) :
    scanAdvisory net s dep findings adv = findings ++ emitted net s dep adv := by
  unfold scanAdvisory emitted passesFilters
  by_cases hig : s.isIgnored adv dep = true
  · rw [if_pos hig]
    simp [hig]
  · rw [if_neg hig]
    by_cases hsev : meetsMinSeverity adv.Severity s.config.Severity = true
    · rw [if_neg (by simp [hsev])]
      simp only [lookupStep_eq, releaseStep_released]
      cases hrel : markedReleased net s dep adv with
      | true => simp
      | false => simp [hig, hsev, releaseStep_of_not_released net s dep adv hrel]
    · rw [if_pos (by simp [hsev])]
      simp [hsev]

theorem foldl_scanAdvisory (net : registry.Network) (s : Scanner) (dep : Dependency)
    (advs : List Advisory) (findings : List Finding) :
    advs.foldl (scanAdvisory net s dep) findings
      = findings ++ advs.flatMap (emitted net s dep) := by
  induction advs generalizing findings with
  | nil => simp
  | cons a rest ih => simp [List.foldl_cons, ih, scanAdvisory_eq, List.flatMap_cons]

theorem scanDep_eq (net : registry.Network) (s : Scanner) (m : GoMap (List Advisory))
    (findings : List Finding) (dep : Dependency) :
    scanDep net s m findings dep
      = findings ++ (advisoriesOf m dep).flatMap (emitted net s dep) := by
  unfold scanDep advisoriesOf
  cases hm : m.lookup (dep.Ecosystem ++ ":" ++ dep.Name) with
  | none => simp [hm]
  | some advs => simp [hm, foldl_scanAdvisory]

theorem foldl_scanDep (net : registry.Network) (s : Scanner) (m : GoMap (List Advisory))
    (deps : List Dependency) (findings : List Finding) :
    deps.foldl (scanDep net s m) findings
      = findings ++ deps.flatMap fun dep => (advisoriesOf m dep).flatMap (emitted net s dep) := by
  induction deps generalizing findings with
  | nil => simp
  | cons d rest ih => simp [List.foldl_cons, ih, scanDep_eq, List.flatMap_cons]

theorem Scan_ok (net : registry.Network) (s : Scanner) (deps : List Dependency)
    (m : GoMap (List Advisory)) (h : s.advisorySource.QueryBatch (buildQueries deps) = .ok m) :
    s.Scan net deps
      = (deps.flatMap fun dep => (advisoriesOf m dep).flatMap (emitted net s dep), none) := by
  unfold Scanner.Scan
  rw [h]
  simp [foldl_scanDep]

theorem mem_Scan_iff (net : registry.Network) (s : Scanner) (deps : List Dependency)
    (m : GoMap (List Advisory)) (h : s.advisorySource.QueryBatch (buildQueries deps) = .ok m)
    (f : Finding) :
    f ∈ (s.Scan net deps).1 ↔ ∃ dep ∈ deps, ∃ adv ∈ advisoriesOf m dep,
      passesFilters s dep adv = true ∧ markedReleased net s dep adv = false
        ∧ f = findingFor net dep adv := by
  rw [Scan_ok net s deps m h]
  simp only [List.mem_flatMap, emitted]
  constructor
  · rintro ⟨dep, hd, adv, ha, hf⟩
    refine ⟨dep, hd, adv, ha, ?_⟩
    by_cases hc : (passesFilters s dep adv && !markedReleased net s dep adv) = true
    · rw [if_pos hc] at hf
      simp at hc
      exact ⟨hc.1, hc.2, by simpa using hf⟩
    · rw [if_neg hc] at hf
      simp at hf
  · rintro ⟨dep, hd, adv, ha, hp, hr, rfl⟩
    exact ⟨dep, hd, adv, ha, by simp [hp, hr]⟩

end ScanLemmas

/-! ### Claims about `Scan` -/

section ScanClaims

seal Scanner.checkFixReleased vcs.ParseGitHubRepo registry.normalizeGitURL

/-- C1: when the batch query succeeds, `Scan` returns no error; for every
dependency of the list and every advisory the batch answer holds for it that
passes the ignore and severity filters, the result contains a finding for the
pair if and only if the release check did not mark it released; and every finding
returned has `FixReleased = false`, an empty `FixRelease`, the advisory's
`FixCommit` and the resolved source repo. -/
theorem C1_scan_emits_iff_not_released (net : registry.Network) (s : Scanner)
    (deps : List Dependency) (m : GoMap (List Advisory))
    (h : s.advisorySource.QueryBatch (buildQueries deps) = .ok m) :
    (s.Scan net deps).2 = none
    ∧ (∀ dep ∈ deps, ∀ adv ∈ advisoriesOf m dep, passesFilters s dep adv = true →
        ((∃ f ∈ (s.Scan net deps).1, f.Advisory = adv ∧ f.Package = dep)
          ↔ markedReleased net s dep adv = false))
    ∧ (∀ f ∈ (s.Scan net deps).1,
        f.FixReleased = false ∧ f.FixRelease = "" ∧ f.FixCommit = f.Advisory.FixCommit
          ∧ f.SourceRepo = resolvedSourceRepo net f.Package) := by
  refine ⟨by rw [Scan_ok net s deps m h], ?_, ?_⟩
  · intro dep hd adv ha hp
    constructor
    · rintro ⟨f, hf, hfa, hfp⟩
      obtain ⟨dep', _, adv', _, _, hr, rfl⟩ := (mem_Scan_iff net s deps m h f).1 hf
      simp only [findingFor] at hfa hfp
      subst hfa hfp
      exact hr
    · intro hr
      exact ⟨findingFor net dep adv,
        (mem_Scan_iff net s deps m h _).2 ⟨dep, hd, adv, ha, hp, hr, rfl⟩, rfl, rfl⟩
  · intro f hf
    obtain ⟨dep, _, adv, _, _, _, rfl⟩ := (mem_Scan_iff net s deps m h f).1 hf
    exact ⟨rfl, rfl, rfl, rfl⟩

end ScanClaims

/-- C1, the scenario of the specification: `foo@1.2.0` of npm, `GHSA-xxxx`, tags
`[v1.3.0]`, ancestry answered with false: exactly one finding, not released,
with source repo `github.com/foo/foo`. -/
theorem C1_scan_scenario_unreleased :
    (scenario.scannerWith false).Scan scenario.net [scenario.foo]
        = ([{ Advisory := scenario.ghsa, Package := scenario.foo, FixCommit := "abc1234def",
              FixReleased := false, FixRelease := "", SourceRepo := "github.com/foo/foo" }], none)
    ∧ ((∃ f ∈ ((scenario.scannerWith false).Scan scenario.net [scenario.foo]).1,
          f.Advisory = scenario.ghsa ∧ f.Package = scenario.foo)
        ↔ markedReleased scenario.net (scenario.scannerWith false) scenario.foo scenario.ghsa
            = false) :=
  ⟨by decide,
   (C1_scan_emits_iff_not_released scenario.net (scenario.scannerWith false) [scenario.foo]
      ⟨[("npm:foo", [scenario.ghsa])]⟩ rfl).2.1 scenario.foo (by decide) scenario.ghsa
      (by decide) (by decide)⟩

section IgnoreClaims

seal Scanner.checkFixReleased vcs.ParseGitHubRepo registry.normalizeGitURL

theorem filter_flatMap_eq {α β : Type} (p : β → Bool) (g g' : α → List β) (l : List α)
    (h : ∀ a, g' a = (g a).filter p) : l.flatMap g' = (l.flatMap g).filter p := by
  induction l with
  | nil => rfl
  | cons a rest ih => simp [List.flatMap_cons, List.filter_append, h, ih]

unseal Scanner.checkFixReleased in
theorem markedReleased_congr (net : registry.Network) (s s' : Scanner)
    (h : s'.repoClient = s.repoClient) (dep : Dependency) (adv : Advisory) :
    markedReleased net s' dep adv = markedReleased net s dep adv := by
  unfold markedReleased Scanner.checkFixReleased
  rw [h]

theorem any_insert (p : String → Bool) (pre post : List String) (x : String) :
    (pre ++ x :: post).any p = (p x || (pre ++ post).any p) := by
  simp only [List.any_append, List.any_cons]
  cases p x <;> cases pre.any p <;> cases post.any p <;> rfl

theorem emitted_filter_aux (a r b : Bool) (ff : Finding) (p : Finding → Bool)
    (hpb : p ff = b) :
    (if (a && b && !r) = true then [ff] else []) = List.filter p (if (a && !r) = true then [ff] else []) := by
  cases a <;> cases r <;> cases b <;> simp [hpb]

theorem scan_ignore_insert (net : registry.Network) (s s' : Scanner) (pre post : List String)
    (x : String) (deps : List Dependency)
    (hsrc : s'.advisorySource = s.advisorySource) (hrc : s'.repoClient = s.repoClient)
    (hsev : s'.config.Severity = s.config.Severity)
    (hpk : s'.config.Ignore.Packages = s.config.Ignore.Packages)
    (hadv : s.config.Ignore.Advisories = pre ++ post)
    (hadv' : s'.config.Ignore.Advisories = pre ++ x :: post) :
    s'.Scan net deps
      = ((s.Scan net deps).1.filter (fun f => decide ¬(f.Advisory.ID = x ∨ x ∈ f.Advisory.Aliases)),
         (s.Scan net deps).2) := by
  cases hq : s.advisorySource.QueryBatch (buildQueries deps) with
  | error e =>
    unfold Scanner.Scan
    simp only [hsrc, hq]
    rfl
  | ok m =>
    rw [Scan_ok net s deps m hq, Scan_ok net s' deps m (hsrc ▸ hq)]
    simp only [Prod.mk.injEq, and_true]
    apply filter_flatMap_eq
    intro dep
    apply filter_flatMap_eq
    intro adv
    unfold emitted
    rw [markedReleased_congr net s s' hrc]
    have hp : passesFilters s' dep adv
        = (passesFilters s dep adv && decide ¬(adv.ID = x ∨ x ∈ adv.Aliases)) := by
      unfold passesFilters Scanner.isIgnored
      rw [hsev, hpk, hadv, hadv']
      simp only [any_insert]
      have hx : (decide (x = adv.ID) || adv.Aliases.any fun al => decide (x = al))
          = !decide ¬(adv.ID = x ∨ x ∈ adv.Aliases) := by
        by_cases h1 : adv.ID = x
        · simp [h1]
        · by_cases h2 : x ∈ adv.Aliases
          · simp [h2]
          · have h1' : ¬ x = adv.ID := fun h => h1 h.symm
            have h3 : ∀ y ∈ adv.Aliases, ¬ x = y := fun y hy hxy => h2 (hxy ▸ hy)
            simpa [h1, h1', h2] using h3
      rw [hx]
      generalize (decide ¬(adv.ID = x ∨ x ∈ adv.Aliases)) = b
      generalize (pre ++ post).any _ = c
      generalize List.any _ _ = d
      generalize meetsMinSeverity _ _ = e
      cases b <;> cases c <;> cases d <;> cases e <;> rfl
    rw [hp]
    exact emitted_filter_aux _ _ _ _ _ rfl

/-- C2: adding the advisory identifier `x` to the ignore-advisories list, at any
position, changes the result of `Scan` by removing exactly the findings whose
advisory id is `x` or whose aliases contain `x`; the other findings are kept,
unchanged and in the same order, and the error is the same. -/
theorem C2_ignore_removes_exactly (net : registry.Network) (src : Source) (rc : vcs.RepoClient)
    (cfg : config.Config) (pre post : List String) (x : String) (deps : List Dependency) :
    (Scanner.mk src rc
        { cfg with Ignore := { cfg.Ignore with Advisories := pre ++ x :: post } }).Scan net deps
      = (((Scanner.mk src rc
            { cfg with Ignore := { cfg.Ignore with Advisories := pre ++ post } }).Scan net deps).1.filter
            (fun f => decide ¬(f.Advisory.ID = x ∨ x ∈ f.Advisory.Aliases)),
         ((Scanner.mk src rc
            { cfg with Ignore := { cfg.Ignore with Advisories := pre ++ post } }).Scan net deps).2) :=
  scan_ignore_insert net _ _ pre post x deps rfl rfl rfl rfl rfl rfl

/-- C3: every finding that `Scan` returns under the configured minimum severity
has an empty (unknown) severity, or a severity whose rank is at least the rank
of the minimum, both taken in lower case; the ranks are low = 1, medium = 2,
high = 3, critical = 4. -/
theorem C3_findings_meet_minimum (net : registry.Network) (s : Scanner) (deps : List Dependency)
    (f : Finding) (hf : f ∈ (s.Scan net deps).1) :
    (f.Advisory.Severity = ""
      ∨ severityRank (strings.ToLower f.Advisory.Severity)
          ≥ severityRank (strings.ToLower s.config.Severity))
    ∧ severityRank "low" = 1 ∧ severityRank "medium" = 2 ∧ severityRank "high" = 3
    ∧ severityRank "critical" = 4 := by
  refine ⟨?_, by decide, by decide, by decide, by decide⟩
  cases hq : s.advisorySource.QueryBatch (buildQueries deps) with
  | error e =>
    unfold Scanner.Scan at hf
    rw [hq] at hf
    simp at hf
  | ok m =>
    obtain ⟨dep, _, adv, _, hp, _, rfl⟩ := (mem_Scan_iff net s deps m hq f).1 hf
    unfold passesFilters meetsMinSeverity at hp
    simp only [findingFor]
    by_cases he : adv.Severity = ""
    · exact Or.inl he
    · right
      simp only [he, if_false, Bool.and_eq_true, decide_eq_true_eq] at hp
      exact hp.2

end IgnoreClaims

/-- C3 at the scenario of the specification: the finding for `GHSA-xxxx`, of
severity high, is returned under the default minimum medium. -/
theorem C3_findings_meet_minimum_witness :
    (scenario.ghsa.Severity = ""
      ∨ severityRank (strings.ToLower scenario.ghsa.Severity)
          ≥ severityRank (strings.ToLower (scenario.scannerWith false).config.Severity))
    ∧ severityRank "low" = 1 ∧ severityRank "medium" = 2 ∧ severityRank "high" = 3
    ∧ severityRank "critical" = 4 :=
  C3_findings_meet_minimum scenario.net (scenario.scannerWith false) [scenario.foo]
    { Advisory := scenario.ghsa, Package := scenario.foo, FixCommit := "abc1234def",
      FixReleased := false, FixRelease := "", SourceRepo := "github.com/foo/foo" } (by decide)

theorem severityRank_eq_zero (k : String) (h : k ∉ ["low", "medium", "high", "critical"]) :
    severityRank k = 0 := by
  simp only [List.mem_cons, List.mem_singleton, List.not_mem_nil, or_false, not_or] at h
  unfold severityRank
  rw [if_neg h.1, if_neg h.2.1, if_neg h.2.2.1, if_neg h.2.2.2]

/-- C4, as stated, fails: the severity `moderate` is none of the known levels,
and it does not pass the minimum `medium`. -/
theorem C4_unknown_severity_counterexample :
    ¬ ∀ s m : String, strings.ToLower s ∉ ["low", "medium", "high", "critical"] →
        meetsMinSeverity s m = true := by
  intro h
  have h' := h "moderate" "medium" (by decide)
  revert h'
  decide

/-- C4, amended: a severity that is none of the known levels (in lower case)
passes the threshold filter when it is the empty string, or when the configured
minimum is itself none of the known levels. -/
theorem C4_unknown_severity_passes (s m : String)
    (hs : strings.ToLower s ∉ ["low", "medium", "high", "critical"])
    (h : s = "" ∨ strings.ToLower m ∉ ["low", "medium", "high", "critical"]) :
    meetsMinSeverity s m = true := by
  unfold meetsMinSeverity
  by_cases he : s = ""
  · rw [if_pos he]
  · rw [if_neg he]
    rcases h with h | h
    · exact absurd h he
    · rw [severityRank_eq_zero _ hs, severityRank_eq_zero _ h]
      decide

/-- C4, amended, at the empty severity under the minimum `critical`. -/
theorem C4_unknown_severity_passes_witness : meetsMinSeverity "" "critical" = true :=
  C4_unknown_severity_passes "" "critical" (by decide) (Or.inl rfl)

/-- C5 fails on the code: for the dependencies `[foo@1.0.0, foo@2.0.0]` the batch
answer has no vulnerability at the position of `foo@1.0.0`, and `Scan`, run over
the map that `QueryBatch` builds from it, returns a finding whose package is
`foo@1.0.0`. -/
theorem C5_finding_for_unaffected_version :
    scenario.batchAnswer.Results.get? 0 = some { Vulns := [] }
    ∧ (scenario.osvScanner.Scan scenario.net [scenario.fooOld, scenario.fooNew]).2 = none
    ∧ (scenario.osvScanner.Scan scenario.net [scenario.fooOld, scenario.fooNew]).1.map
        (fun f => (f.Advisory.ID, f.Package)) =
          [("GHSA-xxxx", scenario.fooOld), ("GHSA-xxxx", scenario.fooNew)] := by
  decide

section CheckClaims

theorem checkTags_none (rc : vcs.RepoClient) (owner repo sha : String) (tags : List vcs.Tag)
    (h : ∀ u ∈ tags, rc.IsAncestor owner repo u.Name sha ≠ .ok true) :
    checkTags rc owner repo sha tags = (false, "", none) := by
  induction tags with
  | nil => rfl
  | cons tag rest ih =>
    unfold checkTags
    have ht := h tag (List.mem_cons_self _ _)
    have hr := ih fun u hu => h u (List.mem_cons_of_mem _ hu)
    cases hc : rc.IsAncestor owner repo tag.Name sha with
    | error e => exact hr
    | ok b =>
      cases b with
      | true => exact absurd hc ht
      | false => simpa using hr

theorem checkTags_first (rc : vcs.RepoClient) (owner repo sha : String)
    (pre : List vcs.Tag) (t : vcs.Tag) (post : List vcs.Tag)
    (hpre : ∀ u ∈ pre, rc.IsAncestor owner repo u.Name sha ≠ .ok true)
    (ht : rc.IsAncestor owner repo t.Name sha = .ok true) :
    checkTags rc owner repo sha (pre ++ t :: post) = (true, t.Name, none) := by
  induction pre with
  | nil =>
    simp only [List.nil_append]
    unfold checkTags
    rw [ht]
    rfl
  | cons tag rest ih =>
    simp only [List.cons_append]
    unfold checkTags
    have h1 := hpre tag (List.mem_cons_self _ _)
    have hr := ih fun u hu => hpre u (List.mem_cons_of_mem _ hu)
    cases hc : rc.IsAncestor owner repo tag.Name sha with
    | error e => exact hr
    | ok b =>
      cases b with
      | true => exact absurd hc h1
      | false => simpa using hr

/-- C6: once the repository location is parsed and `ListTags` has returned the
tags, `checkFixReleased` returns `(true, t.Name)` without error for the first
tag `t`, in the order of the list, for which `IsAncestor` answers true without
error, whatever `IsAncestor` returned for the tags before it (false or an
error); and it returns `(false, "")` without error when no tag is answered with
true. -/
theorem C6_first_matching_tag (s : Scanner) (sourceRepo sha owner repo : String)
    (tags : List vcs.Tag)
    (hp : vcs.ParseGitHubRepo sourceRepo = (owner, repo, none))
    (hl : s.repoClient.ListTags owner repo = .ok tags) :
    (∀ pre t post, tags = pre ++ t :: post →
        (∀ u ∈ pre, s.repoClient.IsAncestor owner repo u.Name sha ≠ .ok true) →
        s.repoClient.IsAncestor owner repo t.Name sha = .ok true →
        s.checkFixReleased sourceRepo sha = (true, t.Name, none))
    ∧ ((∀ u ∈ tags, s.repoClient.IsAncestor owner repo u.Name sha ≠ .ok true) →
        s.checkFixReleased sourceRepo sha = (false, "", none)) := by
  have hchk : s.checkFixReleased sourceRepo sha = checkTags s.repoClient owner repo sha tags := by
    unfold Scanner.checkFixReleased
    rw [hp]
    simp only [hl]
  constructor
  · intro pre t post htags hpre ht
    rw [hchk, htags]
    exact checkTags_first _ _ _ _ pre t post hpre ht
  · intro hnone
    rw [hchk]
    exact checkTags_none _ _ _ _ tags hnone

end CheckClaims

/-- C6 at a flaky oracle: the ancestry question fails for the first tag `v1.4.0`
and is answered with true for the second tag `v1.3.0`, which is reported. -/
theorem C6_first_matching_tag_witness :
    scenario.flakyScanner.checkFixReleased "github.com/foo/foo" "abc1234def"
      = (true, "v1.3.0", none) :=
  (C6_first_matching_tag scenario.flakyScanner "github.com/foo/foo" "abc1234def" "foo" "foo"
    [{ Name := "v1.4.0", Commit := "aaa1111" }, { Name := "v1.3.0", Commit := "def5678" }]
    (by decide) rfl).1
    [{ Name := "v1.4.0", Commit := "aaa1111" }] { Name := "v1.3.0", Commit := "def5678" } [] rfl
    (by
      intro u hu
      rw [List.mem_singleton] at hu
      subst hu
      intro h
      cases h)
    rfl

/-- C7: `Scan` returns an error if and only if the advisory batch query returns
one, and then it returns no findings; when the batch query succeeds `Scan`
returns a nil error, whatever the registries and the repository client answer. -/
theorem C7_scan_fails_iff_query_fails (net : registry.Network) (s : Scanner)
    (deps : List Dependency) :
    ((s.Scan net deps).2 ≠ none ↔ ∃ e, s.advisorySource.QueryBatch (buildQueries deps) = .error e)
    ∧ ((s.Scan net deps).2 ≠ none → (s.Scan net deps).1 = [])
    ∧ (∀ m, s.advisorySource.QueryBatch (buildQueries deps) = .ok m → (s.Scan net deps).2 = none) := by
  unfold Scanner.Scan
  cases hq : s.advisorySource.QueryBatch (buildQueries deps) with
  | error e => simp
  | ok m => simp

/-- C7 at a failing batch query: `Scan` returns the error and no findings. -/
theorem C7_scan_fails_iff_query_fails_witness :
    (scenario.brokenScanner.Scan scenario.net [scenario.foo]).1 = [] :=
  (C7_scan_fails_iff_query_fails scenario.net scenario.brokenScanner [scenario.foo]).2.1
    (by decide)

end scanner

/-! ### The tracker and the listing of tracked issues -/

namespace GoMap

variable {α : Type}

theorem lookupAux_insertAux (k k' : String) (v : α) (l : List (String × α)) :
    lookupAux k' (insertAux k v l) = if k' = k then some v else lookupAux k' l := by
  induction l with
  | nil =>
    simp only [insertAux, lookupAux]
    by_cases h : k = k'
    · simp [h]
    · have h' : ¬ k' = k := fun e => h e.symm
      simp [h, h']
  | cons e rest ih =>
    obtain ⟨k0, v0⟩ := e
    simp only [insertAux]
    by_cases h0 : k0 = k
    · subst h0
      simp only [if_true, lookupAux]
      by_cases h : k0 = k'
      · simp [h]
      · have h' : ¬ k' = k0 := fun e => h e.symm
        simp [h, h']
    · simp only [h0, if_false, lookupAux, ih]
      by_cases h : k0 = k'
      · subst h
        simp [h0]
      · simp [h]

theorem lookup_insert (m : GoMap α) (k k' : String) (v : α) :
    (m.insert k v).lookup k' = if k' = k then some v else m.lookup k' :=
  lookupAux_insertAux k k' v m.entries

theorem keys_insertAux (k : String) (v : α) (l : List (String × α)) (k' : String) :
    k' ∈ (insertAux k v l).map Prod.fst ↔ k' = k ∨ k' ∈ l.map Prod.fst := by
  induction l with
  | nil => simp [insertAux]
  | cons e rest ih =>
    obtain ⟨k0, v0⟩ := e
    simp only [insertAux]
    by_cases h0 : k0 = k
    · subst h0
      simp
    · simp only [h0, if_false, List.map_cons, List.mem_cons, ih]
      tauto

theorem nodup_insertAux (k : String) (v : α) (l : List (String × α))
    (h : (l.map Prod.fst).Nodup) : ((insertAux k v l).map Prod.fst).Nodup := by
  induction l with
  | nil => simp [insertAux]
  | cons e rest ih =>
    obtain ⟨k0, v0⟩ := e
    simp only [List.map_cons, List.nodup_cons] at h
    simp only [insertAux]
    by_cases h0 : k0 = k
    · subst h0
      simpa using h
    · simp only [h0, if_false, List.map_cons, List.nodup_cons]
      refine ⟨?_, ih h.2⟩
      intro hmem
      rcases (keys_insertAux k v rest k0).1 hmem with h1 | h1
      · exact h0 h1
      · exact h.1 h1

theorem lookupAux_eq_some_iff (l : List (String × α)) (h : (l.map Prod.fst).Nodup) (k : String)
    (v : α) : lookupAux k l = some v ↔ (k, v) ∈ l := by
  induction l with
  | nil => simp [lookupAux]
  | cons e rest ih =>
    obtain ⟨k0, v0⟩ := e
    simp only [List.map_cons, List.nodup_cons] at h
    simp only [lookupAux, List.mem_cons, Prod.mk.injEq]
    by_cases h0 : k0 = k
    · subst h0
      simp only [if_true, Option.some.injEq, true_and]
      constructor
      · intro e; exact Or.inl e.symm
      · rintro (e | e)
        · exact e.symm
        · exact absurd (List.mem_map_of_mem Prod.fst e) h.1
    · simp only [h0, if_false, ih h.2]
      constructor
      · intro e; exact Or.inr e
      · rintro (e | e)
        · exact absurd e.1.symm h0
        · exact e

theorem lookupAux_eq_none_iff (l : List (String × α)) (k : String) :
    lookupAux k l = none ↔ k ∉ l.map Prod.fst := by
  induction l with
  | nil => simp [lookupAux]
  | cons e rest ih =>
    obtain ⟨k0, v0⟩ := e
    simp only [lookupAux, List.map_cons, List.mem_cons, not_or]
    by_cases h0 : k0 = k
    · subst h0
      simp
    · have h0' : ¬ k = k0 := fun e => h0 e.symm
      simp [h0, h0', ih]

end GoMap

namespace github

namespace Tracker

theorem matchingFrom_number (labels : List String) (state : String) (n : Nat)
    (l : List StoredIssue) (i : Issue) (h : i ∈ matchingFrom labels state n l) :
    n ≤ i.Number ∧ i.Number < n + l.length
      ∧ ∃ x, l.get? (i.Number - n) = some x ∧ i = present i.Number x
        ∧ (state = "all" ∨ x.State = state) ∧ labels.all (fun lb => lb ∈ x.Labels) = true := by
  induction l generalizing n with
  | nil => simp [matchingFrom] at h
  | cons x rest ih =>
    unfold matchingFrom at h
    have htail : i ∈ matchingFrom labels state (n + 1) rest →
        n ≤ i.Number ∧ i.Number < n + (x :: rest).length
          ∧ ∃ y, (x :: rest).get? (i.Number - n) = some y ∧ i = present i.Number y
            ∧ (state = "all" ∨ y.State = state) ∧ labels.all (fun lb => lb ∈ y.Labels) = true := by
      intro hi
      obtain ⟨h1, h2, y, hy, hrest⟩ := ih (n + 1) hi
      refine ⟨by omega, by simp only [List.length_cons]; omega, y, ?_, hrest⟩
      have : i.Number - n = (i.Number - (n + 1)) + 1 := by omega
      rw [this, List.get?_cons_succ]
      exact hy
    split at h
    · rename_i hc
      rcases List.mem_cons.1 h with h | h
      · subst h
        refine ⟨Nat.le_refl _, by simp [present], x, by simp [present], rfl, hc.1, hc.2⟩
      · exact htail h
    · exact htail h

theorem mem_matchingFrom (labels : List String) (state : String) (n : Nat)
    (l : List StoredIssue) (j : Nat) (x : StoredIssue) (hx : l.get? j = some x)
    (hs : state = "all" ∨ x.State = state) (hl : labels.all (fun lb => lb ∈ x.Labels) = true) :
    present (n + j) x ∈ matchingFrom labels state n l := by
  induction l generalizing n j with
  | nil => simp at hx
  | cons y rest ih =>
    unfold matchingFrom
    cases j with
    | zero =>
      simp only [List.get?_cons_zero, Option.some.injEq] at hx
      subst hx
      rw [if_pos ⟨hs, hl⟩]
      exact List.mem_cons_self _ _
    | succ j =>
      simp only [List.get?_cons_succ] at hx
      have := ih (n + 1) j hx
      have e : n + 1 + j = n + (j + 1) := by omega
      rw [e] at this
      split
      · exact List.mem_cons_of_mem _ this
      · exact this

theorem matchingFrom_inj (labels : List String) (state : String) (n : Nat)
    (l : List StoredIssue) (i j : Issue) (hi : i ∈ matchingFrom labels state n l)
    (hj : j ∈ matchingFrom labels state n l) (h : i.Number = j.Number) : i = j := by
  obtain ⟨_, _, x, hx, hix, _⟩ := matchingFrom_number labels state n l i hi
  obtain ⟨_, _, y, hy, hjy, _⟩ := matchingFrom_number labels state n l j hj
  rw [h] at hx
  rw [hx] at hy
  cases hy
  rw [hix, hjy, h]

end Tracker

end github

namespace issues

open scanner github

theorem insertAux_mem {α : Type} (k : String) (v : α) (l : List (String × α)) (e : String × α)
    (h : e ∈ GoMap.insertAux k v l) : e = (k, v) ∨ e ∈ l := by
  induction l with
  | nil => simpa [GoMap.insertAux] using h
  | cons e0 rest ih =>
    obtain ⟨k0, v0⟩ := e0
    simp only [GoMap.insertAux] at h
    by_cases h0 : k0 = k
    · simp only [h0, if_true, List.mem_cons] at h
      rcases h with h | h
      · exact Or.inl h
      · exact Or.inr (List.mem_cons_of_mem _ h)
    · simp only [h0, if_false, List.mem_cons] at h
      rcases h with h | h
      · exact Or.inr (h ▸ List.mem_cons_self _ _)
      · rcases ih h with h | h
        · exact Or.inl h
        · exact Or.inr (List.mem_cons_of_mem _ h)

theorem addPage_append (m : GoMap Issue) (a b : List Issue) :
    addPage m (a ++ b) = addPage (addPage m a) b := by
  unfold addPage
  rw [List.foldl_append]

theorem addPage_cons (m : GoMap Issue) (i : Issue) (rest : List Issue) :
    addPage m (i :: rest)
      = addPage (if extractIssueKey i ≠ "" then m.insert (extractIssueKey i) i else m) rest := by
  unfold addPage
  rw [List.foldl_cons]

theorem addPage_nodup (m : GoMap Issue) (page : List Issue) (h : m.keys.Nodup) :
    (addPage m page).keys.Nodup := by
  induction page generalizing m with
  | nil => exact h
  | cons i rest ih =>
    rw [addPage_cons]
    apply ih
    split
    · exact GoMap.nodup_insertAux _ _ _ h
    · exact h

theorem addPage_keys (m : GoMap Issue) (page : List Issue) (k : String) :
    k ∈ (addPage m page).keys ↔ k ∈ m.keys ∨ ∃ i ∈ page, extractIssueKey i = k ∧ k ≠ "" := by
  induction page generalizing m with
  | nil => simp [addPage]
  | cons i rest ih =>
    rw [addPage_cons, ih]
    by_cases hk : extractIssueKey i ≠ ""
    · rw [if_pos hk]
      have := GoMap.keys_insertAux (extractIssueKey i) i m.entries k
      simp only [GoMap.keys, GoMap.insert] at this ⊢
      rw [this]
      constructor
      · rintro ((h | h) | ⟨j, hj, hjk⟩)
        · exact Or.inr ⟨i, List.mem_cons_self _ _, h.symm, h ▸ hk⟩
        · exact Or.inl h
        · exact Or.inr ⟨j, List.mem_cons_of_mem _ hj, hjk⟩
      · rintro (h | ⟨j, hj, hjk⟩)
        · exact Or.inl (Or.inr h)
        · rcases List.mem_cons.1 hj with e | e
          · subst e
            exact Or.inl (Or.inl hjk.1.symm)
          · exact Or.inr ⟨j, e, hjk⟩
    · rw [if_neg hk]
      constructor
      · rintro (h | ⟨j, hj, hjk⟩)
        · exact Or.inl h
        · exact Or.inr ⟨j, List.mem_cons_of_mem _ hj, hjk⟩
      · rintro (h | ⟨j, hj, hjk⟩)
        · exact Or.inl h
        · rcases List.mem_cons.1 hj with e | e
          · subst e
            exact absurd (hjk.1 ▸ hjk.2) hk
          · exact Or.inr ⟨j, e, hjk⟩

theorem addPage_entries (m : GoMap Issue) (page : List Issue) (e : String × Issue)
    (h : e ∈ (addPage m page).entries) :
    e ∈ m.entries ∨ (e.2 ∈ page ∧ e.1 = extractIssueKey e.2 ∧ e.1 ≠ "") := by
  induction page generalizing m with
  | nil => exact Or.inl h
  | cons i rest ih =>
    rw [addPage_cons] at h
    rcases ih _ h with h | h
    · by_cases hk : extractIssueKey i ≠ ""
      · rw [if_pos hk] at h
        rcases insertAux_mem _ _ _ _ h with h | h
        · subst h
          exact Or.inr ⟨List.mem_cons_self _ _, rfl, hk⟩
        · exact Or.inl h
      · rw [if_neg hk] at h
        exact Or.inl h
    · exact Or.inr ⟨List.mem_cons_of_mem _ h.1, h.2⟩

theorem trackedMap_nodup (t : Tracker) : (trackedMap t).keys.Nodup :=
  addPage_nodup _ _ List.nodup_nil

theorem trackedMap_entry (t : Tracker) (e : String × Issue) (h : e ∈ (trackedMap t).entries) :
    e.2 ∈ t.matching [LabelUnreleasedFix] "open" ∧ e.1 = extractIssueKey e.2 ∧ e.1 ≠ "" := by
  rcases addPage_entries _ _ e h with h | h
  · simp [GoMap.empty] at h
  · exact h

theorem trackedMap_keys (t : Tracker) (k : String) :
    k ∈ (trackedMap t).keys
      ↔ ∃ i ∈ t.matching [LabelUnreleasedFix] "open", extractIssueKey i = k ∧ k ≠ "" := by
  unfold trackedMap
  rw [addPage_keys]
  simp [GoMap.empty, GoMap.keys]

theorem trackedMap_lookup (t : Tracker) (k : String) (i : Issue) :
    (trackedMap t).lookup k = some i ↔ (k, i) ∈ (trackedMap t).entries :=
  GoMap.lookupAux_eq_some_iff _ (trackedMap_nodup t) k i

theorem ListByRepo_fault (t : Tracker) (labels : List String) (state : String) (perPage page : Nat)
    (e : String) (h : t.fault = some e) :
    t.ListByRepo labels state perPage page
      = (.error e, t.record (Call.ListByRepo labels state perPage page) (some e) t.issues) := by
  unfold Tracker.ListByRepo
  simp only [h]

theorem ListByRepo_ok (t : Tracker) (labels : List String) (state : String) (perPage page : Nat)
    (h : t.fault = none) :
    t.ListByRepo labels state perPage page
      = (.ok (((t.matching labels state).drop ((max page 1 - 1) * perPage)).take perPage,
              if max page 1 * perPage < (t.matching labels state).length then max page 1 + 1 else 0),
         t.record (Call.ListByRepo labels state perPage page) none t.issues) := by
  unfold Tracker.ListByRepo
  simp only [h]

theorem matching_record (t : Tracker) (c : Call) (err : Option String) (labels : List String)
    (state : String) : (t.record c err t.issues).matching labels state = t.matching labels state :=
  rfl

theorem listLoop_spec (fuel page : Nat) (acc : GoMap Issue) (t : Tracker) :
    (listLoop fuel page acc t).2.issues = t.issues
    ∧ (∃ new, (listLoop fuel page acc t).2.calls = t.calls ++ new
        ∧ ∀ c ∈ new, c.1.isMutation = false)
    ∧ ((listLoop fuel page acc t).1.2 = none →
        (listLoop fuel page acc t).1.1
          = addPage acc ((t.matching [LabelUnreleasedFix] "open").drop ((max page 1 - 1) * 100))) := by
  induction fuel generalizing page acc t with
  | zero =>
    refine ⟨rfl, ⟨[], by simp [listLoop], by simp⟩, ?_⟩
    intro h
    simp [listLoop] at h
  | succ fuel ih =>
    unfold listLoop
    cases hf : t.fault with
    | some e =>
      rw [ListByRepo_fault _ _ _ _ _ e hf]
      refine ⟨rfl, ⟨[(Call.ListByRepo [LabelUnreleasedFix] "open" 100 page, some e)], rfl, ?_⟩, ?_⟩
      · intro c hc
        rw [List.mem_singleton] at hc
        subst hc
        rfl
      · intro h
        simp at h
    | none =>
      rw [ListByRepo_ok _ _ _ _ _ hf]
      simp only []
      generalize hall : t.matching [LabelUnreleasedFix] "open" = all
      by_cases hn : max page 1 * 100 < all.length
      · have hnext : (if max page 1 * 100 < all.length then max page 1 + 1 else 0) ≠ 0 := by
          rw [if_pos hn]; omega
        rw [if_neg hnext, if_pos hn]
        obtain ⟨h1, ⟨new, h2, h3⟩, h4⟩ := ih (max page 1 + 1)
          (addPage acc ((all.drop ((max page 1 - 1) * 100)).take 100))
          (t.record (Call.ListByRepo [LabelUnreleasedFix] "open" 100 page) none t.issues)
        refine ⟨h1, ⟨(Call.ListByRepo [LabelUnreleasedFix] "open" 100 page, none) :: new, ?_, ?_⟩, ?_⟩
        · rw [h2]
          simp [Tracker.record]
        · intro c hc
          rcases List.mem_cons.1 hc with hc | hc
          · subst hc; rfl
          · exact h3 c hc
        · intro hs
          rw [h4 hs, matching_record, hall, ← addPage_append]
          congr 1
          have e1 : max (max page 1 + 1) 1 - 1 = max page 1 := by omega
          have e2 : max page 1 * 100 = (max page 1 - 1) * 100 + 100 := by omega
          rw [e1, e2, ← List.drop_drop, List.take_append_drop]
      · have hnext : (if max page 1 * 100 < all.length then max page 1 + 1 else 0) = 0 := by
          rw [if_neg hn]
        rw [if_pos hnext]
        refine ⟨rfl, ⟨[(Call.ListByRepo [LabelUnreleasedFix] "open" 100 page, none)], rfl, ?_⟩, ?_⟩
        · intro c hc
          rw [List.mem_singleton] at hc
          subst hc
          rfl
        · intro _
          simp only []
          congr 1
          apply List.take_of_length_le
          rw [List.length_drop]
          omega

theorem listTrackedIssues_spec (t : Tracker) :
    (listTrackedIssues t).2.issues = t.issues
    ∧ (∃ new, (listTrackedIssues t).2.calls = t.calls ++ new ∧ ∀ c ∈ new, c.1.isMutation = false)
    ∧ ((listTrackedIssues t).1.2 = none → (listTrackedIssues t).1.1 = trackedMap t) := by
  obtain ⟨h1, h2, h3⟩ := listLoop_spec (t.issues.length + 1) 0 GoMap.empty t
  refine ⟨h1, h2, ?_⟩
  intro h
  have := h3 h
  simpa [trackedMap] using this

/-! ### The listing ends -/

theorem matchingFrom_length (labels : List String) (state : String) (n : Nat)
    (l : List StoredIssue) : (Tracker.matchingFrom labels state n l).length ≤ l.length := by
  induction l generalizing n with
  | nil => simp [Tracker.matchingFrom]
  | cons x rest ih =>
    unfold Tracker.matchingFrom
    split
    · simp only [List.length_cons]
      exact Nat.succ_le_succ (ih (n + 1))
    · simp only [List.length_cons]
      exact Nat.le_succ_of_le (ih (n + 1))

theorem fault_mem (t : Tracker) (e : String) (h : t.fault = some e) : some e ∈ t.faults := by
  unfold Tracker.fault at h
  cases hf : t.faults with
  | nil => simp [hf] at h
  | cons x rest =>
    simp only [hf, List.head?_cons, Option.join] at h
    subst h
    exact List.mem_cons_self _ _

theorem listLoop_fails_only_on_fault (fuel page : Nat) (acc : GoMap Issue) (t : Tracker)
    (hfuel : 1 ≤ fuel)
    (hcover : (t.matching [LabelUnreleasedFix] "open").length ≤ (max page 1 - 1 + fuel) * 100)
    (e : String) (h : (listLoop fuel page acc t).1.2 = some e) : some e ∈ t.faults := by
  induction fuel generalizing page acc t with
  | zero => omega
  | succ fuel ih =>
    unfold listLoop at h
    cases hf : t.fault with
    | some e' =>
      rw [ListByRepo_fault _ _ _ _ _ e' hf] at h
      simp only [Option.some.injEq] at h
      subst h
      exact fault_mem t e' hf
    | none =>
      rw [ListByRepo_ok _ _ _ _ _ hf] at h
      simp only [] at h
      by_cases hn : max page 1 * 100 < (t.matching [LabelUnreleasedFix] "open").length
      · have hnext : (if max page 1 * 100 < (t.matching [LabelUnreleasedFix] "open").length
            then max page 1 + 1 else 0) ≠ 0 := by
          rw [if_pos hn]; omega
        rw [if_neg hnext, if_pos hn] at h
        have hmem := ih (max page 1 + 1) _ _ (by omega)
          (by rw [matching_record]; have : max (max page 1 + 1) 1 - 1 + fuel
                = max page 1 - 1 + (fuel + 1) := by omega
              rw [this]; exact hcover) h
        exact List.mem_of_mem_tail hmem
      · have hnext : (if max page 1 * 100 < (t.matching [LabelUnreleasedFix] "open").length
            then max page 1 + 1 else 0) = 0 := by
          rw [if_neg hn]
        rw [if_pos hnext] at h
        simp at h

/-- The loop of `listTrackedIssues` ends: it returns an error only when one of
its listing calls failed. In particular it succeeds on a tracker on which no call
fails. -/
theorem listTrackedIssues_fails_only_on_fault (t : Tracker) (e : String)
    (h : (listTrackedIssues t).1.2 = some e) : some e ∈ t.faults := by
  apply listLoop_fails_only_on_fault (t.issues.length + 1) 0 GoMap.empty t (by omega) _ e h
  have := matchingFrom_length [LabelUnreleasedFix] "open" 1 t.issues
  unfold Tracker.matching
  omega

/-! ### The calls of a successful run of `Reconcile` -/

theorem Create_ok (t t' : Tracker) (req : IssueRequest) (h : t.Create req = (none, t')) :
    t' = t.record (Call.Create req) none (t.issues ++
      [{ Title := req.Title.getD "", Body := req.Body.getD "", State := "open",
         Labels := req.Labels.getD [], Comments := [] }]) := by
  unfold Tracker.Create at h
  cases hf : t.fault with
  | some e => simp [hf] at h
  | none =>
    simp only [hf, Prod.mk.injEq, true_and] at h
    exact h.symm

theorem CreateComment_ok (t t' : Tracker) (n : Nat) (body : String)
    (h : t.CreateComment n body = (none, t')) :
    ∃ x, t.issues[n - 1]? = some x ∧ n ≠ 0
      ∧ t' = t.record (Call.CreateComment n body) none
          (t.issues.set (n - 1) { x with Comments := x.Comments ++ [body] }) := by
  unfold Tracker.CreateComment at h
  cases hf : t.fault with
  | some e => simp [hf] at h
  | none =>
    simp only [hf, List.get?_eq_getElem?] at h
    cases hx : t.issues[n - 1]? with
    | none => simp [hx] at h
    | some x =>
      simp only [List.get?_eq_getElem?, hx] at h
      by_cases hn : n = 0
      · simp [hn] at h
      · simp only [hn, if_false, Prod.mk.injEq, true_and] at h
        exact ⟨x, rfl, hn, h.symm⟩

theorem Edit_ok (t t' : Tracker) (n : Nat) (req : IssueRequest)
    (h : t.Edit n req = (none, t')) :
    ∃ x, t.issues[n - 1]? = some x ∧ n ≠ 0
      ∧ t' = t.record (Call.Edit n req) none
          (t.issues.set (n - 1)
            { x with Title := req.Title.getD x.Title, Body := req.Body.getD x.Body,
                     State := req.State.getD x.State, Labels := req.Labels.getD x.Labels }) := by
  unfold Tracker.Edit at h
  cases hf : t.fault with
  | some e => simp [hf] at h
  | none =>
    simp only [hf, List.get?_eq_getElem?] at h
    cases hx : t.issues[n - 1]? with
    | none => simp [hx] at h
    | some x =>
      simp only [List.get?_eq_getElem?, hx] at h
      by_cases hn : n = 0
      · simp [hn] at h
      · simp only [hn, if_false, Prod.mk.injEq, true_and] at h
        exact ⟨x, rfl, hn, h.symm⟩

theorem createIssue_calls (f : Finding) (t t' : Tracker) (h : createIssue f t = (none, t')) :
    t'.calls = t.calls ++ [(Call.Create (createRequest f), none)] := by
  rw [Create_ok t t' _ h]
  rfl

theorem commentThenEdit_calls (t t' : Tracker) (n : Nat) (body : String) (req : IssueRequest)
    (h : (match t.CreateComment n body with
          | (some err, t) => (some err, t)
          | (none, t) => t.Edit n req) = (none, t')) :
    t'.calls = t.calls ++ [(Call.CreateComment n body, none), (Call.Edit n req, none)] := by
  rcases hc : t.CreateComment n body with ⟨err, t1⟩
  rw [hc] at h
  cases err with
  | some e => simp at h
  | none =>
    simp only at h
    obtain ⟨_, _, _, h1⟩ := CreateComment_ok t t1 n body hc
    obtain ⟨_, _, _, h2⟩ := Edit_ok t1 t' n req h
    rw [h2, h1]
    simp [Tracker.record]

theorem markReleased_calls (issue : Issue) (f : Finding) (t t' : Tracker)
    (h : markReleased issue f t = (none, t')) :
    t'.calls = t.calls ++ [(Call.CreateComment issue.Number (RenderFixReleasedComment f), none),
      (Call.Edit issue.Number (releasedRequest issue), none)] :=
  commentThenEdit_calls t t' _ _ _ h

theorem closeStaleIssue_calls (issue : Issue) (t t' : Tracker)
    (h : closeStaleIssue issue t = (none, t')) :
    t'.calls = t.calls ++ [(Call.CreateComment issue.Number staleComment, none),
      (Call.Edit issue.Number closeRequest, none)] :=
  commentThenEdit_calls t t' _ _ _ h

theorem reconcileFinding_ok (existing : GoMap Issue) (fk fk' : GoMap Bool) (f : Finding)
    (t t' : Tracker) (h : reconcileFinding existing fk f t = (fk', none, t')) :
    t'.calls = t.calls ++ (callsForFinding existing f).map (fun c => (c, none))
    ∧ fk' = fk.insert (keyOf f) true := by
  unfold reconcileFinding at h
  unfold callsForFinding keyOf
  simp only [] at h
  cases hl : existing.lookup (issueKey f.Advisory.ID f.Package.Name) with
  | some issue =>
    simp only [hl] at h ⊢
    by_cases hr : f.FixReleased = true
    · simp only [hr, if_true] at h ⊢
      rcases hm : markReleased issue f t with ⟨err, t1⟩
      rw [hm] at h
      cases err with
      | some e => simp at h
      | none =>
        simp only [Prod.mk.injEq, true_and] at h
        obtain ⟨h1, h2⟩ := h
        subst h2
        exact ⟨markReleased_calls issue f t t1 hm, h1.symm⟩
    · simp only [hr, Bool.false_eq_true, if_false, Prod.mk.injEq, true_and] at h ⊢
      obtain ⟨h1, h2⟩ := h
      subst h2
      exact ⟨by simp, h1.symm⟩
  | none =>
    simp only [hl] at h ⊢
    rcases hm : createIssue f t with ⟨err, t1⟩
    rw [hm] at h
    cases err with
    | some e => simp at h
    | none =>
      simp only [Prod.mk.injEq, true_and] at h
      obtain ⟨h1, h2⟩ := h
      subst h2
      exact ⟨createIssue_calls f t t1 hm, h1.symm⟩

theorem reconcileFindings_ok (existing : GoMap Issue) (findings : List Finding)
    (fk fk' : GoMap Bool) (t t' : Tracker)
    (h : reconcileFindings existing findings fk t = (fk', none, t')) :
    t'.calls = t.calls ++ (findings.flatMap (callsForFinding existing)).map (fun c => (c, none))
    ∧ ∀ k, fk'.lookup k = if k ∈ findings.map keyOf then some true else fk.lookup k := by
  induction findings generalizing fk t with
  | nil =>
    simp only [reconcileFindings, Prod.mk.injEq, true_and] at h
    obtain ⟨h1, h2⟩ := h
    subst h1 h2
    simp
  | cons f rest ih =>
    unfold reconcileFindings at h
    rcases hm : reconcileFinding existing fk f t with ⟨fk1, err, t1⟩
    rw [hm] at h
    cases err with
    | some e => simp at h
    | none =>
      simp only at h
      obtain ⟨hc1, hfk1⟩ := reconcileFinding_ok existing fk fk1 f t t1 hm
      obtain ⟨hc2, hfk2⟩ := ih fk1 t1 h
      refine ⟨?_, ?_⟩
      · rw [hc2, hc1]
        simp [List.flatMap_cons]
      · intro k
        rw [hfk2 k, hfk1, GoMap.lookup_insert]
        by_cases hk : k ∈ rest.map keyOf
        · simp [hk]
        · by_cases hk2 : k = keyOf f
          · simp [hk2]
          · simp [hk, hk2]

theorem closeStale_ok (fk : GoMap Bool) (keys : List String)
    (hfk : ∀ k, (fk.lookup k).getD false = decide (k ∈ keys))
    (l : List (String × Issue)) (t t' : Tracker) (h : closeStale fk l t = (none, t')) :
    t'.calls = t.calls ++ (l.flatMap (callsForEntry keys)).map (fun c => (c, none)) := by
  induction l generalizing t with
  | nil =>
    simp only [closeStale, Prod.mk.injEq, true_and] at h
    subst h
    simp
  | cons e rest ih =>
    obtain ⟨key, issue⟩ := e
    unfold closeStale at h
    rw [hfk key] at h
    by_cases hk : key ∈ keys
    · simp only [hk, decide_True, if_true] at h
      rw [ih t h]
      simp [List.flatMap_cons, callsForEntry, hk]
    · simp only [hk, decide_False, Bool.false_eq_true, if_false] at h
      rcases hm : closeStaleIssue issue t with ⟨err, t1⟩
      rw [hm] at h
      cases err with
      | some e => simp at h
      | none =>
        simp only at h
        rw [ih t1 h, closeStaleIssue_calls issue t t1 hm]
        simp [List.flatMap_cons, callsForEntry, hk]

theorem findingKeys_spec (fk : GoMap Bool) (findings : List Finding)
    (h : ∀ k, fk.lookup k = if k ∈ findings.map keyOf then some true else GoMap.empty.lookup k) :
    ∀ k, (fk.lookup k).getD false = decide (k ∈ findings.map keyOf) := by
  intro k
  rw [h k]
  by_cases hk : k ∈ findings.map keyOf
  · simp [hk]
  · simp [hk, GoMap.empty, GoMap.lookup, GoMap.lookupAux]

/-- The calls that a successful run makes after the listing, in order. -/
theorem reconcileWith_ok (range : GoMap Issue → List (String × Issue)) (existing : GoMap Issue)
    (findings : List Finding) (t t' : Tracker)
    (h : reconcileWith range existing findings t = (none, t')) :
    t'.calls = t.calls ++ (findings.flatMap (callsForFinding existing)
      ++ (range existing).flatMap (callsForEntry (findings.map keyOf))).map (fun c => (c, none)) := by
  unfold reconcileWith at h
  rcases hm : reconcileFindings existing findings GoMap.empty t with ⟨fk, err, t1⟩
  rw [hm] at h
  cases err with
  | some e => simp at h
  | none =>
    simp only at h
    obtain ⟨hc, hfk⟩ := reconcileFindings_ok existing findings _ fk t t1 hm
    rw [closeStale_ok fk _ (findingKeys_spec fk findings hfk) _ t1 t' h, hc]
    simp

theorem callsForFinding_mutation (existing : GoMap Issue) (f : Finding) :
    ∀ c ∈ callsForFinding existing f, c.isMutation = true := by
  intro c hc
  unfold callsForFinding at hc
  split at hc
  · split at hc
    · simp only [List.mem_cons, List.mem_singleton, List.not_mem_nil, or_false] at hc
      rcases hc with hc | hc <;> subst hc <;> rfl
    · simp at hc
  · rw [List.mem_singleton] at hc
    subst hc
    rfl

theorem callsForEntry_mutation (keys : List String) (e : String × Issue) :
    ∀ c ∈ callsForEntry keys e, c.isMutation = true := by
  intro c hc
  unfold callsForEntry at hc
  split at hc
  · simp at hc
  · simp only [List.mem_cons, List.mem_singleton, List.not_mem_nil, or_false] at hc
    rcases hc with hc | hc <;> subst hc <;> rfl

/-- The mutating calls of a successful run, in order: those of the findings, then
those of the stale entries. -/
theorem Reconcile_ok (range : GoMap Issue → List (String × Issue)) (findings : List Finding)
    (t t' : Tracker) (h : Reconcile range findings t = (none, t')) :
    mutationsSince t t' = findings.flatMap (callsForFinding (trackedMap t))
      ++ (range (trackedMap t)).flatMap (callsForEntry (findings.map keyOf)) := by
  unfold Reconcile at h
  obtain ⟨_, ⟨new, hnew, hquiet⟩, hmap⟩ := listTrackedIssues_spec t
  rcases hl : listTrackedIssues t with ⟨⟨existing, err⟩, t1⟩
  rw [hl] at h hnew hmap
  cases err with
  | some e => simp at h
  | none =>
    simp only at h hnew hmap
    have hex := hmap trivial
    subst hex
    have hc := reconcileWith_ok range _ findings t1 t' h
    unfold mutationsSince
    rw [hc, hnew, List.append_assoc, List.drop_left, List.map_append, List.filter_append]
    have h1 : (new.map Prod.fst).filter Call.isMutation = [] := by
      rw [List.filter_eq_nil_iff]
      intro c hc
      obtain ⟨x, hx, rfl⟩ := List.mem_map.1 hc
      simp [hquiet x hx]
    rw [h1, List.nil_append, List.map_map]
    have h2 : (Prod.fst ∘ fun c : Call => (c, (none : Option String))) = id := rfl
    rw [h2, List.map_id, List.filter_eq_self]
    intro c hc
    rcases List.mem_append.1 hc with hc | hc
    · obtain ⟨f, _, hf⟩ := List.mem_flatMap.1 hc
      exact callsForFinding_mutation _ f c hf
    · obtain ⟨e, _, he⟩ := List.mem_flatMap.1 hc
      exact callsForEntry_mutation _ e c he

/-! ### Claims about `Reconcile` -/

theorem filter_flatMap_nil {α β : Type} (l : List α) (g : α → List β) (p : β → Bool)
    (h : ∀ x ∈ l, (g x).filter p = []) : (l.flatMap g).filter p = [] := by
  induction l with
  | nil => rfl
  | cons a rest ih =>
    rw [List.flatMap_cons, List.filter_append, h a (List.mem_cons_self _ _),
      ih fun x hx => h x (List.mem_cons_of_mem _ hx)]
    rfl

theorem filter_flatMap_single {α β : Type} (l : List α) (hl : l.Nodup) (a : α) (ha : a ∈ l)
    (g : α → List β) (p : β → Bool) (h : ∀ x ∈ l, x ≠ a → (g x).filter p = []) :
    (l.flatMap g).filter p = (g a).filter p := by
  induction l with
  | nil => simp at ha
  | cons b rest ih =>
    rw [List.nodup_cons] at hl
    rw [List.flatMap_cons, List.filter_append]
    rcases List.mem_cons.1 ha with e | e
    · subst e
      rw [filter_flatMap_nil rest g p fun x hx =>
        h x (List.mem_cons_of_mem _ hx) (fun e => hl.1 (e ▸ hx))]
      simp
    · have hb : b ≠ a := fun e' => hl.1 (e' ▸ e)
      rw [h b (List.mem_cons_self _ _) hb,
        ih hl.2 e fun x hx => h x (List.mem_cons_of_mem _ hx)]
      rfl

theorem issueKey_ne_label (a p : String) : issueKey a p ≠ LabelUnreleasedFix := by
  intro h
  have := congrArg String.length h
  simp only [issueKey, String.length_append, LabelUnreleasedFix] at this
  have e1 : "unreleased-fix:".length = 15 := by decide
  have e2 : "unreleased-fix".length = 14 := by decide
  have e3 : ":".length = 1 := by decide
  omega

theorem trackedMap_entry_inj (t : Tracker) (e e' : String × Issue)
    (he : e ∈ (trackedMap t).entries) (he' : e' ∈ (trackedMap t).entries)
    (h : e.2.Number = e'.2.Number) : e = e' := by
  obtain ⟨h1, h2, _⟩ := trackedMap_entry t e he
  obtain ⟨h1', h2', _⟩ := trackedMap_entry t e' he'
  have := Tracker.matchingFrom_inj _ _ _ _ _ _ h1 h1' h
  exact Prod.ext (by rw [h2, h2', this]) this

theorem callsForFinding_onIssue (t : Tracker) (f : Finding) (n : Nat) (c : Call)
    (hc : c ∈ callsForFinding (trackedMap t) f) (hn : onIssue n c = true) :
    ∃ issue, (keyOf f, issue) ∈ (trackedMap t).entries ∧ issue.Number = n := by
  unfold callsForFinding at hc
  cases hl : (trackedMap t).lookup (keyOf f) with
  | none =>
    simp only [hl, List.mem_singleton] at hc
    subst hc
    simp [onIssue] at hn
  | some issue =>
    refine ⟨issue, (trackedMap_lookup t _ _).1 hl, ?_⟩
    simp only [hl] at hc
    split at hc
    · simp only [List.mem_cons, List.mem_singleton, List.not_mem_nil, or_false] at hc
      rcases hc with hc | hc <;> subst hc <;> simpa [onIssue] using hn
    · simp at hc

theorem callsForEntry_onIssue (keys : List String) (e : String × Issue) (n : Nat) (c : Call)
    (hc : c ∈ callsForEntry keys e) (hn : onIssue n c = true) : e.1 ∉ keys ∧ e.2.Number = n := by
  unfold callsForEntry at hc
  split at hc
  · simp at hc
  · rename_i hk
    refine ⟨hk, ?_⟩
    simp only [List.mem_cons, List.mem_singleton, List.not_mem_nil, or_false] at hc
    rcases hc with hc | hc <;> subst hc <;> simpa [onIssue] using hn

theorem callsForFinding_createsFor (existing : GoMap Issue) (f : Finding) (k : String) (c : Call)
    (hc : c ∈ callsForFinding existing f) (hk : createsFor k c = true) (hne : k ≠ LabelUnreleasedFix) :
    k = keyOf f := by
  unfold callsForFinding at hc
  split at hc
  · split at hc
    · simp only [List.mem_cons, List.mem_singleton, List.not_mem_nil, or_false] at hc
      rcases hc with hc | hc <;> subst hc <;> simp [createsFor] at hk
    · simp at hc
  · rw [List.mem_singleton] at hc
    subst hc
    simp only [createsFor, createRequest, Option.getD_some, List.mem_cons, List.mem_singleton,
      List.not_mem_nil, or_false, decide_eq_true_eq] at hk
    rcases hk with hk | hk
    · exact absurd hk hne
    · exact hk

theorem callsForEntry_createsFor (keys : List String) (e : String × Issue) (k : String) :
    (callsForEntry keys e).filter (createsFor k) = [] := by
  unfold callsForEntry
  split <;> simp [createsFor]

theorem filter_eq_nil_of {β : Type} (l : List β) (p : β → Bool) (h : ∀ c ∈ l, p c = true → False) :
    l.filter p = [] := by
  rw [List.filter_eq_nil_iff]
  intro c hc hp
  exact h c hc hp

/-- C9, amended: convergence. For a run of `Reconcile` that returns no error on
a finding list with pairwise distinct tracking keys `K`, with `E` the keys of the
open tracked issues: exactly one issue is created for each key of `K \ E`; the
issue of each key of `E \ K` receives the stale comment and is closed, and
nothing else happens to it; an issue whose key is in `E ∩ K` is left alone when
its finding has `FixReleased = false`, and receives the release comment and the
released edit when its finding has `FixReleased = true`; and there is no other
mutating call. -/
theorem C9_reconcile_converges (range : GoMap Issue → List (String × Issue))
    (hrange : ∀ m, (range m).Perm m.entries) (findings : List Finding) (t t' : Tracker)
    (hK : (findings.map keyOf).Nodup) (h : Reconcile range findings t = (none, t')) :
    (∀ f ∈ findings, keyOf f ∉ (trackedMap t).keys →
        (mutationsSince t t').filter (createsFor (keyOf f)) = [Call.Create (createRequest f)])
    ∧ (∀ e ∈ (trackedMap t).entries, e.1 ∉ findings.map keyOf →
        (mutationsSince t t').filter (onIssue e.2.Number)
          = [Call.CreateComment e.2.Number staleComment, Call.Edit e.2.Number closeRequest])
    ∧ (∀ e ∈ (trackedMap t).entries, ∀ f ∈ findings, keyOf f = e.1 → f.FixReleased = false →
        (mutationsSince t t').filter (onIssue e.2.Number) = [])
    ∧ (∀ e ∈ (trackedMap t).entries, ∀ f ∈ findings, keyOf f = e.1 → f.FixReleased = true →
        (mutationsSince t t').filter (onIssue e.2.Number)
          = [Call.CreateComment e.2.Number (RenderFixReleasedComment f),
             Call.Edit e.2.Number (releasedRequest e.2)])
    ∧ (∀ c ∈ mutationsSince t t',
        (∃ f ∈ findings, keyOf f ∉ (trackedMap t).keys ∧ c = Call.Create (createRequest f))
        ∨ (∃ e ∈ (trackedMap t).entries, onIssue e.2.Number c = true)) := by
  rw [Reconcile_ok range findings t t' h]
  have hFnd : findings.Nodup := List.Nodup.of_map _ hK
  have hEnd : (trackedMap t).entries.Nodup := List.Nodup.of_map _ (trackedMap_nodup t)
  have hRnd : (range (trackedMap t)).Nodup := (hrange _).nodup_iff.2 hEnd
  have hRmem : ∀ e, e ∈ range (trackedMap t) ↔ e ∈ (trackedMap t).entries :=
    fun e => (hrange _).mem_iff
  have hinj : ∀ f ∈ findings, ∀ f' ∈ findings, keyOf f' = keyOf f → f' = f :=
    fun f hf f' hf' e => List.inj_on_of_nodup_map hK hf' hf e
  have hFentry : ∀ e ∈ (trackedMap t).entries, ∀ f' ∈ findings, keyOf f' ≠ e.1 →
      (callsForFinding (trackedMap t) f').filter (onIssue e.2.Number) = [] := by
    intro e he f' _ hne
    apply filter_eq_nil_of
    intro c hc hn
    obtain ⟨issue, hmem, hnum⟩ := callsForFinding_onIssue t f' _ c hc hn
    have := trackedMap_entry_inj t _ _ hmem he hnum
    exact hne (congrArg Prod.fst this)
  have hRentry : ∀ e ∈ (trackedMap t).entries, ∀ e' ∈ range (trackedMap t), e' ≠ e →
      (callsForEntry (findings.map keyOf) e').filter (onIssue e.2.Number) = [] := by
    intro e he e' he' hne
    apply filter_eq_nil_of
    intro c hc hn
    obtain ⟨_, hnum⟩ := callsForEntry_onIssue _ e' _ c hc hn
    exact hne (trackedMap_entry_inj t _ _ ((hRmem e').1 he') he hnum)
  refine ⟨?_, ?_, ?_, ?_, ?_⟩
  · intro f hf hE
    rw [List.filter_append, filter_flatMap_nil _ _ _ fun e _ => callsForEntry_createsFor _ e _,
      List.append_nil, filter_flatMap_single findings hFnd f hf]
    · have hl : (trackedMap t).lookup (keyOf f) = none :=
        (GoMap.lookupAux_eq_none_iff _ _).2 hE
      unfold callsForFinding
      rw [hl]
      simp [createsFor, createRequest, keyOf]
    · intro f' hf' hne
      apply filter_eq_nil_of
      intro c hc hk
      have := callsForFinding_createsFor _ f' _ c hc hk (issueKey_ne_label _ _)
      exact hne (hinj f hf f' hf' this.symm)
  · intro e he hk
    rw [List.filter_append, filter_flatMap_nil findings _ _ fun f' hf' =>
        hFentry e he f' hf' (fun e' => hk (e' ▸ List.mem_map_of_mem keyOf hf')),
      List.nil_append, filter_flatMap_single _ hRnd e ((hRmem e).2 he) _ _ (hRentry e he)]
    simp [callsForEntry, hk, onIssue]
  · intro e he f hf hkey hrel
    rw [List.filter_append, filter_flatMap_single findings hFnd f hf _ _
        (fun f' hf' hne => hFentry e he f' hf' fun e' => hne (hinj f hf f' hf' (e'.trans hkey.symm))),
      filter_flatMap_nil (range (trackedMap t)) _ _ fun e' he' => by
        by_cases hee : e' = e
        · subst hee
          simp [callsForEntry, ← hkey, List.mem_map_of_mem keyOf hf]
        · exact hRentry e he e' he' hee]
    have hl : (trackedMap t).lookup (keyOf f) = some e.2 :=
      (trackedMap_lookup t _ _).2 (hkey ▸ he)
    simp [callsForFinding, hl, hrel]
  · intro e he f hf hkey hrel
    rw [List.filter_append, filter_flatMap_single findings hFnd f hf _ _
        (fun f' hf' hne => hFentry e he f' hf' fun e' => hne (hinj f hf f' hf' (e'.trans hkey.symm))),
      filter_flatMap_nil (range (trackedMap t)) _ _ fun e' he' => by
        by_cases hee : e' = e
        · subst hee
          simp [callsForEntry, ← hkey, List.mem_map_of_mem keyOf hf]
        · exact hRentry e he e' he' hee]
    have hl : (trackedMap t).lookup (keyOf f) = some e.2 :=
      (trackedMap_lookup t _ _).2 (hkey ▸ he)
    simp [callsForFinding, hl, hrel, onIssue]
  · intro c hc
    rcases List.mem_append.1 hc with hc | hc
    · obtain ⟨f, hf, hcf⟩ := List.mem_flatMap.1 hc
      unfold callsForFinding at hcf
      cases hl : (trackedMap t).lookup (keyOf f) with
      | none =>
        left
        simp only [hl, List.mem_singleton] at hcf
        exact ⟨f, hf, (GoMap.lookupAux_eq_none_iff _ _).1 hl, hcf⟩
      | some issue =>
        right
        refine ⟨(keyOf f, issue), (trackedMap_lookup t _ _).1 hl, ?_⟩
        simp only [hl] at hcf
        split at hcf
        · simp only [List.mem_cons, List.mem_singleton, List.not_mem_nil, or_false] at hcf
          rcases hcf with hcf | hcf <;> subst hcf <;> simp [onIssue]
        · simp at hcf
    · obtain ⟨e, he, hce⟩ := List.mem_flatMap.1 hc
      right
      refine ⟨e, (hRmem e).1 he, ?_⟩
      unfold callsForEntry at hce
      split at hce
      · simp at hce
      · simp only [List.mem_cons, List.mem_singleton, List.not_mem_nil, or_false] at hce
        rcases hce with hce | hce <;> subst hce <;> simp [onIssue]

/-! ### The open tracked issues after a run -/

theorem matchingFrom_append (labels : List String) (state : String) (n : Nat)
    (l : List StoredIssue) (x : StoredIssue) :
    Tracker.matchingFrom labels state n (l ++ [x])
      = Tracker.matchingFrom labels state n l
        ++ Tracker.matchingFrom labels state (n + l.length) [x] := by
  induction l generalizing n with
  | nil => simp [Tracker.matchingFrom]
  | cons y rest ih =>
    have e : n + (y :: rest).length = n + 1 + rest.length := by simp only [List.length_cons]; omega
    rw [e]
    simp only [List.cons_append]
    unfold Tracker.matchingFrom
    split
    · rw [ih (n + 1)]
      simp only [List.cons_append]
      rfl
    · rw [ih (n + 1)]
      rfl

theorem matchingFrom_set_closed (labels : List String) (n j : Nat) (l : List StoredIssue)
    (x x' : StoredIssue) (hx : l[j]? = some x) (hs : x'.State = "closed") :
    Tracker.matchingFrom labels "open" n (l.set j x')
      = (Tracker.matchingFrom labels "open" n l).filter (fun i => decide (i.Number ≠ n + j)) := by
  induction l generalizing n j with
  | nil => simp at hx
  | cons y rest ih =>
    cases j with
    | zero =>
      simp only [List.set_cons_zero, Nat.add_zero]
      have htail : (Tracker.matchingFrom labels "open" (n + 1) rest).filter
          (fun i => decide (i.Number ≠ n)) = Tracker.matchingFrom labels "open" (n + 1) rest := by
        rw [List.filter_eq_self]
        intro i hi
        have := (Tracker.matchingFrom_number _ _ _ _ i hi).1
        simp only [decide_eq_true_eq]
        omega
      have hnot : ¬ (("open" = "all" ∨ x'.State = "open")
          ∧ labels.all (fun lb => lb ∈ x'.Labels) = true) := by
        rw [hs]
        intro h
        rcases h.1 with h | h
        · exact absurd h (by decide)
        · exact absurd h (by decide)
      conv_lhs => unfold Tracker.matchingFrom
      rw [if_neg hnot]
      conv_rhs => unfold Tracker.matchingFrom
      split
      · rw [List.filter_cons]
        simp only [Tracker.present, ne_eq, not_true_eq_false, decide_False, Bool.false_eq_true,
          if_false]
        exact htail.symm
      · exact htail.symm
    | succ j =>
      simp only [List.getElem?_cons_succ] at hx
      simp only [List.set_cons_succ]
      have e : n + (j + 1) = n + 1 + j := by omega
      rw [e]
      conv_lhs => unfold Tracker.matchingFrom
      conv_rhs => unfold Tracker.matchingFrom
      split
      · rw [List.filter_cons, ih (n + 1) j hx]
        have : decide ((Tracker.present n y).Number ≠ n + 1 + j) = true := by
          simp only [Tracker.present, decide_eq_true_eq]
          omega
        rw [if_pos this]
      · exact ih (n + 1) j hx

theorem closeStaleIssue_matching (issue : Issue) (t t' : Tracker) (labels : List String)
    (h : closeStaleIssue issue t = (none, t')) :
    t'.matching labels "open"
      = (t.matching labels "open").filter (fun i => decide (i.Number ≠ issue.Number))
    ∧ t'.issues.length = t.issues.length := by
  unfold closeStaleIssue at h
  rcases hc : t.CreateComment issue.Number staleComment with ⟨err, t1⟩
  rw [hc] at h
  cases err with
  | some e => simp at h
  | none =>
    simp only at h
    obtain ⟨x, hx, hn, h1⟩ := CreateComment_ok t t1 _ _ hc
    obtain ⟨x1, hx1, _, h2⟩ := Edit_ok t1 t' _ _ h
    have hlt : issue.Number - 1 < t.issues.length := by
      by_contra hge
      rw [List.getElem?_eq_none (by omega)] at hx
      exact absurd hx (by simp)
    rw [h1] at hx1
    simp only [Tracker.record, List.getElem?_set_self hlt, Option.some.injEq] at hx1
    subst hx1
    rw [h2, h1]
    simp only [Tracker.matching, Tracker.record, List.set_set, List.length_set, and_true]
    rw [matchingFrom_set_closed labels 1 (issue.Number - 1) t.issues x _ hx (by rfl)]
    have e : 1 + (issue.Number - 1) = issue.Number := by omega
    rw [e]

theorem createIssue_matching (f : Finding) (t t' : Tracker) (h : createIssue f t = (none, t')) :
    t'.matching [LabelUnreleasedFix] "open"
      = t.matching [LabelUnreleasedFix] "open"
        ++ [{ Number := t.issues.length + 1, Title := newIssueTitle f, Body := RenderNewIssueBody f,
              State := "open", Labels := [LabelUnreleasedFix, keyOf f] }]
    ∧ t'.issues.length = t.issues.length + 1 := by
  rw [Create_ok t t' _ h]
  simp only [Tracker.matching, Tracker.record, matchingFrom_append, List.length_append,
    List.length_singleton, and_true]
  congr 1
  simp [Tracker.matchingFrom, createRequest, Tracker.present, keyOf, LabelUnreleasedFix,
    Nat.add_comm]

theorem issueKey_data (a p : String) :
    (issueKey a p).data = "unreleased-fix:".data ++ (a.data ++ (':' :: p.data)) := by
  simp [issueKey, String.data_append]

theorem extractKeyFrom_created (a p : String) :
    extractKeyFrom [LabelUnreleasedFix, issueKey a p] = issueKey a p := by
  have h1 : ¬ (strings.HasPrefix LabelUnreleasedFix "unreleased-fix:" = true
      ∧ strings.Count LabelUnreleasedFix ':' ≥ 2) := by decide
  have h2 : strings.HasPrefix (issueKey a p) "unreleased-fix:" = true := by
    unfold strings.HasPrefix
    rw [issueKey_data, List.isPrefixOf_iff_prefix]
    exact List.prefix_append _ _
  have h3 : strings.Count (issueKey a p) ':' ≥ 2 := by
    unfold strings.Count
    rw [issueKey_data, List.count_append, List.count_append, List.count_cons_self]
    have : List.count ':' "unreleased-fix:".data = 1 := by decide
    omega
  unfold extractKeyFrom
  rw [if_neg h1]
  unfold extractKeyFrom
  rw [if_pos ⟨h2, h3⟩]

theorem issueKey_ne_empty (a p : String) : issueKey a p ≠ "" := by
  intro h
  have := congrArg String.data h
  rw [issueKey_data] at this
  simp at this

theorem reconcileFindings_matching (existing : GoMap Issue) (findings : List Finding)
    (fk fk' : GoMap Bool) (t t' : Tracker) (hF : ∀ f ∈ findings, f.FixReleased = false)
    (h : reconcileFindings existing findings fk t = (fk', none, t')) :
    t.issues.length ≤ t'.issues.length
    ∧ (∀ i ∈ t.matching [LabelUnreleasedFix] "open", i ∈ t'.matching [LabelUnreleasedFix] "open")
    ∧ (∀ i ∈ t'.matching [LabelUnreleasedFix] "open",
        i ∈ t.matching [LabelUnreleasedFix] "open"
        ∨ ∃ f ∈ findings, extractIssueKey i = keyOf f ∧ t.issues.length < i.Number)
    ∧ (∀ f ∈ findings, existing.lookup (keyOf f) = none →
        ∃ i ∈ t'.matching [LabelUnreleasedFix] "open",
          extractIssueKey i = keyOf f ∧ t.issues.length < i.Number) := by
  induction findings generalizing fk t with
  | nil =>
    simp only [reconcileFindings, Prod.mk.injEq, true_and] at h
    obtain ⟨_, h2⟩ := h
    subst h2
    exact ⟨Nat.le_refl _, fun i hi => hi, fun i hi => Or.inl hi, fun f hf => by simp at hf⟩
  | cons f rest ih =>
    unfold reconcileFindings at h
    rcases hm : reconcileFinding existing fk f t with ⟨fk1, err, t1⟩
    rw [hm] at h
    cases err with
    | some e => simp at h
    | none =>
      simp only at h
      obtain ⟨g1, g2, g3, g4⟩ := ih fk1 t1 (fun x hx => hF x (List.mem_cons_of_mem _ hx)) h
      have hrel := hF f (List.mem_cons_self _ _)
      unfold reconcileFinding at hm
      simp only [] at hm
      cases hl : existing.lookup (issueKey f.Advisory.ID f.Package.Name) with
      | some issue =>
        simp only [hl, hrel, Bool.false_eq_true, if_false, Prod.mk.injEq, true_and] at hm
        obtain ⟨_, ht⟩ := hm
        subst ht
        refine ⟨g1, g2, ?_, ?_⟩
        · intro i hi
          rcases g3 i hi with hi | ⟨x, hx, hxi⟩
          · exact Or.inl hi
          · exact Or.inr ⟨x, List.mem_cons_of_mem _ hx, hxi⟩
        · intro x hx hxl
          rcases List.mem_cons.1 hx with e | e
          · subst e
            rw [keyOf, hl] at hxl
            exact absurd hxl (by simp)
          · exact g4 x e hxl
      | none =>
        simp only [hl] at hm
        rcases hc : createIssue f t with ⟨err, t2⟩
        rw [hc] at hm
        cases err with
        | some e => simp at hm
        | none =>
          simp only [Prod.mk.injEq, true_and] at hm
          obtain ⟨_, ht⟩ := hm
          subst ht
          obtain ⟨c1, c2⟩ := createIssue_matching f t t2 hc
          have hnew : extractIssueKey
              { Number := t.issues.length + 1, Title := newIssueTitle f,
                Body := RenderNewIssueBody f, State := "open",
                Labels := [LabelUnreleasedFix, keyOf f] } = keyOf f :=
            extractKeyFrom_created _ _
          refine ⟨by omega, ?_, ?_, ?_⟩
          · intro i hi
            apply g2
            rw [c1]
            exact List.mem_append_left _ hi
          · intro i hi
            rcases g3 i hi with hi | ⟨x, hx, hxi, hlt⟩
            · rw [c1] at hi
              rcases List.mem_append.1 hi with hi | hi
              · exact Or.inl hi
              · rw [List.mem_singleton] at hi
                subst hi
                exact Or.inr ⟨f, List.mem_cons_self _ _, hnew, Nat.lt_succ_self _⟩
            · exact Or.inr ⟨x, List.mem_cons_of_mem _ hx, hxi, by omega⟩
          · intro x hx hxl
            rcases List.mem_cons.1 hx with e | e
            · subst e
              refine ⟨_, g2 _ ?_, hnew, Nat.lt_succ_self _⟩
              rw [c1]
              exact List.mem_append_right _ (List.mem_singleton_self _)
            · obtain ⟨i, hi, hik, hlt⟩ := g4 x e hxl
              exact ⟨i, hi, hik, by omega⟩

theorem closeStale_matching (fk : GoMap Bool) (keys : List String)
    (hfk : ∀ k, (fk.lookup k).getD false = decide (k ∈ keys))
    (l : List (String × Issue)) (t t' : Tracker) (labels : List String)
    (h : closeStale fk l t = (none, t')) (i : Issue) :
    i ∈ t'.matching labels "open"
      ↔ i ∈ t.matching labels "open" ∧ ∀ e ∈ l, e.1 ∉ keys → e.2.Number ≠ i.Number := by
  induction l generalizing t with
  | nil =>
    simp only [closeStale, Prod.mk.injEq, true_and] at h
    subst h
    simp
  | cons e rest ih =>
    obtain ⟨key, issue⟩ := e
    unfold closeStale at h
    rw [hfk key] at h
    by_cases hk : key ∈ keys
    · simp only [hk, decide_True, if_true] at h
      rw [ih t h]
      simp [hk]
    · simp only [hk, decide_False, Bool.false_eq_true, if_false] at h
      rcases hm : closeStaleIssue issue t with ⟨err, t1⟩
      rw [hm] at h
      cases err with
      | some e => simp at h
      | none =>
        simp only at h
        rw [ih t1 h, (closeStaleIssue_matching issue t t1 labels hm).1]
        simp only [List.mem_filter, decide_eq_true_eq, List.mem_cons, forall_eq_or_imp, hk,
          not_false_eq_true, true_implies]
        constructor
        · rintro ⟨⟨h1, h2⟩, h3⟩
          exact ⟨h1, fun e => h2 e.symm, h3⟩
        · rintro ⟨h1, h2, h3⟩
          exact ⟨⟨h1, fun e => h2 e.symm⟩, h3⟩

theorem reconcileFindings_noop (existing : GoMap Issue) (findings : List Finding)
    (fk : GoMap Bool) (t : Tracker)
    (hF : ∀ f ∈ findings, f.FixReleased = false ∧ ∃ i, existing.lookup (keyOf f) = some i) :
    ∃ fk', reconcileFindings existing findings fk t = (fk', none, t) := by
  induction findings generalizing fk with
  | nil => exact ⟨fk, rfl⟩
  | cons f rest ih =>
    obtain ⟨hrel, i, hi⟩ := hF f (List.mem_cons_self _ _)
    unfold reconcileFindings
    have : reconcileFinding existing fk f t = (fk.insert (keyOf f) true, none, t) := by
      unfold reconcileFinding
      simp only []
      rw [keyOf] at hi
      simp only [hi, hrel, Bool.false_eq_true, if_false, keyOf]
    rw [this]
    exact ih _ fun x hx => hF x (List.mem_cons_of_mem _ hx)

theorem closeStale_noop (fk : GoMap Bool) (l : List (String × Issue)) (t : Tracker)
    (h : ∀ e ∈ l, (fk.lookup e.1).getD false = true) : closeStale fk l t = (none, t) := by
  induction l with
  | nil => rfl
  | cons e rest ih =>
    obtain ⟨key, issue⟩ := e
    unfold closeStale
    rw [if_pos (h _ (List.mem_cons_self _ _))]
    exact ih fun x hx => h x (List.mem_cons_of_mem _ hx)

set_option maxRecDepth 100000

theorem mutationsSince_quiet (t t' : Tracker) (new : List (Call × Option String))
    (h : t'.calls = t.calls ++ new) (hq : ∀ c ∈ new, c.1.isMutation = false) :
    mutationsSince t t' = [] := by
  unfold mutationsSince
  rw [h, List.drop_left, List.filter_eq_nil_iff]
  intro c hc
  obtain ⟨x, hx, rfl⟩ := List.mem_map.1 hc
  simp [hq x hx]

theorem matching_of_issues_eq (t t' : Tracker) (h : t'.issues = t.issues) (labels : List String)
    (state : String) : t'.matching labels state = t.matching labels state := by
  unfold Tracker.matching
  rw [h]

theorem trackedMap_of_issues_eq (t t' : Tracker) (h : t'.issues = t.issues) :
    trackedMap t' = trackedMap t := by
  unfold trackedMap
  rw [matching_of_issues_eq t t' h]

/-- After a successful run on unreleased findings, every open tracked issue has
the key of a finding, and every finding has an open tracked issue. -/
theorem Reconcile_converged (range : GoMap Issue → List (String × Issue))
    (hrange : ∀ m, (range m).Perm m.entries) (findings : List Finding) (t t1 : Tracker)
    (hF : ∀ f ∈ findings, f.FixReleased = false)
    (hT : ∀ i ∈ t.matching [LabelUnreleasedFix] "open",
      ∀ j ∈ t.matching [LabelUnreleasedFix] "open",
        extractIssueKey i = extractIssueKey j → extractIssueKey i ≠ "" →
        extractIssueKey i ∉ findings.map keyOf → i = j)
    (h1 : Reconcile range findings t = (none, t1)) :
    (∀ i ∈ t1.matching [LabelUnreleasedFix] "open", extractIssueKey i ≠ "" →
        extractIssueKey i ∈ findings.map keyOf)
    ∧ (∀ f ∈ findings, ∃ i ∈ t1.matching [LabelUnreleasedFix] "open",
        extractIssueKey i = keyOf f) := by
  unfold Reconcile at h1
  obtain ⟨hiss, _, hmap⟩ := listTrackedIssues_spec t
  rcases hl : listTrackedIssues t with ⟨⟨ex, err⟩, tl⟩
  rw [hl] at h1 hiss hmap
  cases err with
  | some e => simp at h1
  | none =>
    simp only at h1 hiss hmap
    have hex := hmap trivial
    subst hex
    have hmt : tl.matching [LabelUnreleasedFix] "open" = t.matching [LabelUnreleasedFix] "open" :=
      matching_of_issues_eq t tl hiss _ _
    unfold reconcileWith at h1
    rcases hm : reconcileFindings (trackedMap t) findings GoMap.empty tl with ⟨fk, err, tm⟩
    rw [hm] at h1
    cases err with
    | some e => simp at h1
    | none =>
      simp only at h1
      obtain ⟨_, a2, a3, a4⟩ := reconcileFindings_matching _ _ _ _ _ _ hF hm
      rw [hmt] at a2 a3
      rw [hiss] at a3 a4
      have hfk := findingKeys_spec fk findings (reconcileFindings_ok _ _ _ _ _ _ hm).2
      have hB := closeStale_matching fk _ hfk (range (trackedMap t)) tm t1 [LabelUnreleasedFix] h1
      have hRmem : ∀ e, e ∈ range (trackedMap t) ↔ e ∈ (trackedMap t).entries :=
        fun e => (hrange _).mem_iff
      constructor
      · intro i hi hne
        obtain ⟨hi1, hi2⟩ := (hB i).1 hi
        rcases a3 i hi1 with hi3 | ⟨f, hf, hfk', _⟩
        · by_contra hk
          have hkeys : extractIssueKey i ∈ (trackedMap t).keys :=
            (trackedMap_keys t _).2 ⟨i, hi3, rfl, hne⟩
          obtain ⟨e, he, hek⟩ := List.mem_map.1 hkeys
          obtain ⟨e1, e2, _⟩ := trackedMap_entry t e he
          have hie : i = e.2 := hT i hi3 e.2 e1 (by rw [← e2, hek]) hne hk
          exact hi2 e ((hRmem e).2 he) (by rw [hek]; exact hk) (by rw [hie])
        · rw [hfk']
          exact List.mem_map_of_mem keyOf hf
      · intro f hf
        cases hlk : (trackedMap t).lookup (keyOf f) with
        | none =>
          obtain ⟨i, hi, hik, hlt⟩ := a4 f hf hlk
          refine ⟨i, (hB i).2 ⟨hi, ?_⟩, hik⟩
          intro e he _ hnum
          obtain ⟨e1, _, _⟩ := trackedMap_entry t e ((hRmem e).1 he)
          have := (Tracker.matchingFrom_number _ _ _ _ _ e1).2.1
          omega
        | some i0 =>
          have hent := (trackedMap_lookup t _ _).1 hlk
          obtain ⟨e1, e2, _⟩ := trackedMap_entry t _ hent
          refine ⟨i0, (hB i0).2 ⟨a2 i0 e1, ?_⟩, e2.symm⟩
          intro e he hk hnum
          have := trackedMap_entry_inj t e _ ((hRmem e).1 he) hent hnum
          exact hk (by rw [this]; exact List.mem_map_of_mem keyOf hf)

/-- C8, amended: idempotence. If every finding of the list has
`FixReleased = false`, no two open tracked issues of the tracker share a tracking
key that none of the findings has, and `Reconcile` returns no error, then a
second run on the resulting tracker state with the same findings makes no
mutating call (it creates no issue, posts no comment, performs no edit) and
leaves the issues as they are. -/
theorem C8_reconcile_idempotent (range : GoMap Issue → List (String × Issue))
    (hrange : ∀ m, (range m).Perm m.entries) (findings : List Finding) (t t1 : Tracker)
    (hF : ∀ f ∈ findings, f.FixReleased = false)
    (hT : ∀ i ∈ t.matching [LabelUnreleasedFix] "open",
      ∀ j ∈ t.matching [LabelUnreleasedFix] "open",
        extractIssueKey i = extractIssueKey j → extractIssueKey i ≠ "" →
        extractIssueKey i ∉ findings.map keyOf → i = j)
    (h1 : Reconcile range findings t = (none, t1)) :
    mutationsSince t1 (Reconcile range findings t1).2 = []
    ∧ (Reconcile range findings t1).2.issues = t1.issues := by
  obtain ⟨hkeys, htracked⟩ := Reconcile_converged range hrange findings t t1 hF hT h1
  obtain ⟨hiss, ⟨new, hnew, hquiet⟩, hmap⟩ := listTrackedIssues_spec t1
  unfold Reconcile
  rcases hl : listTrackedIssues t1 with ⟨⟨ex, err⟩, t2⟩
  rw [hl] at hiss hnew hmap
  simp only at hiss hnew hmap
  cases err with
  | some e => exact ⟨mutationsSince_quiet t1 t2 new hnew hquiet, hiss⟩
  | none =>
    have hex := hmap rfl
    subst hex
    simp only
    have hnoop : ∀ f ∈ findings,
        f.FixReleased = false ∧ ∃ i, (trackedMap t1).lookup (keyOf f) = some i := by
      intro f hf
      refine ⟨hF f hf, ?_⟩
      obtain ⟨i, hi, hik⟩ := htracked f hf
      have : keyOf f ∈ (trackedMap t1).keys :=
        (trackedMap_keys t1 _).2 ⟨i, hi, hik, issueKey_ne_empty _ _⟩
      cases hlk : (trackedMap t1).lookup (keyOf f) with
      | none => exact absurd this ((GoMap.lookupAux_eq_none_iff _ _).1 hlk)
      | some i0 => exact ⟨i0, rfl⟩
    obtain ⟨fk, hfk⟩ := reconcileFindings_noop (trackedMap t1) findings GoMap.empty t2 hnoop
    have hspec := findingKeys_spec fk findings (reconcileFindings_ok _ _ _ _ _ _ hfk).2
    have hsweep : closeStale fk (range (trackedMap t1)) t2 = (none, t2) := by
      apply closeStale_noop
      intro e he
      rw [hspec e.1, decide_eq_true_eq]
      have hmem : e ∈ (trackedMap t1).entries := (hrange _).mem_iff.1 he
      obtain ⟨e1, e2, e3⟩ := trackedMap_entry t1 e hmem
      rw [e2]
      exact hkeys e.2 e1 (by rw [← e2]; exact e3)
    unfold reconcileWith
    rw [hfk]
    simp only
    rw [hsweep]
    exact ⟨mutationsSince_quiet t1 t2 new hnew hquiet, hiss⟩

/-- C8, as stated, fails in two ways. With the open tracked issue B and a
finding for B that has `FixReleased = true`, a first run succeeds and the second
run posts the release comment and edits the issue again. With two open issues
that carry the same key A and no finding, a first run succeeds and closes one of
them, and the second run comments on and closes the other. -/
theorem C8_reconcile_not_idempotent :
    ((Reconcile scenario.entryOrder [scenario.findingOf "GHSA-bbbb" "pkg-b" true]
        scenario.trackerB).1 = none
      ∧ mutationsSince
          (Reconcile scenario.entryOrder [scenario.findingOf "GHSA-bbbb" "pkg-b" true]
            scenario.trackerB).2
          (Reconcile scenario.entryOrder [scenario.findingOf "GHSA-bbbb" "pkg-b" true]
            (Reconcile scenario.entryOrder [scenario.findingOf "GHSA-bbbb" "pkg-b" true]
              scenario.trackerB).2).2
        = [Call.CreateComment 1
              (RenderFixReleasedComment (scenario.findingOf "GHSA-bbbb" "pkg-b" true)),
           Call.Edit 1
              { Title := some "[RELEASED] GHSA-bbbb — pkg-b (npm)", Body := none,
                Labels := some ["unreleased-fix", "fix-released", "unreleased-fix:GHSA-bbbb:pkg-b"],
                State := none }])
    ∧ ((Reconcile scenario.entryOrder [] scenario.trackerAA).1 = none
      ∧ mutationsSince (Reconcile scenario.entryOrder [] scenario.trackerAA).2
          (Reconcile scenario.entryOrder []
            (Reconcile scenario.entryOrder [] scenario.trackerAA).2).2
        = [Call.CreateComment 1 staleComment, Call.Edit 1 closeRequest]) := by
  decide

/-- C8, amended, at the trackers A, B, C and the unreleased findings B and D: the
first run creates D and closes A and C, the second run does nothing. -/
theorem C8_reconcile_idempotent_witness :
    mutationsSince
        (Reconcile scenario.entryOrder
          [scenario.findingOf "GHSA-bbbb" "pkg-b" false, scenario.findingOf "GHSA-dddd" "pkg-d" false]
          scenario.trackerABC).2
        (Reconcile scenario.entryOrder
          [scenario.findingOf "GHSA-bbbb" "pkg-b" false, scenario.findingOf "GHSA-dddd" "pkg-d" false]
          (Reconcile scenario.entryOrder
            [scenario.findingOf "GHSA-bbbb" "pkg-b" false,
             scenario.findingOf "GHSA-dddd" "pkg-d" false]
            scenario.trackerABC).2).2 = []
    ∧ (Reconcile scenario.entryOrder
          [scenario.findingOf "GHSA-bbbb" "pkg-b" false, scenario.findingOf "GHSA-dddd" "pkg-d" false]
          (Reconcile scenario.entryOrder
            [scenario.findingOf "GHSA-bbbb" "pkg-b" false,
             scenario.findingOf "GHSA-dddd" "pkg-d" false]
            scenario.trackerABC).2).2.issues
        = (Reconcile scenario.entryOrder
            [scenario.findingOf "GHSA-bbbb" "pkg-b" false,
             scenario.findingOf "GHSA-dddd" "pkg-d" false]
            scenario.trackerABC).2.issues :=
  C8_reconcile_idempotent scenario.entryOrder (fun _ => List.Perm.refl _)
    [scenario.findingOf "GHSA-bbbb" "pkg-b" false, scenario.findingOf "GHSA-dddd" "pkg-d" false]
    scenario.trackerABC _ (by decide) (by decide) (Prod.ext (by decide) rfl)

/-- C9, as stated, fails: with the open tracked issue B and a finding for B that
has `FixReleased = true`, the keys of the findings and of the tracked issues
coincide, so that nothing is to be created and nothing is stale, and a
successful run still makes two mutating calls, the release comment and the
released edit on B. -/
theorem C9_reconcile_other_mutation :
    (Reconcile scenario.entryOrder [scenario.findingOf "GHSA-bbbb" "pkg-b" true]
        scenario.trackerB).1 = none
    ∧ ([scenario.findingOf "GHSA-bbbb" "pkg-b" true].map keyOf).Nodup
    ∧ (∀ f ∈ [scenario.findingOf "GHSA-bbbb" "pkg-b" true],
        keyOf f ∈ (trackedMap scenario.trackerB).keys)
    ∧ (∀ e ∈ (trackedMap scenario.trackerB).entries,
        e.1 ∈ [scenario.findingOf "GHSA-bbbb" "pkg-b" true].map keyOf)
    ∧ mutationsSince scenario.trackerB
        (Reconcile scenario.entryOrder [scenario.findingOf "GHSA-bbbb" "pkg-b" true]
          scenario.trackerB).2
      = [Call.CreateComment 1
            (RenderFixReleasedComment (scenario.findingOf "GHSA-bbbb" "pkg-b" true)),
         Call.Edit 1
            { Title := some "[RELEASED] GHSA-bbbb — pkg-b (npm)", Body := none,
              Labels := some ["unreleased-fix", "fix-released", "unreleased-fix:GHSA-bbbb:pkg-b"],
              State := none }] := by
  decide

/-- C9, amended, at the scenario of the specification: the tracked keys are A, B
and C, the findings are B and D, both unreleased. The run creates one issue for
D, leaves B untouched and closes A and C, and does nothing else. -/
theorem C9_reconcile_converges_witness :
    (mutationsSince scenario.trackerABC
        (Reconcile scenario.entryOrder
          [scenario.findingOf "GHSA-bbbb" "pkg-b" false, scenario.findingOf "GHSA-dddd" "pkg-d" false]
          scenario.trackerABC).2).filter (createsFor (keyOf (scenario.findingOf "GHSA-dddd" "pkg-d" false)))
      = [Call.Create (createRequest (scenario.findingOf "GHSA-dddd" "pkg-d" false))]
    ∧ mutationsSince scenario.trackerABC
        (Reconcile scenario.entryOrder
          [scenario.findingOf "GHSA-bbbb" "pkg-b" false, scenario.findingOf "GHSA-dddd" "pkg-d" false]
          scenario.trackerABC).2
      = [Call.Create (createRequest (scenario.findingOf "GHSA-dddd" "pkg-d" false)),
         Call.CreateComment 1 staleComment, Call.Edit 1 closeRequest,
         Call.CreateComment 3 staleComment, Call.Edit 3 closeRequest] :=
  ⟨(C9_reconcile_converges scenario.entryOrder (fun _ => List.Perm.refl _)
      [scenario.findingOf "GHSA-bbbb" "pkg-b" false, scenario.findingOf "GHSA-dddd" "pkg-d" false]
      scenario.trackerABC _ (by decide) (Prod.ext (by decide) rfl)).1
      (scenario.findingOf "GHSA-dddd" "pkg-d" false) (by decide) (by decide),
   by decide⟩

/-- C10 fails on the code. In the released scenario `Scan` returns no finding,
an open issue exists for the tracking key of `(GHSA-xxxx, foo)`, and `Reconcile`
on the scan output posts the stale comment on that issue and closes it: there is
no release comment, and the title and labels stay in the unreleased form. -/
theorem C10_released_issue_closed_as_stale :
    (scenario.scannerWith true).Scan scenario.net [scenario.foo] = ([], none)
    ∧ (trackedMap scenario.trackerFoo).keys = [issueKey "GHSA-xxxx" "foo"]
    ∧ (Reconcile scenario.entryOrder
        ((scenario.scannerWith true).Scan scenario.net [scenario.foo]).1 scenario.trackerFoo).1
      = none
    ∧ mutationsSince scenario.trackerFoo
        (Reconcile scenario.entryOrder
          ((scenario.scannerWith true).Scan scenario.net [scenario.foo]).1 scenario.trackerFoo).2
      = [Call.CreateComment 1 staleComment, Call.Edit 1 closeRequest]
    ∧ (Reconcile scenario.entryOrder
        ((scenario.scannerWith true).Scan scenario.net [scenario.foo]).1 scenario.trackerFoo).2.issues
      = [{ Title := "[UNRELEASED FIX] GHSA-xxxx — foo (npm)", Body := "", State := "closed",
           Labels := ["unreleased-fix", "unreleased-fix:GHSA-xxxx:foo"],
           Comments := [staleComment] }] := by
  decide

end issues

/-! ### Repository locations -/

namespace strings

theorem isPrefixOf_append_of_length_le (p l r : List Char) (h : p.length ≤ l.length) :
    p.isPrefixOf (l ++ r) = p.isPrefixOf l := by
  induction p generalizing l with
  | nil => simp
  | cons a p ih =>
    cases l with
    | nil => simp at h
    | cons b l =>
      simp only [List.cons_append, List.isPrefixOf_cons₂]
      rw [ih l (by simpa using h)]

theorem TrimPrefix_skip (p : String) (lit w : List Char)
    (h : p.data.length ≤ lit.length ∧ p.data.isPrefixOf lit = false) :
    TrimPrefix ⟨lit ++ w⟩ p = ⟨lit ++ w⟩ := by
  unfold TrimPrefix HasPrefix
  rw [isPrefixOf_append_of_length_le _ _ _ h.1, h.2]
  rfl

theorem TrimPrefix_strip (p : String) (lit lit' w : List Char) (h : lit = p.data ++ lit') :
    TrimPrefix ⟨lit ++ w⟩ p = ⟨lit' ++ w⟩ := by
  subst h
  unfold TrimPrefix HasPrefix
  have : p.data.isPrefixOf (p.data ++ lit' ++ w) = true := by
    rw [List.isPrefixOf_iff_prefix, List.append_assoc]
    exact List.prefix_append _ _
  rw [if_pos this]
  simp [List.append_assoc]

theorem TrimSuffix_strip (suf : String) (l : List Char) :
    TrimSuffix ⟨l ++ suf.data⟩ suf = ⟨l⟩ := by
  unfold TrimSuffix HasSuffix
  have : suf.data.isSuffixOf (l ++ suf.data) = true := by
    rw [List.isSuffixOf_iff_suffix]
    exact List.suffix_append _ _
  rw [if_pos this]
  simp

theorem TrimSuffix_skip (suf : String) (l : List Char) (h : ¬ suf.data <:+ l) :
    TrimSuffix ⟨l⟩ suf = ⟨l⟩ := by
  unfold TrimSuffix HasSuffix
  have : ¬ suf.data.isSuffixOf l = true := by
    rw [List.isSuffixOf_iff_suffix]
    exact h
  rw [if_neg this]

theorem suffix_of_sep (suf pre r : List Char) (c : Char) (hc : c ∉ suf)
    (h : suf <:+ pre ++ c :: r) : suf <:+ r := by
  obtain ⟨t, ht⟩ := h
  rcases List.append_eq_append_iff.1 ht with ⟨a', _, h2⟩ | ⟨c', _, h2⟩
  · exact absurd (h2 ▸ List.mem_append_right _ (List.mem_cons_self _ _)) hc
  · cases c' with
    | nil =>
      simp only [List.nil_append] at h2
      exact absurd (h2 ▸ List.mem_cons_self _ _) hc
    | cons x c'' =>
      simp only [List.cons_append, List.cons.injEq] at h2
      exact ⟨c'', h2.2.symm⟩

theorem not_sep_suffix (pre r : List Char) (c : Char) (hr : r ≠ []) (hc : c ∉ r) :
    ¬ [c] <:+ pre ++ c :: r := by
  rintro ⟨t, ht⟩
  have h1 := congrArg List.reverse ht
  simp only [List.reverse_append, List.reverse_cons, List.reverse_nil, List.nil_append,
    List.singleton_append, List.append_assoc] at h1
  cases hrev : r.reverse with
  | nil => exact hr (List.reverse_eq_nil_iff.1 hrev)
  | cons y ys =>
    rw [hrev] at h1
    simp only [List.cons_append, List.cons.injEq] at h1
    have : y ∈ r := List.mem_reverse.1 (hrev ▸ List.mem_cons_self _ _)
    exact hc (h1.1 ▸ this)

end strings

namespace registry

open strings

theorem location_mk (lit o r : String) :
    lit ++ o ++ "/" ++ r = ⟨lit.data ++ (o.data ++ '/' :: r.data)⟩ := by
  apply String.ext
  have : "/".data = ['/'] := rfl
  simp [String.data_append, this]

theorem location_git_mk (lit o r : String) :
    lit ++ o ++ "/" ++ r ++ ".git" = ⟨(lit.data ++ (o.data ++ '/' :: r.data)) ++ ".git".data⟩ := by
  apply String.ext
  have : "/".data = ['/'] := rfl
  simp [String.data_append, this]

theorem not_git_suffix (lit o r : String) (hsuf : HasSuffix r ".git" = false) :
    ¬ ".git".data <:+ lit.data ++ (o.data ++ '/' :: r.data) := by
  intro h
  rw [← List.append_assoc] at h
  have := suffix_of_sep _ _ _ '/' (by decide) h
  unfold HasSuffix at hsuf
  rw [← List.isSuffixOf_iff_suffix, hsuf] at this
  exact absurd this (by decide)

theorem normalizeGitURL_https (o r : String) (hsuf : HasSuffix r ".git" = false) :
    normalizeGitURL ("https://github.com/" ++ o ++ "/" ++ r) = "github.com/" ++ o ++ "/" ++ r := by
  rw [location_mk, location_mk]
  unfold normalizeGitURL
  simp only []
  rw [TrimPrefix_skip "git+" _ _ (by decide), TrimPrefix_skip "git://" _ _ (by decide),
    TrimPrefix_skip "ssh://git@" _ _ (by decide),
    TrimSuffix_skip ".git" _ (not_git_suffix _ o r hsuf),
    TrimPrefix_strip "https://" _ "github.com/".data _ (by decide),
    TrimPrefix_skip "http://" _ _ (by decide)]

theorem normalizeGitURL_git_https (o r : String) :
    normalizeGitURL ("git+https://github.com/" ++ o ++ "/" ++ r ++ ".git")
      = "github.com/" ++ o ++ "/" ++ r := by
  rw [location_git_mk, location_mk]
  unfold normalizeGitURL
  simp only []
  rw [List.append_assoc,
    TrimPrefix_strip "git+" _ "https://github.com/".data _ (by decide),
    TrimPrefix_skip "git://" _ _ (by decide), TrimPrefix_skip "ssh://git@" _ _ (by decide),
    ← List.append_assoc, TrimSuffix_strip ".git" _,
    TrimPrefix_strip "https://" _ "github.com/".data _ (by decide),
    TrimPrefix_skip "http://" _ _ (by decide)]

theorem normalizeGitURL_git (o r : String) :
    normalizeGitURL ("git://github.com/" ++ o ++ "/" ++ r ++ ".git")
      = "github.com/" ++ o ++ "/" ++ r := by
  rw [location_git_mk, location_mk]
  unfold normalizeGitURL
  simp only []
  rw [List.append_assoc, TrimPrefix_skip "git+" _ _ (by decide),
    TrimPrefix_strip "git://" _ "github.com/".data _ (by decide),
    TrimPrefix_skip "ssh://git@" _ _ (by decide),
    ← List.append_assoc, TrimSuffix_strip ".git" _,
    TrimPrefix_skip "https://" _ _ (by decide), TrimPrefix_skip "http://" _ _ (by decide)]

theorem normalizeGitURL_git_ssh (o r : String) :
    normalizeGitURL ("git+ssh://git@github.com/" ++ o ++ "/" ++ r ++ ".git")
      = "github.com/" ++ o ++ "/" ++ r := by
  rw [location_git_mk, location_mk]
  unfold normalizeGitURL
  simp only []
  rw [List.append_assoc,
    TrimPrefix_strip "git+" _ "ssh://git@github.com/".data _ (by decide),
    TrimPrefix_skip "git://" _ _ (by decide),
    TrimPrefix_strip "ssh://git@" _ "github.com/".data _ (by decide),
    ← List.append_assoc, TrimSuffix_strip ".git" _,
    TrimPrefix_skip "https://" _ _ (by decide), TrimPrefix_skip "http://" _ _ (by decide)]

end registry

namespace strings

theorem splitNAux_no_sep (sep : Char) (n : Nat) (cur l : List Char) (h : sep ∉ l) :
    splitNAux sep (n + 2) cur l = [cur ++ l] := by
  induction l generalizing cur with
  | nil => simp [splitNAux]
  | cons c rest ih =>
    have hc : ¬ c = sep := fun e => h (e ▸ List.mem_cons_self _ _)
    rw [splitNAux, if_neg hc, ih _ fun hm => h (List.mem_cons_of_mem _ hm)]
    simp

theorem splitNAux_sep (sep : Char) (n : Nat) (cur a t : List Char) (h : sep ∉ a) :
    splitNAux sep (n + 2) cur (a ++ sep :: t) = (cur ++ a) :: splitNAux sep (n + 1) [] t := by
  induction a generalizing cur with
  | nil =>
    simp only [List.nil_append, List.append_nil]
    rw [splitNAux, if_pos rfl]
  | cons c rest ih =>
    have hc : ¬ c = sep := fun e => h (e ▸ List.mem_cons_self _ _)
    simp only [List.cons_append]
    rw [splitNAux, if_neg hc, ih _ fun hm => h (List.mem_cons_of_mem _ hm)]
    simp

theorem splitNAux_one (sep : Char) (cur rest : List Char) :
    splitNAux sep 1 cur rest = [cur ++ rest] := by
  cases rest <;> rfl

end strings

namespace vcs

open strings

seal strings.TrimPrefix strings.TrimSuffix strings.SplitN quote in
theorem ParseGitHubRepo_eq (repoURL : String) :
    ParseGitHubRepo repoURL =
      match SplitN (strippedLocation repoURL) '/' 3 with
      | p0 :: p1 :: _ =>
        if p0 = "" ∨ p1 = "" then
          ("", "", some ("cannot parse GitHub repo from " ++ quote (strippedLocation repoURL)))
        else (p0, p1, none)
      | _ => ("", "", some ("cannot parse GitHub repo from " ++ quote (strippedLocation repoURL))) := by
  unfold ParseGitHubRepo strippedLocation
  rfl

theorem mk_ne_empty (l : List Char) : (String.mk l = "") ↔ l = [] := by
  constructor
  · intro h
    exact congrArg String.data h
  · rintro rfl
    rfl

/-- What `ParseGitHubRepo` returns when the stripped location begins with two
non-empty segments. -/
theorem ParseGitHubRepo_of_segments (repoURL : String) (a b tail : List Char)
    (hs : (strippedLocation repoURL).data = a ++ '/' :: b ++ tail)
    (ha : a ≠ []) (hb : b ≠ []) (ha' : '/' ∉ a) (hb' : '/' ∉ b)
    (ht : tail = [] ∨ tail.head? = some '/') :
    ParseGitHubRepo repoURL = (⟨a⟩, ⟨b⟩, none) := by
  rw [ParseGitHubRepo_eq]
  unfold SplitN
  rw [hs]
  have hsplit : ∃ rest, splitNAux '/' 3 [] (a ++ '/' :: b ++ tail) = a :: b :: rest := by
    rcases ht with ht | ht
    · subst ht
      refine ⟨[], ?_⟩
      rw [List.append_nil, splitNAux_sep '/' 1 [] a b ha', splitNAux_no_sep '/' 0 [] b hb']
      rfl
    · cases tail with
      | nil => simp at ht
      | cons c tail' =>
        simp only [List.head?_cons, Option.some.injEq] at ht
        subst ht
        refine ⟨[tail'], ?_⟩
        have e : a ++ '/' :: b ++ '/' :: tail' = a ++ '/' :: (b ++ '/' :: tail') := by simp
        rw [e, splitNAux_sep '/' 1 [] a _ ha', splitNAux_sep '/' 0 [] b tail' hb', splitNAux_one]
        rfl
  obtain ⟨rest, hrest⟩ := hsplit
  rw [hrest]
  simp only [List.map_cons]
  rw [if_neg]
  rw [mk_ne_empty, mk_ne_empty]
  exact fun h => h.elim ha hb

/-- When `ParseGitHubRepo` returns no error, the stripped location begins with two
non-empty segments, which are the owner and the repo returned. -/
theorem segments_of_ParseGitHubRepo (repoURL : String) (h : (ParseGitHubRepo repoURL).2.2 = none) :
    ∃ a b tail : List Char, (strippedLocation repoURL).data = a ++ '/' :: b ++ tail
      ∧ a ≠ [] ∧ b ≠ [] ∧ '/' ∉ a ∧ '/' ∉ b ∧ (tail = [] ∨ tail.head? = some '/') := by
  rw [ParseGitHubRepo_eq] at h
  unfold SplitN at h
  generalize hq : quote (strippedLocation repoURL) = q at h
  generalize (strippedLocation repoURL).data = s at h ⊢
  by_cases h1 : '/' ∈ s
  · obtain ⟨a, t, rfl, ha'⟩ := List.eq_append_cons_of_mem h1
    rw [splitNAux_sep '/' 1 [] a t ha'] at h
    by_cases h2 : '/' ∈ t
    · obtain ⟨b, rest, rfl, hb'⟩ := List.eq_append_cons_of_mem h2
      rw [splitNAux_sep '/' 0 [] b rest hb', splitNAux_one] at h
      simp only [List.nil_append, List.map_cons, List.map_nil] at h
      by_cases hab : String.mk a = "" ∨ String.mk b = ""
      · rw [if_pos hab] at h
        simp at h
      · rw [mk_ne_empty, mk_ne_empty] at hab
        exact ⟨a, b, '/' :: rest, by simp, fun e => hab (Or.inl e), fun e => hab (Or.inr e),
          ha', hb', Or.inr rfl⟩
    · rw [splitNAux_no_sep '/' 0 [] t h2] at h
      simp only [List.nil_append, List.map_cons, List.map_nil] at h
      by_cases hab : String.mk a = "" ∨ String.mk t = ""
      · rw [if_pos hab] at h
        simp at h
      · rw [mk_ne_empty, mk_ne_empty] at hab
        exact ⟨a, t, [], by simp, fun e => hab (Or.inl e), fun e => hab (Or.inr e),
          ha', h2, Or.inl rfl⟩
  · rw [splitNAux_no_sep '/' 1 [] s h1] at h
    simp at h

theorem strippedLocation_normalised (o r : String) (hr : r ≠ "") (hr' : '/' ∉ r.data)
    (hsuf : HasSuffix r ".git" = false) :
    (strippedLocation ("github.com/" ++ o ++ "/" ++ r)).data = o.data ++ '/' :: r.data := by
  rw [registry.location_mk]
  unfold strippedLocation
  have hne : r.data ≠ [] := fun e => hr (String.ext e)
  have h1 : ¬ ".git".data <:+ ([] ++ (o.data ++ '/' :: r.data)) := by
    intro h
    rw [List.nil_append] at h
    have := suffix_of_sep _ _ _ '/' (by decide) h
    unfold HasSuffix at hsuf
    rw [← List.isSuffixOf_iff_suffix, hsuf] at this
    exact absurd this (by decide)
  have h2 : ¬ "/".data <:+ ([] ++ (o.data ++ '/' :: r.data)) := by
    rw [List.nil_append]
    exact not_sep_suffix o.data r.data '/' hne hr'
  rw [TrimPrefix_skip "https://" _ _ (by decide), TrimPrefix_skip "http://" _ _ (by decide),
    TrimPrefix_strip "github.com/" _ [] _ (by decide), TrimSuffix_skip ".git" _ h1,
    TrimSuffix_skip "/" _ h2]
  simp

theorem ParseGitHubRepo_normalised (o r : String) (ho : o ≠ "") (hr : r ≠ "")
    (ho' : '/' ∉ o.data) (hr' : '/' ∉ r.data) (hsuf : HasSuffix r ".git" = false) :
    ParseGitHubRepo ("github.com/" ++ o ++ "/" ++ r) = (o, r, none) :=
  ParseGitHubRepo_of_segments _ o.data r.data []
    (by rw [strippedLocation_normalised o r hr hr' hsuf]; simp)
    (fun e => ho (String.ext e)) (fun e => hr (String.ext e)) ho' hr' (Or.inl rfl)

end vcs

namespace vcs

open strings registry

/-- C20: for a non-empty owner `o` and a non-empty repo name `r` without `/`, `r`
not ending in `.git`, the four location strings are normalised by
`normalizeGitURL` to `github.com/o/r`, and `ParseGitHubRepo` on that string
returns `(o, r)` without error; and `ParseGitHubRepo` returns an error exactly
when the stripped location does not begin with two non-empty segments separated
by `/` (the second one ending at the next `/` or at the end of the string). -/
theorem C20_locations_normalise_and_parse (o r : String) (ho : o ≠ "") (hr : r ≠ "")
    (ho' : '/' ∉ o.data) (hr' : '/' ∉ r.data) (hsuf : HasSuffix r ".git" = false) :
    normalizeGitURL ("https://github.com/" ++ o ++ "/" ++ r) = "github.com/" ++ o ++ "/" ++ r
    ∧ normalizeGitURL ("git+https://github.com/" ++ o ++ "/" ++ r ++ ".git")
        = "github.com/" ++ o ++ "/" ++ r
    ∧ normalizeGitURL ("git://github.com/" ++ o ++ "/" ++ r ++ ".git")
        = "github.com/" ++ o ++ "/" ++ r
    ∧ normalizeGitURL ("git+ssh://git@github.com/" ++ o ++ "/" ++ r ++ ".git")
        = "github.com/" ++ o ++ "/" ++ r
    ∧ ParseGitHubRepo ("github.com/" ++ o ++ "/" ++ r) = (o, r, none)
    ∧ ∀ repoURL, (ParseGitHubRepo repoURL).2.2 ≠ none ↔
        ¬ ∃ a b tail : List Char, (strippedLocation repoURL).data = a ++ '/' :: b ++ tail
          ∧ a ≠ [] ∧ b ≠ [] ∧ '/' ∉ a ∧ '/' ∉ b ∧ (tail = [] ∨ tail.head? = some '/') := by
  refine ⟨normalizeGitURL_https o r hsuf, normalizeGitURL_git_https o r, normalizeGitURL_git o r,
    normalizeGitURL_git_ssh o r, ParseGitHubRepo_normalised o r ho hr ho' hr' hsuf, ?_⟩
  intro repoURL
  constructor
  · rintro herr ⟨a, b, tail, hs, ha, hb, ha', hb', ht⟩
    rw [ParseGitHubRepo_of_segments repoURL a b tail hs ha hb ha' hb' ht] at herr
    exact herr rfl
  · intro hno herr
    exact hno (segments_of_ParseGitHubRepo repoURL herr)

/-- C20 at the owner `foo` and the repo `foo`. -/
theorem C20_locations_normalise_and_parse_witness :
    normalizeGitURL ("git+https://github.com/" ++ "foo" ++ "/" ++ "foo" ++ ".git")
        = "github.com/" ++ "foo" ++ "/" ++ "foo"
    ∧ ParseGitHubRepo ("github.com/" ++ "foo" ++ "/" ++ "foo") = ("foo", "foo", none) :=
  ⟨(C20_locations_normalise_and_parse "foo" "foo" (by decide) (by decide) (by decide)
      (by decide) (by decide)).2.1,
   (C20_locations_normalise_and_parse "foo" "foo" (by decide) (by decide) (by decide)
      (by decide) (by decide)).2.2.2.2.1⟩

end vcs

/-! ### The tracking key -/

namespace issues

open scanner github

theorem split_unique_left {α : Type} (c : α) (l1 l2 r1 r2 : List α) (h1 : c ∉ l1) (h2 : c ∉ l2)
    (h : l1 ++ c :: r1 = l2 ++ c :: r2) : l1 = l2 ∧ r1 = r2 := by
  induction l1 generalizing l2 with
  | nil =>
    cases l2 with
    | nil => simpa using h
    | cons b l2 =>
      simp only [List.nil_append, List.cons_append, List.cons.injEq] at h
      exact absurd (h.1 ▸ List.mem_cons_self _ _) h2
  | cons a l1 ih =>
    cases l2 with
    | nil =>
      simp only [List.nil_append, List.cons_append, List.cons.injEq] at h
      exact absurd (h.1 ▸ List.mem_cons_self _ _) h1
    | cons b l2 =>
      simp only [List.cons_append, List.cons.injEq] at h
      obtain ⟨e1, e2⟩ := ih l2 (fun hm => h1 (List.mem_cons_of_mem _ hm))
        (fun hm => h2 (List.mem_cons_of_mem _ hm)) h.2
      exact ⟨by rw [h.1, e1], e2⟩

theorem split_unique_right {α : Type} (c : α) (l1 l2 r1 r2 : List α) (h1 : c ∉ r1) (h2 : c ∉ r2)
    (h : l1 ++ c :: r1 = l2 ++ c :: r2) : l1 = l2 ∧ r1 = r2 := by
  have hr := congrArg List.reverse h
  simp only [List.reverse_append, List.reverse_cons, List.append_assoc, List.singleton_append] at hr
  obtain ⟨e1, e2⟩ := split_unique_left c r1.reverse r2.reverse l1.reverse l2.reverse
    (by simpa using h1) (by simpa using h2) hr
  exact ⟨List.reverse_injective e2, List.reverse_injective e1⟩

/-- C12, as stated, fails: the advisory id `RHSA-2024:0001` with the package
`pkg` and the advisory id `RHSA-2024` with the package `0001:pkg` have the same
tracking key. -/
theorem C12_issueKey_collision :
    ¬ ∀ a1 a2 p1 p2 : String, issueKey a1 p1 = issueKey a2 p2 → a1 = a2 ∧ p1 = p2 := by
  intro h
  have h' := h "RHSA-2024:0001" "RHSA-2024" "pkg" "0001:pkg" (by decide)
  revert h'
  decide

/-- C12, amended: the tracking key is collision-free among advisory ids that
contain no colon, and among package names that contain no colon: if
`issueKey a1 p1 = issueKey a2 p2` and neither `a1` nor `a2` contains a colon, or
neither `p1` nor `p2` does, then `a1 = a2` and `p1 = p2`. -/
theorem C12_issueKey_injective (a1 a2 p1 p2 : String)
    (hc : (':' ∉ a1.data ∧ ':' ∉ a2.data) ∨ (':' ∉ p1.data ∧ ':' ∉ p2.data))
    (h : issueKey a1 p1 = issueKey a2 p2) : a1 = a2 ∧ p1 = p2 := by
  have hd := congrArg String.data h
  rw [issueKey_data, issueKey_data] at hd
  have hd' := List.append_cancel_left hd
  rcases hc with hc | hc
  · obtain ⟨e1, e2⟩ := split_unique_left ':' _ _ _ _ hc.1 hc.2 hd'
    exact ⟨String.ext e1, String.ext e2⟩
  · obtain ⟨e1, e2⟩ := split_unique_right ':' _ _ _ _ hc.1 hc.2 hd'
    exact ⟨String.ext e1, String.ext e2⟩

/-- C12, amended, at two keys built from colon-free advisory ids. -/
theorem C12_issueKey_injective_witness :
    ("CVE-2024-1111" : String) = "CVE-2024-1111" ∧ ("left-pad" : String) = "left-pad" :=
  C12_issueKey_injective "CVE-2024-1111" "CVE-2024-1111" "left-pad" "left-pad"
    (Or.inl ⟨by decide, by decide⟩) rfl

/-- C14: the tracking key of `(a, p)` is the string `unreleased-fix:` followed by
`a`, a colon and `p`, character by character, a function of `a` and `p` alone;
for `CVE-2024-1111` and `left-pad` it is
`unreleased-fix:CVE-2024-1111:left-pad`. -/
theorem C14_issueKey_format (a p : String) :
    issueKey a p = "unreleased-fix:" ++ a ++ ":" ++ p
    ∧ (issueKey a p).data = "unreleased-fix:".data ++ a.data ++ ':' :: p.data
    ∧ issueKey "CVE-2024-1111" "left-pad" = "unreleased-fix:CVE-2024-1111:left-pad" := by
  refine ⟨rfl, ?_, by decide⟩
  rw [issueKey_data, List.append_assoc]

end issues

namespace issues

open scanner github

theorem extractKeyFrom_none (labels : List String)
    (h : ∀ l ∈ labels, ¬ (strings.HasPrefix l "unreleased-fix:" = true ∧ strings.Count l ':' ≥ 2)) :
    extractKeyFrom labels = "" := by
  induction labels with
  | nil => rfl
  | cons l rest ih =>
    unfold extractKeyFrom
    rw [if_neg (h l (List.mem_cons_self _ _))]
    exact ih fun x hx => h x (List.mem_cons_of_mem _ hx)

/-- C13: the tracking label is round-trip parseable. For an issue that carries
the labels that `createIssue` assigns for `(a, p)`, `extractIssueKey` returns
`issueKey a p`, which is the key `Reconcile` computes for a finding with advisory
id `a` and package name `p`; the loop of `listTrackedIssues` stores such an
issue under that key, and when the tracker holds it as an open issue, the map of
tracked issues has an entry for that key. For an issue none of whose labels
starts with `unreleased-fix:` and contains at least two colons,
`extractIssueKey` returns the empty string. -/
theorem C13_tracking_label_roundtrip (a p : String) :
    (∀ issue : Issue, issue.Labels = [LabelUnreleasedFix, issueKey a p] →
        extractIssueKey issue = issueKey a p
        ∧ ∀ m : GoMap Issue, addPage m [issue] = m.insert (issueKey a p) issue)
    ∧ (∀ f : Finding, f.Advisory.ID = a → f.Package.Name = p →
        (createRequest f).Labels = some [LabelUnreleasedFix, issueKey a p]
        ∧ keyOf f = issueKey a p)
    ∧ (∀ (t : Tracker) (n : Nat) (x : StoredIssue), t.issues[n]? = some x → x.State = "open" →
        x.Labels = [LabelUnreleasedFix, issueKey a p] →
        ∃ issue, (trackedMap t).lookup (issueKey a p) = some issue
          ∧ extractIssueKey issue = issueKey a p)
    ∧ (∀ issue : Issue,
        (∀ l ∈ issue.Labels,
          ¬ (strings.HasPrefix l "unreleased-fix:" = true ∧ strings.Count l ':' ≥ 2)) →
        extractIssueKey issue = "") := by
  refine ⟨?_, ?_, ?_, ?_⟩
  · intro issue hl
    have hk : extractIssueKey issue = issueKey a p := by
      unfold extractIssueKey
      rw [hl]
      exact extractKeyFrom_created a p
    refine ⟨hk, fun m => ?_⟩
    rw [addPage_cons, hk, if_pos (issueKey_ne_empty a p)]
    rfl
  · rintro f rfl rfl
    exact ⟨rfl, rfl⟩
  · intro t n x hx hopen hl
    have hmem : Tracker.present (1 + n) x ∈ t.matching [LabelUnreleasedFix] "open" :=
      Tracker.mem_matchingFrom _ _ 1 t.issues n x (by rw [List.get?_eq_getElem?]; exact hx)
        (Or.inr hopen) (by simp [hl])
    have hk : extractIssueKey (Tracker.present (1 + n) x) = issueKey a p := by
      unfold extractIssueKey Tracker.present
      simp only [hl]
      exact extractKeyFrom_created a p
    have hkeys : issueKey a p ∈ (trackedMap t).keys :=
      (trackedMap_keys t _).2 ⟨_, hmem, hk, issueKey_ne_empty a p⟩
    obtain ⟨e, he, hek⟩ := List.mem_map.1 hkeys
    refine ⟨e.2, (trackedMap_lookup t _ _).2 ?_, ?_⟩
    · rw [← hek]
      exact he
    · rw [← (trackedMap_entry t e he).2.1, hek]
  · intro issue h
    exact extractKeyFrom_none _ h

/-- C13 at the tracker that holds the open issue created for `GHSA-xxxx` on
`foo`: the map of tracked issues has an entry under the key of that finding. -/
theorem C13_tracking_label_roundtrip_witness :
    ∃ issue, (trackedMap scenario.trackerFoo).lookup (issueKey "GHSA-xxxx" "foo") = some issue
      ∧ extractIssueKey issue = issueKey "GHSA-xxxx" "foo" :=
  (C13_tracking_label_roundtrip "GHSA-xxxx" "foo").2.2.1 scenario.trackerFoo 0
    (scenario.trackedIssue "GHSA-xxxx" "foo") rfl rfl rfl

end issues

/-! ### Further claims about `Scan` -/

set_option maxRecDepth 100000

namespace scanner

open lockfile advisory

/-- C17 fails on the code. The score `CVSS:3.1/AV:N/AC:L/PR:N/UI:N/S:U/C:H/I:H/A:H`
names no level, yet `convertOSVVulns` gives the advisory the severity `low`,
which does not pass the minimum `medium`: `Scan` under the default configuration
drops the finding, while it returns it for the same record without a severity
entry. -/
theorem C17_bare_vector_becomes_low :
    (strings.Contains (strings.ToLower "CVSS:3.1/AV:N/AC:L/PR:N/UI:N/S:U/C:H/I:H/A:H") "critical"
        = false
      ∧ strings.Contains (strings.ToLower "CVSS:3.1/AV:N/AC:L/PR:N/UI:N/S:U/C:H/I:H/A:H") "high"
        = false
      ∧ strings.Contains (strings.ToLower "CVSS:3.1/AV:N/AC:L/PR:N/UI:N/S:U/C:H/I:H/A:H") "medium"
        = false
      ∧ strings.Contains (strings.ToLower "CVSS:3.1/AV:N/AC:L/PR:N/UI:N/S:U/C:H/I:H/A:H") "low"
        = false)
    ∧ (convertOSVVulns (fun _ => none) [scenario.osvRecordVector]).map (fun a => a.Severity)
        = ["low"]
    ∧ meetsMinSeverity "low" "medium" = false
    ∧ (scenario.recordScanner scenario.osvRecordVector).Scan scenario.net [scenario.foo] = ([], none)
    ∧ (convertOSVVulns (fun _ => none) [scenario.osvRecord]).map (fun a => a.Severity) = [""]
    ∧ ((scenario.recordScanner scenario.osvRecord).Scan scenario.net [scenario.foo]).1.map
        (fun f => (f.Advisory.ID, f.Package)) = [("GHSA-xxxx", scenario.foo)] := by
  decide

end scanner

namespace issues

open scanner github

/-- C18 fails on the code: with no issue in the tracker and two findings that
share the tracking key of `(GHSA-xxxx, foo)`, for the versions 1.0.0 and 2.0.0, a
run of `Reconcile` returns no error and creates two issues for that key. -/
theorem C18_two_issues_for_shared_key :
    keyOf (scenario.fooFinding "1.0.0") = keyOf (scenario.fooFinding "2.0.0")
    ∧ (trackedMap scenario.trackerEmpty).keys = []
    ∧ (Reconcile scenario.entryOrder
        [scenario.fooFinding "1.0.0", scenario.fooFinding "2.0.0"] scenario.trackerEmpty).1 = none
    ∧ (mutationsSince scenario.trackerEmpty
        (Reconcile scenario.entryOrder
          [scenario.fooFinding "1.0.0", scenario.fooFinding "2.0.0"] scenario.trackerEmpty).2).filter
        (createsFor (keyOf (scenario.fooFinding "1.0.0")))
      = [Call.Create (createRequest (scenario.fooFinding "1.0.0")),
         Call.Create (createRequest (scenario.fooFinding "2.0.0"))]
    ∧ (Reconcile scenario.entryOrder
        [scenario.fooFinding "1.0.0", scenario.fooFinding "2.0.0"]
          scenario.trackerEmpty).2.issues.map (fun i => (i.State, i.Labels))
      = [("open", ["unreleased-fix", "unreleased-fix:GHSA-xxxx:foo"]),
         ("open", ["unreleased-fix", "unreleased-fix:GHSA-xxxx:foo"])] := by
  decide

end issues

namespace scanner

open lockfile advisory

section DedupClaims

seal Scanner.checkFixReleased vcs.ParseGitHubRepo registry.normalizeGitURL

theorem emitted_keys (net : registry.Network) (s : Scanner) (dep : Dependency) (adv : Advisory)
    (k : String × String × String)
    (h : k ∈ (emitted net s dep adv).map
      (fun f => (f.Advisory.ID, f.Package.Name, f.Package.Version))) :
    k = (adv.ID, dep.Name, dep.Version) := by
  unfold emitted at h
  split at h
  · simpa [findingFor] using h
  · simp at h

theorem emitted_nodup (net : registry.Network) (s : Scanner) (dep : Dependency) (adv : Advisory) :
    ((emitted net s dep adv).map
      (fun f => (f.Advisory.ID, f.Package.Name, f.Package.Version))).Nodup := by
  unfold emitted
  split <;> simp

/-- The loops of `Scan` add no duplicate of their own: when no `(name, version)`
pair occurs twice in the dependency list and the batch answer lists no advisory
id twice for a dependency, the findings that `Scan` returns hold no two entries
with the same advisory id and the same package name and version. -/
theorem Scan_nodup_of_nodup (net : registry.Network) (s : Scanner) (deps : List Dependency)
    (m : GoMap (List Advisory)) (hq : s.advisorySource.QueryBatch (buildQueries deps) = .ok m)
    (hdeps : (deps.map (fun d => (d.Name, d.Version))).Nodup)
    (hadv : ∀ dep ∈ deps, ((advisoriesOf m dep).map (fun a => a.ID)).Nodup) :
    ((s.Scan net deps).1.map
      (fun f => (f.Advisory.ID, f.Package.Name, f.Package.Version))).Nodup := by
  rw [Scan_ok net s deps m hq]
  simp only [List.map_flatMap]
  rw [List.nodup_flatMap]
  constructor
  · intro dep hd
    rw [List.nodup_flatMap]
    refine ⟨fun adv _ => emitted_nodup net s dep adv, ?_⟩
    have hp := List.pairwise_map.1 (hadv dep hd)
    refine hp.imp ?_
    intro a b hab k hka hkb
    have e1 := emitted_keys net s dep a k hka
    have e2 := emitted_keys net s dep b k hkb
    rw [e1] at e2
    exact hab (congrArg Prod.fst e2)
  · have hp := List.pairwise_map.1 hdeps
    refine hp.imp ?_
    intro d d' hdd k hk hk'
    obtain ⟨a, _, hka⟩ := List.mem_flatMap.1 hk
    obtain ⟨b, _, hkb⟩ := List.mem_flatMap.1 hk'
    have e1 := emitted_keys net s d a k hka
    have e2 := emitted_keys net s d' b k hkb
    rw [e1] at e2
    exact hdd (congrArg Prod.snd e2)

end DedupClaims

end scanner

namespace scanner

open lockfile advisory

theorem containsAux_of_prefix (sub l : List Char) (h : sub.isPrefixOf l = true) :
    strings.containsAux sub l = true := by
  cases l with
  | nil => exact h
  | cons c t =>
    unfold strings.containsAux
    rw [h]
    rfl

theorem contains_github (o r : String) :
    strings.Contains ("github.com/" ++ o ++ "/" ++ r) "github.com" = true := by
  rw [registry.location_mk]
  unfold strings.Contains
  apply containsAux_of_prefix
  rw [strings.isPrefixOf_append_of_length_le _ _ _ (by decide)]
  decide

theorem checkFixReleased_normalised (s : Scanner) (o r sha : String) (ho : o ≠ "") (hr : r ≠ "")
    (ho' : '/' ∉ o.data) (hr' : '/' ∉ r.data) (hsuf : strings.HasSuffix r ".git" = false) :
    s.checkFixReleased ("github.com/" ++ o ++ "/" ++ r) sha
      = match s.repoClient.ListTags o r with
        | .error err => (false, "", some err)
        | .ok tags => checkTags s.repoClient o r sha tags := by
  unfold Scanner.checkFixReleased
  rw [vcs.ParseGitHubRepo_normalised o r ho hr ho' hr' hsuf]

section GuardClaims

seal Scanner.checkFixReleased vcs.ParseGitHubRepo registry.normalizeGitURL

theorem markedReleased_of_not_attempted (net : registry.Network) (s : Scanner) (dep : Dependency)
    (adv : Advisory) (h : releaseCheckAttempted net dep adv = false) :
    markedReleased net s dep adv = false := by
  unfold markedReleased
  rw [h]
  rfl

unseal Scanner.checkFixReleased in
theorem markedReleased_of_parse_error (net : registry.Network) (s : Scanner) (dep : Dependency)
    (adv : Advisory) (h : (vcs.ParseGitHubRepo (resolvedSourceRepo net dep)).2.2 ≠ none) :
    markedReleased net s dep adv = false := by
  have hc : (s.checkFixReleased (resolvedSourceRepo net dep) adv.FixCommit).2.2.isNone = false := by
    unfold Scanner.checkFixReleased
    rcases hp : vcs.ParseGitHubRepo (resolvedSourceRepo net dep) with ⟨owner, repo, err⟩
    rw [hp] at h
    cases err with
    | none => exact absurd rfl h
    | some e => rfl
  unfold markedReleased
  rw [hc, Bool.and_false]

theorem scanAdvisory_of_not_released (net : registry.Network) (s : Scanner) (dep : Dependency)
    (adv : Advisory) (findings : List Finding) (hp : passesFilters s dep adv = true)
    (h : markedReleased net s dep adv = false) :
    scanAdvisory net s dep findings adv = findings ++ [findingFor net dep adv] := by
  rw [scanAdvisory_eq]
  unfold emitted
  rw [hp, h]
  rfl

end GuardClaims

end scanner

/-! ### Failures during `Reconcile` -/

namespace issues

open scanner github

theorem runsPlan_nil (t : Tracker) : runsPlan t none t [] :=
  ⟨[], by simp, ⟨fun _ x hx => by simp at hx, fun h => absurd rfl h⟩, List.prefix_refl _,
    fun _ => rfl⟩

theorem runsPlan_single (t t' : Tracker) (err : Option String) (c : Call)
    (h : t'.calls = t.calls ++ [(c, err)]) : runsPlan t err t' [c] := by
  refine ⟨[(c, err)], h, ⟨?_, ?_⟩, List.prefix_refl _, fun _ => rfl⟩
  · intro he x hx
    rw [List.mem_singleton] at hx
    rw [hx, he]
  · intro he
    exact ⟨[], (c, err), rfl, he, fun x hx => by simp at hx⟩

theorem runsPlan_seq (t t1 t2 : Tracker) (err : Option String) (p1 p2 : List Call)
    (h1 : runsPlan t none t1 p1) (h2 : runsPlan t1 err t2 p2) : runsPlan t err t2 (p1 ++ p2) := by
  obtain ⟨n1, c1, ⟨s1, _⟩, _, e1⟩ := h1
  obtain ⟨n2, c2, ⟨s2, s2'⟩, pre2, e2⟩ := h2
  refine ⟨n1 ++ n2, by rw [c2, c1, List.append_assoc], ⟨?_, ?_⟩, ?_, ?_⟩
  · intro he x hx
    rcases List.mem_append.1 hx with hx | hx
    · exact s1 rfl x hx
    · exact s2 he x hx
  · intro he
    obtain ⟨init, last, hn, hl, hi⟩ := s2' he
    refine ⟨n1 ++ init, last, by rw [hn, List.append_assoc], hl, ?_⟩
    intro x hx
    rcases List.mem_append.1 hx with hx | hx
    · exact s1 rfl x hx
    · exact hi x hx
  · rw [List.map_append, e1 rfl]
    exact (List.prefix_append_right_inj _).2 pre2
  · intro he
    rw [List.map_append, e1 rfl, e2 he]

theorem runsPlan_fail (t t1 : Tracker) (e e' : String) (p1 p2 : List Call)
    (h : runsPlan t (some e) t1 p1) : runsPlan t (some e') t1 (p1 ++ p2) := by
  obtain ⟨n1, c1, ⟨_, s1⟩, pre1, _⟩ := h
  refine ⟨n1, c1, ⟨fun he => by simp at he, fun _ => s1 (by simp)⟩,
    pre1.trans (List.prefix_append _ _), fun he => by simp at he⟩

theorem Create_calls (t : Tracker) (req : IssueRequest) :
    (t.Create req).2.calls = t.calls ++ [(Call.Create req, (t.Create req).1)] := by
  unfold Tracker.Create
  cases t.fault <;> rfl

theorem CreateComment_calls (t : Tracker) (n : Nat) (body : String) :
    (t.CreateComment n body).2.calls
      = t.calls ++ [(Call.CreateComment n body, (t.CreateComment n body).1)] := by
  unfold Tracker.CreateComment
  cases t.fault with
  | some e => rfl
  | none =>
    simp only []
    cases t.issues.get? (n - 1) with
    | none => rfl
    | some x =>
      simp only []
      split <;> rfl

theorem Edit_calls (t : Tracker) (n : Nat) (req : IssueRequest) :
    (t.Edit n req).2.calls = t.calls ++ [(Call.Edit n req, (t.Edit n req).1)] := by
  unfold Tracker.Edit
  cases t.fault with
  | some e => rfl
  | none =>
    simp only []
    cases t.issues.get? (n - 1) with
    | none => rfl
    | some x =>
      simp only []
      split <;> rfl

theorem commentThenEdit_runs (t : Tracker) (n : Nat) (body : String) (req : IssueRequest) :
    runsPlan t
      (match t.CreateComment n body with
        | (some err, t) => (some err, t)
        | (none, t) => t.Edit n req).1
      (match t.CreateComment n body with
        | (some err, t) => (some err, t)
        | (none, t) => t.Edit n req).2
      [Call.CreateComment n body, Call.Edit n req] := by
  have hc := CreateComment_calls t n body
  rcases hr : t.CreateComment n body with ⟨err, t1⟩
  rw [hr] at hc
  simp only at hc
  cases err with
  | some e => exact runsPlan_fail t t1 e e [_] [_] (runsPlan_single t t1 _ _ hc)
  | none =>
    exact runsPlan_seq t t1 _ _ [_] [_] (runsPlan_single t t1 _ _ hc)
      (runsPlan_single t1 _ _ _ (Edit_calls t1 n req))

theorem runsPlan_wrap (t t1 : Tracker) (e e' : String) (p : List Call)
    (h : runsPlan t (some e) t1 p) : runsPlan t (some e') t1 p := by
  have h' := runsPlan_fail t t1 e e' p [] h
  rwa [List.append_nil] at h'

theorem markReleased_runs (issue : Issue) (f : Finding) (t : Tracker) :
    runsPlan t (markReleased issue f t).1 (markReleased issue f t).2
      [Call.CreateComment issue.Number (RenderFixReleasedComment f),
        Call.Edit issue.Number (releasedRequest issue)] := by
  unfold markReleased
  exact commentThenEdit_runs t issue.Number (RenderFixReleasedComment f) (releasedRequest issue)

theorem createIssue_runs (f : Finding) (t : Tracker) :
    runsPlan t (createIssue f t).1 (createIssue f t).2 [Call.Create (createRequest f)] := by
  unfold createIssue
  exact runsPlan_single t _ _ _ (Create_calls t (createRequest f))

theorem reconcileFinding_runs (existing : GoMap Issue) (fk : GoMap Bool) (f : Finding)
    (t : Tracker) :
    runsPlan t (reconcileFinding existing fk f t).2.1 (reconcileFinding existing fk f t).2.2
      (callsForFinding existing f) := by
  unfold reconcileFinding callsForFinding keyOf
  simp only []
  cases hl : existing.lookup (issueKey f.Advisory.ID f.Package.Name) with
  | some issue =>
    simp only []
    by_cases hr : f.FixReleased = true
    · simp only [hr, if_true]
      have h := markReleased_runs issue f t
      rcases hm : markReleased issue f t with ⟨err, t1⟩
      rw [hm] at h
      cases err with
      | some e => exact runsPlan_wrap t t1 e _ _ h
      | none => exact h
    · simp only [hr, Bool.false_eq_true, if_false]
      exact runsPlan_nil t
  | none =>
    simp only []
    have h := createIssue_runs f t
    rcases hm : createIssue f t with ⟨err, t1⟩
    rw [hm] at h
    cases err with
    | some e => exact runsPlan_wrap t t1 e _ _ h
    | none => exact h

theorem closeStaleIssue_runs (issue : Issue) (t : Tracker) :
    runsPlan t (closeStaleIssue issue t).1 (closeStaleIssue issue t).2
      [Call.CreateComment issue.Number staleComment, Call.Edit issue.Number closeRequest] := by
  unfold closeStaleIssue
  exact commentThenEdit_runs t issue.Number staleComment closeRequest

theorem reconcileFindings_runs (existing : GoMap Issue) (findings : List Finding)
    (fk : GoMap Bool) (t : Tracker) :
    runsPlan t (reconcileFindings existing findings fk t).2.1
      (reconcileFindings existing findings fk t).2.2
      (findings.flatMap (callsForFinding existing)) := by
  induction findings generalizing fk t with
  | nil => exact runsPlan_nil t
  | cons f rest ih =>
    unfold reconcileFindings
    rw [List.flatMap_cons]
    have h := reconcileFinding_runs existing fk f t
    rcases hm : reconcileFinding existing fk f t with ⟨fk1, err, t1⟩
    rw [hm] at h
    cases err with
    | some e => exact runsPlan_fail t t1 e e _ _ h
    | none => exact runsPlan_seq t t1 _ _ _ _ h (ih fk1 t1)

theorem closeStale_runs (fk : GoMap Bool) (keys : List String)
    (hfk : ∀ k, (fk.lookup k).getD false = decide (k ∈ keys))
    (l : List (String × Issue)) (t : Tracker) :
    runsPlan t (closeStale fk l t).1 (closeStale fk l t).2 (l.flatMap (callsForEntry keys)) := by
  induction l generalizing t with
  | nil => exact runsPlan_nil t
  | cons e rest ih =>
    obtain ⟨key, issue⟩ := e
    unfold closeStale
    rw [hfk key, List.flatMap_cons]
    by_cases hk : key ∈ keys
    · simp only [hk, decide_True, if_true, callsForEntry, List.nil_append]
      exact ih t
    · simp only [hk, decide_False, Bool.false_eq_true, if_false, callsForEntry]
      have h := closeStaleIssue_runs issue t
      rcases hm : closeStaleIssue issue t with ⟨err, t1⟩
      rw [hm] at h
      cases err with
      | some e => exact runsPlan_fail t t1 e _ _ _ h
      | none => exact runsPlan_seq t t1 _ _ _ _ h (ih t1)

/-- The part of `Reconcile` that follows the listing goes through its plan and
stops at the first failure. -/
theorem reconcileWith_runs (range : GoMap Issue → List (String × Issue)) (existing : GoMap Issue)
    (findings : List Finding) (t : Tracker) :
    runsPlan t (reconcileWith range existing findings t).1
      (reconcileWith range existing findings t).2 (reconcilePlan range findings existing) := by
  unfold reconcileWith reconcilePlan
  have h := reconcileFindings_runs existing findings GoMap.empty t
  rcases hm : reconcileFindings existing findings GoMap.empty t with ⟨fk, err, t1⟩
  rw [hm] at h
  cases err with
  | some e => exact runsPlan_fail t t1 e e _ _ h
  | none =>
    obtain ⟨_, hfk⟩ := reconcileFindings_ok existing findings _ fk t t1 hm
    exact runsPlan_seq t t1 _ _ _ _ h
      (closeStale_runs fk _ (findingKeys_spec fk findings hfk) (range existing) t1)

theorem listLoop_trace (fuel page : Nat) (acc : GoMap Issue) (t : Tracker)
    (hfuel : 1 ≤ fuel)
    (hcover : (t.matching [LabelUnreleasedFix] "open").length ≤ (max page 1 - 1 + fuel) * 100) :
    ∃ new, (listLoop fuel page acc t).2.calls = t.calls ++ new
      ∧ (∀ c ∈ new, c.1.isMutation = false)
      ∧ stopsAtFirstFailure (listLoop fuel page acc t).1.2 new := by
  induction fuel generalizing page acc t with
  | zero => omega
  | succ fuel ih =>
    unfold listLoop
    cases hf : t.fault with
    | some e =>
      rw [ListByRepo_fault _ _ _ _ _ e hf]
      refine ⟨[(Call.ListByRepo [LabelUnreleasedFix] "open" 100 page, some e)], rfl, ?_, ?_, ?_⟩
      · intro c hc
        rw [List.mem_singleton] at hc
        subst hc
        rfl
      · intro h
        simp at h
      · intro _
        exact ⟨[], _, rfl, by simp, fun x hx => by simp at hx⟩
    | none =>
      rw [ListByRepo_ok _ _ _ _ _ hf]
      simp only []
      by_cases hn : max page 1 * 100 < (t.matching [LabelUnreleasedFix] "open").length
      · have hnext : (if max page 1 * 100 < (t.matching [LabelUnreleasedFix] "open").length
            then max page 1 + 1 else 0) ≠ 0 := by
          rw [if_pos hn]; omega
        rw [if_neg hnext, if_pos hn]
        obtain ⟨new, h2, h3, h4, h5⟩ := ih (max page 1 + 1)
          (addPage acc (((t.matching [LabelUnreleasedFix] "open").drop
            ((max page 1 - 1) * 100)).take 100))
          (t.record (Call.ListByRepo [LabelUnreleasedFix] "open" 100 page) none t.issues)
          (by omega)
          (by rw [matching_record]
              have : max (max page 1 + 1) 1 - 1 + fuel = max page 1 - 1 + (fuel + 1) := by omega
              rw [this]; exact hcover)
        refine ⟨(Call.ListByRepo [LabelUnreleasedFix] "open" 100 page, none) :: new, ?_, ?_, ?_, ?_⟩
        · rw [h2]
          simp [Tracker.record]
        · intro c hc
          rcases List.mem_cons.1 hc with hc | hc
          · subst hc; rfl
          · exact h3 c hc
        · intro he x hx
          rcases List.mem_cons.1 hx with hx | hx
          · subst hx; rfl
          · exact h4 he x hx
        · intro he
          obtain ⟨init, last, hnew, hl, hi⟩ := h5 he
          refine ⟨(Call.ListByRepo [LabelUnreleasedFix] "open" 100 page, none) :: init, last,
            by rw [hnew]; rfl, hl, ?_⟩
          intro x hx
          rcases List.mem_cons.1 hx with hx | hx
          · subst hx; rfl
          · exact hi x hx
      · have hnext : (if max page 1 * 100 < (t.matching [LabelUnreleasedFix] "open").length
            then max page 1 + 1 else 0) = 0 := by
          rw [if_neg hn]
        rw [if_pos hnext]
        refine ⟨[(Call.ListByRepo [LabelUnreleasedFix] "open" 100 page, none)], rfl, ?_, ?_, ?_⟩
        · intro c hc
          rw [List.mem_singleton] at hc
          subst hc
          rfl
        · intro _ x hx
          rw [List.mem_singleton] at hx
          subst hx
          rfl
        · intro he
          exact absurd rfl he

/-- The listing makes listing calls only and stops at the first that fails. -/
theorem listTrackedIssues_trace (t : Tracker) :
    ∃ new, (listTrackedIssues t).2.calls = t.calls ++ new
      ∧ (∀ c ∈ new, c.1.isMutation = false)
      ∧ stopsAtFirstFailure (listTrackedIssues t).1.2 new := by
  apply listLoop_trace (t.issues.length + 1) 0 GoMap.empty t (by omega)
  have := matchingFrom_length [LabelUnreleasedFix] "open" 1 t.issues
  unfold Tracker.matching
  omega

theorem reconcilePlan_mutation (range : GoMap Issue → List (String × Issue))
    (findings : List Finding) (existing : GoMap Issue) :
    ∀ c ∈ reconcilePlan range findings existing, c.isMutation = true := by
  intro c hc
  rcases List.mem_append.1 hc with hc | hc
  · obtain ⟨f, _, hf⟩ := List.mem_flatMap.1 hc
    exact callsForFinding_mutation _ f c hf
  · obtain ⟨e, _, he⟩ := List.mem_flatMap.1 hc
    exact callsForEntry_mutation _ e c he

/-- C16: failure semantics of `Reconcile`. The calls of a run are listing calls
followed by mutating calls, and they stop at the first failure: when the run
returns an error, the last call it made is a call that failed and every call
before it succeeded; when it returns no error, every call succeeded. The
mutating calls attempted are an initial part of the plan of the run (the calls
for the findings in order, then those of the stale-issue sweep), so that nothing
that the plan puts after the failing call is attempted, and they are the whole
plan when the run returns no error. A failure of the listing makes the run
return an error without any mutating call. -/
theorem C16_reconcile_stops_at_first_failure (range : GoMap Issue → List (String × Issue))
    (findings : List Finding) (t : Tracker) :
    ∃ listing rest,
      (Reconcile range findings t).2.calls = t.calls ++ (listing ++ rest)
      ∧ (∀ x ∈ listing, x.1.isMutation = false)
      ∧ (∀ x ∈ rest, x.1.isMutation = true)
      ∧ stopsAtFirstFailure (Reconcile range findings t).1 (listing ++ rest)
      ∧ ((listTrackedIssues t).1.2 ≠ none →
          (Reconcile range findings t).1 ≠ none ∧ rest = [])
      ∧ rest.map Prod.fst <+: reconcilePlan range findings (trackedMap t)
      ∧ ((Reconcile range findings t).1 = none →
          rest.map Prod.fst = reconcilePlan range findings (trackedMap t)) := by
  unfold Reconcile
  obtain ⟨listing, hcalls, hquiet, hstop, hstop'⟩ := listTrackedIssues_trace t
  obtain ⟨_, _, hmap⟩ := listTrackedIssues_spec t
  rcases hl : listTrackedIssues t with ⟨⟨existing, err⟩, t1⟩
  rw [hl] at hcalls hstop hstop' hmap
  simp only at hcalls hstop hstop' hmap
  cases err with
  | some e =>
    refine ⟨listing, [], by simpa using hcalls, hquiet, fun x hx => by simp at hx, ?_, ?_, ?_, ?_⟩
    · rw [List.append_nil]
      exact ⟨fun he => by simp at he, fun _ => hstop' (by simp)⟩
    · intro _
      exact ⟨by simp, rfl⟩
    · exact List.nil_prefix
    · intro he
      simp at he
  | none =>
    have hex := hmap rfl
    subst hex
    obtain ⟨rest, hr1, ⟨hs1, hs2⟩, hpre, hall⟩ := reconcileWith_runs range (trackedMap t) findings t1
    simp only []
    refine ⟨listing, rest, by rw [hr1, hcalls, List.append_assoc], hquiet, ?_, ⟨?_, ?_⟩, ?_, hpre,
      hall⟩
    · intro x hx
      exact reconcilePlan_mutation range findings (trackedMap t) x.1
        (hpre.subset (List.mem_map_of_mem Prod.fst hx))
    · intro he x hx
      rcases List.mem_append.1 hx with hx | hx
      · exact hstop rfl x hx
      · exact hs1 he x hx
    · intro he
      obtain ⟨init, last, hn, hlast, hi⟩ := hs2 he
      refine ⟨listing ++ init, last, by rw [hn, List.append_assoc], hlast, ?_⟩
      intro x hx
      rcases List.mem_append.1 hx with hx | hx
      · exact hstop rfl x hx
      · exact hi x hx
    · intro he
      exact absurd rfl he

/-- C16 at a run that fails: the tracked keys are A, B and C, the findings are B
and D, and the second call to the tracker fails. The listing succeeds, the
creation of the issue for D fails, `Reconcile` returns that error, and the
stale issues A and C are not touched: the failing creation is the last call. -/
theorem C16_reconcile_stops_at_first_failure_witness :
    (Reconcile scenario.entryOrder
        [scenario.findingOf "GHSA-bbbb" "pkg-b" false, scenario.findingOf "GHSA-dddd" "pkg-d" false]
        { scenario.trackerABC with faults := [none, some "502 Bad Gateway"] }).1
      = some "create issue for unreleased-fix:GHSA-dddd:pkg-d: 502 Bad Gateway"
    ∧ (Reconcile scenario.entryOrder
        [scenario.findingOf "GHSA-bbbb" "pkg-b" false, scenario.findingOf "GHSA-dddd" "pkg-d" false]
        { scenario.trackerABC with faults := [none, some "502 Bad Gateway"] }).2.calls
      = [(Call.ListByRepo [LabelUnreleasedFix] "open" 100 0, none),
         (Call.Create (createRequest (scenario.findingOf "GHSA-dddd" "pkg-d" false)),
           some "502 Bad Gateway")]
    ∧ reconcilePlan scenario.entryOrder
        [scenario.findingOf "GHSA-bbbb" "pkg-b" false, scenario.findingOf "GHSA-dddd" "pkg-d" false]
        (trackedMap { scenario.trackerABC with faults := [none, some "502 Bad Gateway"] })
      = [Call.Create (createRequest (scenario.findingOf "GHSA-dddd" "pkg-d" false)),
         Call.CreateComment 1 staleComment, Call.Edit 1 closeRequest,
         Call.CreateComment 3 staleComment, Call.Edit 3 closeRequest]
    ∧ ∃ listing rest,
      (Reconcile scenario.entryOrder
        [scenario.findingOf "GHSA-bbbb" "pkg-b" false, scenario.findingOf "GHSA-dddd" "pkg-d" false]
        { scenario.trackerABC with faults := [none, some "502 Bad Gateway"] }).2.calls
        = ({ scenario.trackerABC with faults := [none, some "502 Bad Gateway"] } : Tracker).calls
          ++ (listing ++ rest)
      ∧ (∀ x ∈ listing, x.1.isMutation = false)
      ∧ (∀ x ∈ rest, x.1.isMutation = true)
      ∧ stopsAtFirstFailure (Reconcile scenario.entryOrder
          [scenario.findingOf "GHSA-bbbb" "pkg-b" false, scenario.findingOf "GHSA-dddd" "pkg-d" false]
          { scenario.trackerABC with faults := [none, some "502 Bad Gateway"] }).1 (listing ++ rest)
      ∧ ((listTrackedIssues { scenario.trackerABC with faults := [none, some "502 Bad Gateway"] }).1.2
            ≠ none →
          (Reconcile scenario.entryOrder
            [scenario.findingOf "GHSA-bbbb" "pkg-b" false, scenario.findingOf "GHSA-dddd" "pkg-d" false]
            { scenario.trackerABC with faults := [none, some "502 Bad Gateway"] }).1 ≠ none
          ∧ rest = [])
      ∧ rest.map Prod.fst <+: reconcilePlan scenario.entryOrder
          [scenario.findingOf "GHSA-bbbb" "pkg-b" false, scenario.findingOf "GHSA-dddd" "pkg-d" false]
          (trackedMap { scenario.trackerABC with faults := [none, some "502 Bad Gateway"] })
      ∧ ((Reconcile scenario.entryOrder
            [scenario.findingOf "GHSA-bbbb" "pkg-b" false, scenario.findingOf "GHSA-dddd" "pkg-d" false]
            { scenario.trackerABC with faults := [none, some "502 Bad Gateway"] }).1 = none →
          rest.map Prod.fst = reconcilePlan scenario.entryOrder
            [scenario.findingOf "GHSA-bbbb" "pkg-b" false, scenario.findingOf "GHSA-dddd" "pkg-d" false]
            (trackedMap { scenario.trackerABC with faults := [none, some "502 Bad Gateway"] })) :=
  ⟨by decide, by decide, by decide,
    C16_reconcile_stops_at_first_failure scenario.entryOrder
      [scenario.findingOf "GHSA-bbbb" "pkg-b" false, scenario.findingOf "GHSA-dddd" "pkg-d" false]
      { scenario.trackerABC with faults := [none, some "502 Bad Gateway"] }⟩

theorem Replace1_marker (rest : String) :
    strings.Replace1 ("[UNRELEASED FIX] " ++ rest) "[UNRELEASED FIX]" "[RELEASED]"
      = "[RELEASED] " ++ rest := by
  apply String.ext
  show strings.replaceFirst "[UNRELEASED FIX]".data "[RELEASED]".data
      ("[UNRELEASED FIX] " ++ rest).data = ("[RELEASED] " ++ rest).data
  rw [String.data_append, String.data_append]
  rfl

/-- C11, as stated, fails in three ways. (a) With two open issues that both carry
the tracking key A and a released finding for A, a successful run comments on and
edits issue 2, the one the listing keeps for the key, and does nothing to issue
1, which is open, tracked and has the same key. (b) With the open tracked issue B
and two released findings for B, a successful run performs four operations on the
issue, a comment and an edit for each finding. (c) With the open tracked issue B,
a released finding for B and a tracker whose second call fails, the run returns
the error of the comment and the edit is not attempted: one operation, which
leaves the issue as it was. -/
theorem C11_release_not_two_operations :
    ((scenario.trackerAA.matching [LabelUnreleasedFix] "open").map
        (fun i => (i.Number, i.State, extractIssueKey i))
      = [(1, "open", keyOf (scenario.findingOf "GHSA-aaaa" "pkg-a" true)),
         (2, "open", keyOf (scenario.findingOf "GHSA-aaaa" "pkg-a" true))]
      ∧ (Reconcile scenario.entryOrder [scenario.findingOf "GHSA-aaaa" "pkg-a" true]
          scenario.trackerAA).1 = none
      ∧ mutationsSince scenario.trackerAA
          (Reconcile scenario.entryOrder [scenario.findingOf "GHSA-aaaa" "pkg-a" true]
            scenario.trackerAA).2
        = [Call.CreateComment 2
              (RenderFixReleasedComment (scenario.findingOf "GHSA-aaaa" "pkg-a" true)),
           Call.Edit 2
              { Title := some "[RELEASED] GHSA-aaaa — pkg-a (npm)", Body := none,
                Labels := some ["unreleased-fix", "fix-released", "unreleased-fix:GHSA-aaaa:pkg-a"],
                State := none }])
    ∧ ((Reconcile scenario.entryOrder
          [scenario.findingOf "GHSA-bbbb" "pkg-b" true,
           { scenario.findingOf "GHSA-bbbb" "pkg-b" true with FixRelease := "v1.3.1" }]
          scenario.trackerB).1 = none
      ∧ (mutationsSince scenario.trackerB
          (Reconcile scenario.entryOrder
            [scenario.findingOf "GHSA-bbbb" "pkg-b" true,
             { scenario.findingOf "GHSA-bbbb" "pkg-b" true with FixRelease := "v1.3.1" }]
            scenario.trackerB).2).filter (onIssue 1)
        = [Call.CreateComment 1
              (RenderFixReleasedComment (scenario.findingOf "GHSA-bbbb" "pkg-b" true)),
           Call.Edit 1
              { Title := some "[RELEASED] GHSA-bbbb — pkg-b (npm)", Body := none,
                Labels := some ["unreleased-fix", "fix-released", "unreleased-fix:GHSA-bbbb:pkg-b"],
                State := none },
           Call.CreateComment 1
              (RenderFixReleasedComment
                { scenario.findingOf "GHSA-bbbb" "pkg-b" true with FixRelease := "v1.3.1" }),
           Call.Edit 1
              { Title := some "[RELEASED] GHSA-bbbb — pkg-b (npm)", Body := none,
                Labels := some ["unreleased-fix", "fix-released", "unreleased-fix:GHSA-bbbb:pkg-b"],
                State := none }])
    ∧ ((Reconcile scenario.entryOrder [scenario.findingOf "GHSA-bbbb" "pkg-b" true]
          { scenario.trackerB with faults := [none, some "502 Bad Gateway"] }).1
        = some "mark released unreleased-fix:GHSA-bbbb:pkg-b: 502 Bad Gateway"
      ∧ (Reconcile scenario.entryOrder [scenario.findingOf "GHSA-bbbb" "pkg-b" true]
          { scenario.trackerB with faults := [none, some "502 Bad Gateway"] }).2.calls
        = [(Call.ListByRepo [LabelUnreleasedFix] "open" 100 0, none),
           (Call.CreateComment 1
              (RenderFixReleasedComment (scenario.findingOf "GHSA-bbbb" "pkg-b" true)),
            some "502 Bad Gateway")]
      ∧ (Reconcile scenario.entryOrder [scenario.findingOf "GHSA-bbbb" "pkg-b" true]
          { scenario.trackerB with faults := [none, some "502 Bad Gateway"] }).2.issues
        = scenario.trackerB.issues) := by
  decide

/-- C11, amended. For a run of `Reconcile` that returns no error, a finding `f`
with `FixReleased = true` whose tracking key no other finding of the run has, and
the open issue that the listing keeps for that key: the run performs exactly two
operations on the issue, in this order, the fix-released comment rendered from
`f`, then an edit that sets the title to the old title with the first occurrence
of "[UNRELEASED FIX]" replaced by "[RELEASED]" and the labels to
"unreleased-fix", "fix-released" and the tracking key of the issue, which is that
of `f`, and leaves body and state alone. For an issue with the title that
`createIssue` gives, the new title is
"[RELEASED] <advisoryId> — <package> (<ecosystem>)". -/
theorem C11_released_finding_marks_issue (range : GoMap Issue → List (String × Issue))
    (hrange : ∀ m, (range m).Perm m.entries) (pre post : List Finding) (f : Finding)
    (t t' : Tracker) (h : Reconcile range (pre ++ f :: post) t = (none, t'))
    (hkey : ∀ g ∈ pre ++ post, keyOf g ≠ keyOf f)
    (issue : Issue) (hissue : (trackedMap t).lookup (keyOf f) = some issue)
    (hrel : f.FixReleased = true) :
    (mutationsSince t t').filter (onIssue issue.Number)
      = [Call.CreateComment issue.Number (RenderFixReleasedComment f),
         Call.Edit issue.Number (releasedRequest issue)]
    ∧ releasedRequest issue
      = { Title := some (strings.Replace1 issue.Title "[UNRELEASED FIX]" "[RELEASED]"),
          Labels := some ["unreleased-fix", "fix-released", keyOf f],
          Body := none, State := none }
    ∧ (issue ∈ t.matching [LabelUnreleasedFix] "open" ∧ extractIssueKey issue = keyOf f)
    ∧ ∀ f0 : Finding, issue.Title = newIssueTitle f0 →
        (releasedRequest issue).Title
          = some ("[RELEASED] " ++ f0.Advisory.ID ++ " — " ++ f0.Package.Name
              ++ " (" ++ f0.Package.Ecosystem ++ ")") := by
  have hent : (keyOf f, issue) ∈ (trackedMap t).entries := (trackedMap_lookup t _ _).1 hissue
  obtain ⟨hm, hk, _⟩ := trackedMap_entry t _ hent
  simp only at hm hk
  have hother : ∀ g ∈ pre ++ post,
      (callsForFinding (trackedMap t) g).filter (onIssue issue.Number) = [] := by
    intro g hg
    apply filter_eq_nil_of
    intro c hc hn
    obtain ⟨issue', hmem, hnum⟩ := callsForFinding_onIssue t g _ c hc hn
    have := trackedMap_entry_inj t _ _ hmem hent hnum
    exact hkey g hg (congrArg Prod.fst this)
  have hsweep : ∀ e ∈ range (trackedMap t),
      (callsForEntry ((pre ++ f :: post).map keyOf) e).filter (onIssue issue.Number) = [] := by
    intro e he
    apply filter_eq_nil_of
    intro c hc hn
    obtain ⟨hnot, hnum⟩ := callsForEntry_onIssue _ e _ c hc hn
    have := trackedMap_entry_inj t _ _ ((hrange _).mem_iff.1 he) hent hnum
    apply hnot
    rw [this]
    exact List.mem_map_of_mem keyOf (List.mem_append_right _ (List.mem_cons_self _ _))
  refine ⟨?_, ?_, ⟨hm, hk.symm⟩, ?_⟩
  · rw [Reconcile_ok range _ t t' h, List.filter_append, filter_flatMap_nil _ _ _ hsweep,
      List.append_nil, List.flatMap_append, List.flatMap_cons, List.filter_append,
      List.filter_append,
      filter_flatMap_nil pre _ _ fun g hg => hother g (List.mem_append_left _ hg),
      filter_flatMap_nil post _ _ fun g hg => hother g (List.mem_append_right _ hg)]
    simp [callsForFinding, hissue, hrel, onIssue]
  · unfold releasedRequest issueKeyFromIssue
    rw [← hk]
    rfl
  · intro f0 h0
    unfold releasedRequest
    simp only [h0, newIssueTitle, String.append_assoc, Replace1_marker]

/-- C11, amended, at a concrete run: the open tracked issue is B, the findings
are a released one for B and an unreleased one for D. The run comments on issue 1
and edits it, and the new title is "[RELEASED] GHSA-bbbb — pkg-b (npm)". -/
theorem C11_released_finding_marks_issue_witness :
    (Reconcile scenario.entryOrder
        [scenario.findingOf "GHSA-bbbb" "pkg-b" true, scenario.findingOf "GHSA-dddd" "pkg-d" false]
        scenario.trackerB).1 = none
    ∧ (trackedMap scenario.trackerB).lookup (keyOf (scenario.findingOf "GHSA-bbbb" "pkg-b" true))
      = some (Tracker.present 1 (scenario.trackedIssue "GHSA-bbbb" "pkg-b"))
    ∧ (mutationsSince scenario.trackerB
        (Reconcile scenario.entryOrder
          [scenario.findingOf "GHSA-bbbb" "pkg-b" true, scenario.findingOf "GHSA-dddd" "pkg-d" false]
          scenario.trackerB).2).filter (onIssue 1)
      = [Call.CreateComment 1
            (RenderFixReleasedComment (scenario.findingOf "GHSA-bbbb" "pkg-b" true)),
         Call.Edit 1
            (releasedRequest (Tracker.present 1 (scenario.trackedIssue "GHSA-bbbb" "pkg-b")))]
    ∧ (releasedRequest (Tracker.present 1 (scenario.trackedIssue "GHSA-bbbb" "pkg-b"))).Title
      = some ("[RELEASED] " ++ "GHSA-bbbb" ++ " — " ++ "pkg-b" ++ " (" ++ "npm" ++ ")") :=
  ⟨by decide, by decide,
   (C11_released_finding_marks_issue scenario.entryOrder (fun _ => List.Perm.refl _) []
      [scenario.findingOf "GHSA-dddd" "pkg-d" false] (scenario.findingOf "GHSA-bbbb" "pkg-b" true)
      scenario.trackerB _ (Prod.ext (by decide) rfl) (by decide)
      (Tracker.present 1 (scenario.trackedIssue "GHSA-bbbb" "pkg-b")) (by decide) (by decide)).1,
   (C11_released_finding_marks_issue scenario.entryOrder (fun _ => List.Perm.refl _) []
      [scenario.findingOf "GHSA-dddd" "pkg-d" false] (scenario.findingOf "GHSA-bbbb" "pkg-b" true)
      scenario.trackerB _ (Prod.ext (by decide) rfl) (by decide)
      (Tracker.present 1 (scenario.trackedIssue "GHSA-bbbb" "pkg-b")) (by decide) (by decide)).2.2.2
      (scenario.findingOf "GHSA-bbbb" "pkg-b" false) rfl⟩

end issues

/-! ### The calls of the version-control oracle during `Scan` -/

namespace scanner

open lockfile advisory

theorem checkTagsLogged_fst (rc : vcs.RepoClient) (owner repo sha : String) (tags : List vcs.Tag) :
    (checkTagsLogged rc owner repo sha tags).1 = checkTags rc owner repo sha tags := by
  induction tags with
  | nil => rfl
  | cons tag rest ih =>
    unfold checkTagsLogged checkTags
    cases rc.IsAncestor owner repo tag.Name sha with
    | error e => exact ih
    | ok b =>
      cases b
      · simpa using ih
      · rfl

theorem checkTagsLogged_calls (rc : vcs.RepoClient) (owner repo sha : String)
    (tags : List vcs.Tag) :
    ∀ c ∈ (checkTagsLogged rc owner repo sha tags).2,
      ∃ tag ∈ tags, c = vcs.OracleCall.IsAncestor owner repo tag.Name sha := by
  induction tags with
  | nil =>
    intro c hc
    simp [checkTagsLogged] at hc
  | cons tag rest ih =>
    intro c hc
    unfold checkTagsLogged at hc
    have hrest : c = vcs.OracleCall.IsAncestor owner repo tag.Name sha
        ∨ c ∈ (checkTagsLogged rc owner repo sha rest).2 →
        ∃ t ∈ tag :: rest, c = vcs.OracleCall.IsAncestor owner repo t.Name sha := by
      intro h
      rcases h with h | h
      · exact ⟨tag, List.mem_cons_self _ _, h⟩
      · obtain ⟨t, ht, e⟩ := ih c h
        exact ⟨t, List.mem_cons_of_mem _ ht, e⟩
    cases hr : rc.IsAncestor owner repo tag.Name sha with
    | error e =>
      rw [hr] at hc
      exact hrest (List.mem_cons.1 hc)
    | ok b =>
      rw [hr] at hc
      cases b
      · simp only [Bool.false_eq_true, if_false] at hc
        exact hrest (List.mem_cons.1 hc)
      · simp only [if_true, List.mem_singleton] at hc
        exact hrest (Or.inl hc)

theorem checkFixReleasedLogged_fst (s : Scanner) (sourceRepo sha : String) :
    (s.checkFixReleasedLogged sourceRepo sha).1 = s.checkFixReleased sourceRepo sha := by
  unfold Scanner.checkFixReleasedLogged Scanner.checkFixReleased
  rcases vcs.ParseGitHubRepo sourceRepo with ⟨o, r, err⟩
  cases err with
  | some e => rfl
  | none =>
    simp only []
    cases s.repoClient.ListTags o r with
    | error e => rfl
    | ok tags => exact checkTagsLogged_fst _ _ _ _ _

theorem checkFixReleasedLogged_normalised (s : Scanner) (o r sha : String) (ho : o ≠ "")
    (hr : r ≠ "") (ho' : '/' ∉ o.data) (hr' : '/' ∉ r.data)
    (hsuf : strings.HasSuffix r ".git" = false) :
    (s.checkFixReleasedLogged ("github.com/" ++ o ++ "/" ++ r) sha).2
      = vcs.OracleCall.ListTags o r ::
          match s.repoClient.ListTags o r with
          | .error _ => []
          | .ok tags => (checkTagsLogged s.repoClient o r sha tags).2 := by
  unfold Scanner.checkFixReleasedLogged
  rw [vcs.ParseGitHubRepo_normalised o r ho hr ho' hr' hsuf]
  simp only []
  cases s.repoClient.ListTags o r <;> rfl

section OracleCalls

seal Scanner.checkFixReleased Scanner.checkFixReleasedLogged vcs.ParseGitHubRepo
  registry.normalizeGitURL

theorem releaseStepLogged_fst (s : Scanner) (f : Finding) :
    (releaseStepLogged s f).1 = releaseStep s f := by
  unfold releaseStepLogged releaseStep
  split
  · have h := checkFixReleasedLogged_fst s f.SourceRepo f.FixCommit
    rcases hl : s.checkFixReleasedLogged f.SourceRepo f.FixCommit with ⟨⟨rel, name, err⟩, calls⟩
    rw [hl] at h
    simp only at h
    rw [← h]
    cases err <;> rfl
  · rfl

theorem scanAdvisoryLogged_fst (net : registry.Network) (s : Scanner) (dep : Dependency)
    (st : List Finding × List vcs.OracleCall) (adv : Advisory) :
    (scanAdvisoryLogged net s dep st adv).1 = scanAdvisory net s dep st.1 adv := by
  unfold scanAdvisoryLogged scanAdvisory
  split
  · rfl
  · split
    · rfl
    · simp only []
      rw [releaseStepLogged_fst]
      split <;> rfl

theorem foldl_scanAdvisoryLogged_fst (net : registry.Network) (s : Scanner) (dep : Dependency)
    (advs : List Advisory) (st : List Finding × List vcs.OracleCall) :
    (advs.foldl (scanAdvisoryLogged net s dep) st).1 = advs.foldl (scanAdvisory net s dep) st.1 := by
  induction advs generalizing st with
  | nil => rfl
  | cons a rest ih => rw [List.foldl_cons, List.foldl_cons, ih, scanAdvisoryLogged_fst]

theorem scanDepLogged_fst (net : registry.Network) (s : Scanner) (m : GoMap (List Advisory))
    (st : List Finding × List vcs.OracleCall) (dep : Dependency) :
    (scanDepLogged net s m st dep).1 = scanDep net s m st.1 dep := by
  unfold scanDepLogged scanDep
  simp only []
  cases m.lookup (dep.Ecosystem ++ ":" ++ dep.Name) with
  | none => rfl
  | some advs => exact foldl_scanAdvisoryLogged_fst net s dep advs st

theorem foldl_scanDepLogged_fst (net : registry.Network) (s : Scanner) (m : GoMap (List Advisory))
    (deps : List Dependency) (st : List Finding × List vcs.OracleCall) :
    (deps.foldl (scanDepLogged net s m) st).1 = deps.foldl (scanDep net s m) st.1 := by
  induction deps generalizing st with
  | nil => rfl
  | cons d rest ih => rw [List.foldl_cons, List.foldl_cons, ih, scanDepLogged_fst]

/-- The run with the record of the oracle calls returns what `Scan` returns. -/
theorem ScanLogged_fst (net : registry.Network) (s : Scanner) (deps : List Dependency) :
    (s.ScanLogged net deps).1 = s.Scan net deps := by
  unfold Scanner.ScanLogged Scanner.Scan
  cases s.advisorySource.QueryBatch (buildQueries deps) with
  | error e => rfl
  | ok m =>
    simp only []
    rw [foldl_scanDepLogged_fst]

unseal Scanner.checkFixReleasedLogged in
/-- The release check makes no oracle call when the fix commit is empty, no
source repo was resolved, the source repo does not contain `github.com`, or the
source repo cannot be parsed; the finding stays as it is. -/
theorem releaseStepLogged_quiet (s : Scanner) (f : Finding)
    (h : f.FixCommit = "" ∨ f.SourceRepo = ""
      ∨ strings.Contains f.SourceRepo "github.com" = false
      ∨ (vcs.ParseGitHubRepo f.SourceRepo).2.2 ≠ none) :
    releaseStepLogged s f = (f, []) := by
  unfold releaseStepLogged
  split
  · rename_i hg
    rcases h with h | h | h | h
    · exact absurd h hg.1
    · exact absurd h hg.2.1
    · rw [h] at hg
      exact absurd hg.2.2 (by simp)
    · unfold Scanner.checkFixReleasedLogged
      rcases hp : vcs.ParseGitHubRepo f.SourceRepo with ⟨owner, repo, err⟩
      rw [hp] at h
      cases err with
      | none => exact absurd rfl h
      | some e => rfl
  · rfl

end OracleCalls

end scanner

namespace scanner

open lockfile advisory

/-- C19 fails on the code. The package's source repo is
`gitlab.com/foo/github.com-tools`, whose host is not `github.com`: npm reports it
as `https://gitlab.com/foo/github.com-tools.git`, PyPI as the home page
`https://gitlab.com/foo/github.com-tools`. The guard of `Scan` only looks for the
characters `github.com` in the string, and `ParseGitHubRepo` takes the first two
segments whatever the host is, so `Scan` consults the oracle, and it asks about
the owner `gitlab.com` and the repo `foo`, which are not the owner and repo
segments of the location: the calls are `ListTags gitlab.com foo` and
`IsAncestor gitlab.com foo v1.3.0 abc1234def`. When that other repository has a
tag that contains the commit, the finding is dropped; when it has not, the
finding is returned. For the location `github.com/foo/foo` the calls are about
the owner `foo` and the repo `foo`. -/
theorem C19_oracle_asked_about_another_repository :
    (resolvedSourceRepo (scenario.netWith "https://gitlab.com/foo/github.com-tools.git")
        scenario.foo = "gitlab.com/foo/github.com-tools"
      ∧ (scenario.scannerOver (scenario.clientFor "gitlab.com" "foo" true)).ScanLogged
          (scenario.netWith "https://gitlab.com/foo/github.com-tools.git") [scenario.foo]
        = (([], none),
           [vcs.OracleCall.ListTags "gitlab.com" "foo",
            vcs.OracleCall.IsAncestor "gitlab.com" "foo" "v1.3.0" "abc1234def"])
      ∧ (scenario.scannerOver (scenario.clientFor "gitlab.com" "foo" true)).Scan
          (scenario.netWith "https://gitlab.com/foo/github.com-tools.git") [scenario.foo]
        = ([], none)
      ∧ (scenario.scannerOver (scenario.clientFor "gitlab.com" "foo" false)).Scan
          (scenario.netWith "https://gitlab.com/foo/github.com-tools.git") [scenario.foo]
        = ([{ Advisory := scenario.ghsa, Package := scenario.foo, FixCommit := "abc1234def",
              FixReleased := false, FixRelease := "",
              SourceRepo := "gitlab.com/foo/github.com-tools" }], none))
    ∧ (resolvedSourceRepo (scenario.netHomePage "https://gitlab.com/foo/github.com-tools")
        scenario.fooPyPI = "gitlab.com/foo/github.com-tools"
      ∧ (Scanner.mk scenario.sourcePyPI (scenario.clientFor "gitlab.com" "foo" true)
            config.Default).ScanLogged
          (scenario.netHomePage "https://gitlab.com/foo/github.com-tools") [scenario.fooPyPI]
        = (([], none),
           [vcs.OracleCall.ListTags "gitlab.com" "foo",
            vcs.OracleCall.IsAncestor "gitlab.com" "foo" "v1.3.0" "abc1234def"])
      ∧ (Scanner.mk scenario.sourcePyPI (scenario.clientFor "gitlab.com" "foo" true)
            config.Default).Scan
          (scenario.netHomePage "https://gitlab.com/foo/github.com-tools") [scenario.fooPyPI]
        = ([], none))
    ∧ (resolvedSourceRepo scenario.net scenario.foo = "github.com/foo/foo"
      ∧ (scenario.scannerWith true).ScanLogged scenario.net [scenario.foo]
        = (([], none),
           [vcs.OracleCall.ListTags "foo" "foo",
            vcs.OracleCall.IsAncestor "foo" "foo" "v1.3.0" "abc1234def"])) := by
  decide

end scanner

/-! ### The lockfile parsers and repeated entries -/

namespace lockfile

theorem gomodLine_inv (st : GoMap Bool × List Dependency) (text : String)
    (h1 : ∀ d ∈ st.2, (st.1.lookup (d.Name ++ "@" ++ d.Version)).getD false = true)
    (h2 : (st.2.map fun d => (d.Name, d.Version)).Nodup) :
    (∀ d ∈ (gomodLine st text).2,
        ((gomodLine st text).1.lookup (d.Name ++ "@" ++ d.Version)).getD false = true)
    ∧ ((gomodLine st text).2.map fun d => (d.Name, d.Version)).Nodup := by
  unfold gomodLine
  split
  · rename_i mod ver rest _
    simp only []
    split
    · exact ⟨h1, h2⟩
    · rename_i hseen
      constructor
      · intro d hd
        simp only [] at hd ⊢
        rw [GoMap.lookup_insert]
        split
        · rfl
        · rename_i hne
          rcases List.mem_append.1 hd with hd | hd
          · exact h1 d hd
          · rw [List.mem_singleton] at hd
            subst hd
            exact absurd rfl hne
      · simp only [List.map_append, List.map_cons, List.map_nil]
        rw [List.nodup_append]
        refine ⟨h2, List.nodup_singleton _, ?_⟩
        intro x hx hx'
        rw [List.mem_singleton] at hx'
        subst hx'
        obtain ⟨d, hd, e⟩ := List.mem_map.1 hx
        have := h1 d hd
        simp only [Prod.mk.injEq] at e
        rw [e.1, e.2] at this
        exact hseen this
  · exact ⟨h1, h2⟩

theorem gomod_foldl_inv (lines : List String) (st : GoMap Bool × List Dependency)
    (h1 : ∀ d ∈ st.2, (st.1.lookup (d.Name ++ "@" ++ d.Version)).getD false = true)
    (h2 : (st.2.map fun d => (d.Name, d.Version)).Nodup) :
    ((lines.foldl gomodLine st).2.map fun d => (d.Name, d.Version)).Nodup := by
  induction lines generalizing st with
  | nil => exact h2
  | cons l rest ih =>
    rw [List.foldl_cons]
    exact ih _ (gomodLine_inv st l h1 h2).1 (gomodLine_inv st l h1 h2).2

/-- The Go parser returns no `(name, version)` pair twice, whatever the file
holds: its `seen` map filters repeated entries. -/
theorem GoModParser_nodup (file : FileLines) :
    ((GoModParser.Parse file).1.map fun d => (d.Name, d.Version)).Nodup := by
  unfold GoModParser.Parse
  cases file with
  | error e => exact List.nodup_nil
  | ok p =>
    obtain ⟨lines, err⟩ := p
    exact gomod_foldl_inv lines _ (fun d hd => by simp at hd) List.nodup_nil

end lockfile

namespace scanner

open lockfile advisory

/-- C15 fails on the code. A requirements file that pins `foo==1.2.0` twice is
parsed by `(*PyPIParser).Parse` into a dependency list that holds `foo@1.2.0`
twice, since this parser, unlike `(*GoModParser).Parse` and the npm parser,
keeps no `seen` map; `Scan` has no deduplication of its own and returns the
finding for `GHSA-xxxx` on `foo@1.2.0` twice, and `Reconcile` on these findings
creates two issues. The Go parser, given the two lines that `go.sum` holds for
one module version, returns the module once. -/
theorem C15_repeated_pin_reported_twice :
    PyPIParser.Parse scenario.requirementsTwice = ([scenario.fooPyPI, scenario.fooPyPI], none)
    ∧ scenario.scannerPyPI.Scan scenario.netPyPI (PyPIParser.Parse scenario.requirementsTwice).1
      = ([{ Advisory := scenario.ghsa, Package := scenario.fooPyPI, FixCommit := "abc1234def",
            FixReleased := false, FixRelease := "", SourceRepo := "github.com/foo/foo" },
          { Advisory := scenario.ghsa, Package := scenario.fooPyPI, FixCommit := "abc1234def",
            FixReleased := false, FixRelease := "", SourceRepo := "github.com/foo/foo" }], none)
    ∧ ¬ ((scenario.scannerPyPI.Scan scenario.netPyPI
          (PyPIParser.Parse scenario.requirementsTwice).1).1.map
        (fun f => (f.Advisory.ID, f.Package.Name, f.Package.Version))).Nodup
    ∧ GoModParser.Parse scenario.goSum
      = ([{ Name := "example.com/foo", Version := "v1.2.0", Ecosystem := "Go" }], none)
    ∧ (issues.mutationsSince scenario.trackerEmpty
        (issues.Reconcile scenario.entryOrder
          (scenario.scannerPyPI.Scan scenario.netPyPI
            (PyPIParser.Parse scenario.requirementsTwice).1).1 scenario.trackerEmpty).2).map
        (issues.createsFor "unreleased-fix:GHSA-xxxx:foo")
      = [true, true] := by
  decide

end scanner

namespace scanner

open lockfile advisory

section QuietCheck

seal Scanner.checkFixReleased Scanner.checkFixReleasedLogged vcs.ParseGitHubRepo
  registry.normalizeGitURL

/-- For a pair that passes the filters, when the fix commit is empty, no source
repo was resolved, the source repo does not contain `github.com`, or the source
repo cannot be parsed, the iteration of `Scan` makes no oracle call and appends
the finding, not released. -/
theorem scanAdvisoryLogged_quiet (net : registry.Network) (s : Scanner) (dep : Dependency)
    (adv : Advisory) (st : List Finding × List vcs.OracleCall)
    (hp : passesFilters s dep adv = true)
    (h : adv.FixCommit = "" ∨ resolvedSourceRepo net dep = ""
      ∨ strings.Contains (resolvedSourceRepo net dep) "github.com" = false
      ∨ (vcs.ParseGitHubRepo (resolvedSourceRepo net dep)).2.2 ≠ none) :
    scanAdvisoryLogged net s dep st adv = (st.1 ++ [findingFor net dep adv], st.2) := by
  unfold passesFilters at hp
  rw [Bool.and_eq_true, Bool.not_eq_true'] at hp
  unfold scanAdvisoryLogged
  rw [if_neg (by rw [hp.1]; exact Bool.false_ne_true), if_neg (by rw [hp.2]; decide)]
  simp only []
  rw [lookupStep_eq, releaseStepLogged_quiet s (findingFor net dep adv) h]
  simp [findingFor]

end QuietCheck

end scanner
